import Mathlib

/-!
# node-archive-support: a shallow embedding of the archive overlay

The development follows the C++ sources under `src/archive`:

* `archive.h` / `archive.cc`        : `ArchiveDir`, `Archive::SplitPath`, `Archive::FilePathToParts`,
                                      `Archive::Find`
* `archive_junzip.h` / `.cc`        : `ArchiveJUnzip` and its `fs_*` handlers
* `manager.h` / `manager.cc`        : `Mappings`, `Manager` and its `fs_*` dispatchers
* `uv_schedule_delay.h` / `.cc`     : `UvScheduleDelay::Schedule`

Conventions of the embedding

* `std::string` is a list of characters, one `Char` per byte (`Str`).
* `std::map` is a list of key/value pairs kept strictly ascending by key (`StdMap`).
* heap objects are cells of an explicit heap and a pointer is the index of its cell;
  `nullptr` is `none`.
* `int` / `uv_file` are integers, reduced with `toInt32` where the C++ code narrows or may wrap.
* a request object (`uv_fs_t`) is passed in and handed back by every operation; deferred
  completions and real-filesystem calls are recorded in an explicit `Loop` state.
-/

namespace archive

/-! ## Strings and `std::map` -/

/-- The type `std::string`: a sequence of bytes, one `Char` per byte. -/
abbrev Str := List Char

/-- A strict total order on keys, the `std::less` of a `std::map`. -/
class KeyOrder (K : Type) where
  lt : K → K → Bool
  irrefl : ∀ a, lt a a = false
  trans : ∀ a b c, lt a b = true → lt b c = true → lt a c = true
  total : ∀ a b, lt a b = false → lt b a = false → a = b

/-- Comparison of two `std::string`s with `operator<`: byte-wise lexicographic, a proper prefix
is smaller. -/
def strLt : Str → Str → Bool
  | [], [] => false
  | [], _ :: _ => true
  | _ :: _, [] => false
  | a :: as, b :: bs =>
    if a.toNat < b.toNat then true
    else if b.toNat < a.toNat then false
    else strLt as bs

/-- Insertion into the sorted list behind a `std::map`: `std::map::insert` keeps the old
binding when the key is already there. -/
def insertList {K V : Type} [KeyOrder K] (k : K) (v : V) : List (K × V) → List (K × V)
  | [] => [(k, v)]
  | (k', v') :: t =>
    if KeyOrder.lt k k' then (k, v) :: (k', v') :: t
    else if KeyOrder.lt k' k then (k', v') :: insertList k v t
    else (k', v') :: t

/-- Lookup in the sorted list behind a `std::map`: the first binding whose key is equivalent
to `k`. -/
def findList {K V : Type} [KeyOrder K] (k : K) : List (K × V) → Option V
  | [] => none
  | (k', v') :: t =>
    if KeyOrder.lt k k' then findList k t
    else if KeyOrder.lt k' k then findList k t
    else some v'

/-- Removal of the binding found for `k` (`std::map::erase` on the iterator returned by
`find`). -/
def eraseList {K V : Type} [KeyOrder K] (k : K) : List (K × V) → List (K × V)
  | [] => []
  | (k', v') :: t =>
    if KeyOrder.lt k k' then (k', v') :: eraseList k t
    else if KeyOrder.lt k' k then (k', v') :: eraseList k t
    else t

/-- Strictly ascending keys. -/
def SortedKeys {K V : Type} [KeyOrder K] (l : List (K × V)) : Prop :=
  l.Pairwise (fun a b => KeyOrder.lt a.1 b.1 = true)

theorem strLt_irrefl : ∀ a : Str, strLt a a = false
  | [] => rfl
  | a :: as => by simp [strLt, strLt_irrefl as]

theorem strLt_trans : ∀ a b c : Str, strLt a b = true → strLt b c = true → strLt a c = true
  | [], [], _, h, _ => by simp [strLt] at h
  | [], _ :: _, [], _, h => by simp [strLt] at h
  | [], _ :: _, _ :: _, _, _ => by simp [strLt]
  | _ :: _, [], _, h, _ => by simp [strLt] at h
  | _ :: _, _ :: _, [], _, h => by simp [strLt] at h
  | a :: as, b :: bs, c :: cs, h1, h2 => by
    simp only [strLt] at h1 h2 ⊢
    have ih := strLt_trans as bs cs
    split_ifs at h1 h2 ⊢ <;> first | rfl | omega | exact ih h1 h2

theorem strLt_total : ∀ a b : Str, strLt a b = false → strLt b a = false → a = b
  | [], [], _, _ => rfl
  | [], _ :: _, h, _ => by simp [strLt] at h
  | _ :: _, [], _, h => by simp [strLt] at h
  | a :: as, b :: bs, h1, h2 => by
    simp only [strLt] at h1 h2
    have ih := strLt_total as bs
    split_ifs at h1 h2
    have hn : a.toNat = b.toNat := by omega
    have hab : a = b := by
      apply Char.ext; apply UInt32.ext; exact hn
    rw [hab, ih h1 h2]

instance : KeyOrder Str where
  lt := strLt
  irrefl := strLt_irrefl
  trans := strLt_trans
  total := strLt_total

/-- The order of `uv_file` keys (`int`). -/
instance : KeyOrder Int where
  lt a b := decide (a < b)
  irrefl a := by simp
  trans a b c := by simp only [decide_eq_true_eq]; omega
  total a b := by simp only [decide_eq_false_iff_not]; omega

theorem mem_insertList {K V : Type} [KeyOrder K] (k : K) (v : V) :
    ∀ (l : List (K × V)) (p : K × V), p ∈ insertList k v l → p = (k, v) ∨ p ∈ l
  | [], p, h => by simp [insertList] at h; exact Or.inl h
  | (k', v') :: t, p, h => by
    simp only [insertList] at h
    split_ifs at h
    · simp only [List.mem_cons] at h ⊢; exact h
    · simp only [List.mem_cons] at h ⊢
      rcases h with h | h
      · exact Or.inr (Or.inl h)
      · rcases mem_insertList k v t p h with h | h
        · exact Or.inl h
        · exact Or.inr (Or.inr h)
    · exact Or.inr h

theorem mem_eraseList {K V : Type} [KeyOrder K] (k : K) :
    ∀ (l : List (K × V)) (p : K × V), p ∈ eraseList k l → p ∈ l
  | [], p, h => by simp [eraseList] at h
  | (k', v') :: t, p, h => by
    simp only [eraseList] at h
    split_ifs at h
    · simp only [List.mem_cons] at h ⊢
      exact h.imp id (mem_eraseList k t p)
    · simp only [List.mem_cons] at h ⊢
      exact h.imp id (mem_eraseList k t p)
    · exact List.mem_cons_of_mem _ h

theorem insertList_sorted {K V : Type} [KeyOrder K] (k : K) (v : V) :
    ∀ l : List (K × V), SortedKeys l → SortedKeys (insertList k v l)
  | [], _ => by simp [insertList, SortedKeys]
  | (k', v') :: t, h => by
    unfold SortedKeys at h ⊢
    rw [List.pairwise_cons] at h
    simp only [insertList]
    split_ifs with h1 h2
    · refine List.pairwise_cons.2 ⟨?_, List.pairwise_cons.2 h⟩
      intro p hp
      rcases List.mem_cons.1 hp with hp | hp
      · rw [hp]; exact h1
      · exact KeyOrder.trans _ _ _ h1 (h.1 p hp)
    · refine List.pairwise_cons.2 ⟨?_, insertList_sorted k v t h.2⟩
      intro p hp
      rcases mem_insertList k v t p hp with hp | hp
      · rw [hp]; exact h2
      · exact h.1 p hp
    · exact List.pairwise_cons.2 h

theorem eraseList_sorted {K V : Type} [KeyOrder K] (k : K) :
    ∀ l : List (K × V), SortedKeys l → SortedKeys (eraseList k l)
  | [], _ => by simp [eraseList, SortedKeys]
  | (k', v') :: t, h => by
    unfold SortedKeys at h ⊢
    rw [List.pairwise_cons] at h
    simp only [eraseList]
    split_ifs
    · exact List.pairwise_cons.2 ⟨fun p hp => h.1 p (mem_eraseList k t p hp), eraseList_sorted k t h.2⟩
    · exact List.pairwise_cons.2 ⟨fun p hp => h.1 p (mem_eraseList k t p hp), eraseList_sorted k t h.2⟩
    · exact h.2

/-- The type `std::map<K, V>`: bindings in strictly ascending key order. Iteration
(`begin()` .. `end()`) visits `entries` from left to right. -/
structure StdMap (K V : Type) [KeyOrder K] where
  entries : List (K × V)
  sorted : SortedKeys entries

namespace StdMap

variable {K V : Type} [KeyOrder K]

/-- A default-constructed map. -/
def empty : StdMap K V := ⟨[], List.Pairwise.nil⟩

/-- The call `m.find(k)`: `none` is `end()`, `some v` the mapped value of the found binding. -/
def find (m : StdMap K V) (k : K) : Option V := findList k m.entries

/-- The call `m.insert(std::pair(k, v))`. -/
def insert (m : StdMap K V) (k : K) (v : V) : StdMap K V :=
  ⟨insertList k v m.entries, insertList_sorted k v m.entries m.sorted⟩

/-- The call `m.erase(m.find(k))` for a key that was found (and no change otherwise). -/
def erase (m : StdMap K V) (k : K) : StdMap K V :=
  ⟨eraseList k m.entries, eraseList_sorted k m.entries m.sorted⟩

/-- The call `m.size()`. -/
def size (m : StdMap K V) : Nat := m.entries.length

/-- The keys in iteration order. -/
def keys (m : StdMap K V) : List K := m.entries.map Prod.fst

end StdMap

instance {K V : Type} [KeyOrder K] : Inhabited (StdMap K V) := ⟨StdMap.empty⟩

/-- The call `hay.find(needle)` of `std::string`, started at offset `pos` of the original
string, of which `hay` is the part from `pos` on: the first position at which `needle` occurs;
`none` is `std::string::npos`. -/
def strFindFrom (needle : Str) : Str → Nat → Option Nat
  | [], pos => if needle.isPrefixOf [] then some pos else none
  | c :: t, pos => if needle.isPrefixOf (c :: t) then some pos else strFindFrom needle t (pos + 1)

/-- The call `hay.find(needle)` of `std::string`. -/
def strFind (hay needle : Str) : Option Nat := strFindFrom needle hay 0

/-- The call `text.substr(start, n)`. -/
def substr (text : Str) (start n : Nat) : Str := (text.drop start).take n

/-- The call `text.substr(start)`. -/
def substrFrom (text : Str) (start : Nat) : Str := text.drop start

/-- Reduction of an integer to the range of a 32-bit `int` (two's complement). -/
def toInt32 (x : Int) : Int := (x + 2147483648) % 4294967296 - 2147483648

/-! ## The archive index (`archive.h`, `archive_junzip.h`) -/

/-- The enumeration `ArchiveFileJUnzip::ExtractStates`. -/
inductive ExtractStates where
  | NotExtracted
  | Extracting
  | Extracted
  deriving DecidableEq, Repr

/-- The struct `ArchiveFileJUnzip` (with the members of `ArchiveFile` and `ArchiveItem`). -/
structure ArchiveFileJUnzip where
  lastModified_ : Int := 0
  id_ : Int := 0
  size_ : Nat := 0
  archiveId_ : Int := 0
  offset_ : Int := -1
  exstracted_ : ExtractStates := ExtractStates.NotExtracted
  deriving Repr

/-- The struct `ArchiveDirJUnzip` (with the members of `ArchiveDir` and `ArchiveItem`).
The maps hold pointers: `dirs_` into the heap of directories, `files_` into the heap of
files of the owning archive. -/
structure ArchiveDirJUnzip where
  lastModified_ : Int := 0
  id_ : Int := 0
  dirs_ : StdMap Str Nat := StdMap.empty
  files_ : StdMap Str Nat := StdMap.empty

instance : Inhabited ArchiveFileJUnzip := ⟨{}⟩

instance : Inhabited ArchiveDirJUnzip := ⟨{}⟩

/-- A non-null `ArchiveItem*`; the constructor is what `IsFile()` tells apart. -/
inductive ItemPtr where
  | dir (p : Nat)
  | file (p : Nat)
  deriving DecidableEq, Repr

/-- The virtual call `IsFile()`. -/
def ItemPtr.IsFile : ItemPtr → Bool
  | ItemPtr.dir _ => false
  | ItemPtr.file _ => true

/-- The method `ArchiveDir::FindDir`. -/
def ArchiveDirJUnzip.FindDir (d : ArchiveDirJUnzip) (name : Str) : Option Nat :=
  d.dirs_.find name

/-- The method `ArchiveDir::FindFile`. -/
def ArchiveDirJUnzip.FindFile (d : ArchiveDirJUnzip) (name : Str) : Option Nat :=
  d.files_.find name

/-- The method `ArchiveDir::Add( name, ArchiveFile* )`. -/
def ArchiveDirJUnzip.AddFile (d : ArchiveDirJUnzip) (name : Str) (file_node : Nat) :
    ArchiveDirJUnzip :=
  { d with files_ := d.files_.insert name file_node }

/-- The method `ArchiveDir::Add( name, ArchiveDir* )`. -/
def ArchiveDirJUnzip.AddDir (d : ArchiveDirJUnzip) (name : Str) (dir_node : Nat) :
    ArchiveDirJUnzip :=
  { d with dirs_ := d.dirs_.insert name dir_node }

/-- The struct `ArchiveJUnzip::OpenFileInfo`. -/
structure OpenFileInfo where
  target_ : Option ItemPtr := none
  real_fileId_ : Int := 0
  deriving DecidableEq

/-- The class `ArchiveJUnzip` (with the members of `Archive`). `dirHeap` and `fileHeap` hold
the `ArchiveDirJUnzip` and `ArchiveFileJUnzip` objects of the index; cell 0 of `dirHeap` is
the member `root_`. `mounted` says whether `zip_file_handle_` is non-null. -/
structure ArchiveJUnzip where
  id_ : Int := 0
  mount_point_ : Str := []
  archive_filepath_ : Str := []
  temp_path_ : Str := []
  dirHeap : List ArchiveDirJUnzip := [{}]
  fileHeap : List ArchiveFileJUnzip := []
  open_files_ : StdMap Int OpenFileInfo := StdMap.empty
  extract_on_mount_ : Bool := false
  md5_hash_ : Str := []
  is_unsafe_ : Bool := false
  mounted : Bool := false

/-- Dereference of an `ArchiveDir*`. -/
def ArchiveJUnzip.dirAt (a : ArchiveJUnzip) (p : Nat) : ArchiveDirJUnzip :=
  a.dirHeap[p]?.getD default

/-- Dereference of an `ArchiveFile*`. -/
def ArchiveJUnzip.fileAt (a : ArchiveJUnzip) (p : Nat) : ArchiveFileJUnzip :=
  a.fileHeap[p]?.getD default

/-- The method `ArchiveJUnzip::Root`: the address of `root_`. -/
def ArchiveJUnzip.Root (_a : ArchiveJUnzip) : Nat := 0

/-- The method `Archive::MountPoint`. -/
def ArchiveJUnzip.MountPoint (a : ArchiveJUnzip) : Str := a.mount_point_

/-- The loop of `Archive::Find`; `dirNode` and `ret` are the local variables. -/
def ArchiveJUnzip.FindLoop (a : ArchiveJUnzip) :
    List Str → Option Nat → Option ItemPtr → Option ItemPtr
  | [], _, ret => ret
  | _ :: _, none, _ => none
  | i :: rest, some dirNode, _ =>
    match (a.dirAt dirNode).FindDir i with
    | none => a.FindLoop rest none (((a.dirAt dirNode).FindFile i).map ItemPtr.file)
    | some sDir => a.FindLoop rest (some sDir) (some (ItemPtr.dir sDir))

/-- The method `Archive::Find`. -/
def ArchiveJUnzip.Find (a : ArchiveJUnzip) (path_parts : List Str) : Option ItemPtr :=
  if path_parts.length = 0 then some (ItemPtr.dir a.Root)
  else a.FindLoop path_parts (some a.Root) none

/-- The function `FindNextDirSeperator` of `archive.cc`, on the part `rest` of the path that
starts at `starting_position`. -/
def FindNextDirSeperator : Str → Nat → Option Nat
  | [], _ => none
  | c :: t, starting_position =>
    if c = '/' then some starting_position
    else if c = '\\' then some starting_position
    else FindNextDirSeperator t (starting_position + 1)

/-- The `while` loop of `Archive::FilePathToParts`; `fuel` bounds the number of rounds, each
of which moves `start` forward. -/
def FilePathToPartsLoop (relativePath : Str) : Nat → Nat → List Str → List Str × Nat
  | 0, start, ret => (ret, start)
  | fuel + 1, start, ret =>
    match FindNextDirSeperator (relativePath.drop start) start with
    | none => (ret, start)
    | some e =>
      let tmp := substr relativePath start (e - start)
      let ret1 := if e ≠ start then (if tmp.length ≠ 0 then ret ++ [tmp] else ret) else ret
      FilePathToPartsLoop relativePath fuel (e + 1) ret1

/-- The method `Archive::FilePathToParts` (non-Windows build): `filepath + mount_point_.length()`
is the path without its first `mount_point_.length()` characters. -/
def ArchiveJUnzip.FilePathToParts (a : ArchiveJUnzip) (filepath : Str) : List Str :=
  let relativePath := filepath.drop a.mount_point_.length
  if relativePath.length ≠ 0 then
    let (ret, start) := FilePathToPartsLoop relativePath (relativePath.length + 1) 0 []
    let tmp1 := substrFrom relativePath start
    if tmp1.length ≠ 0 then ret ++ [tmp1] else ret
  else []

/-- The function `FindNextPathMarker` of `archive.cc` (non-Windows build), `str.find( '/',
offset )`, on the part `rest` of the string that starts at `offset`. -/
def FindNextPathMarker : Str → Nat → Option Nat
  | [], _ => none
  | c :: t, offset =>
    if c = '/' then some offset else FindNextPathMarker t (offset + 1)

/-- The `while` loop of `Archive::SplitPath`; `fuel` bounds the number of rounds, each of
which moves `start` forward. -/
def SplitPathLoop (text : Str) : Nat → Nat → List Str → List Str × Nat
  | 0, start, ret => (ret, start)
  | fuel + 1, start, ret =>
    match FindNextPathMarker (text.drop start) start with
    | none => (ret, start)
    | some e =>
      let ret1 := if e ≠ start then ret ++ [substr text start (e - start)] else ret
      SplitPathLoop text fuel (e + 1) ret1

/-- The method `Archive::SplitPath` (non-Windows build): the segments, and the value of the
out-parameter `does_it_ends_with_dir_seperator` afterwards (it is left as it was for the empty
string). -/
def SplitPath (text : Str) (does_it_ends_with_dir_seperator : Bool) : List Str × Bool :=
  if text.length ≠ 0 then
    let ends := if text.getLast? = some '/' then true else false
    let looped := SplitPathLoop text (text.length + 1) 0 []
    let tmp1 := substrFrom text looped.2
    (if tmp1.length ≠ 0 then looped.1 ++ [tmp1] else looped.1, ends)
  else ([], does_it_ends_with_dir_seperator)

/-! ## Index construction (`archive_junzip.cc`) -/

/-- The method `ArchiveJUnzip::CacheFilePath( const ArchiveFileJUnzip* )`. -/
def ArchiveJUnzip.CacheFilePathOf (a : ArchiveJUnzip) (file : ArchiveFileJUnzip) : Str :=
  a.temp_path_ ++ "/".toList ++ (toString file.archiveId_).toList ++ ".cache".toList

/-- Modelled from the spec: the struct `JZFileHeader` of the ZIP decoder (`junzip.h`, which is
not part of the sources): the members of a central-directory record the sources read. -/
structure JZFileHeader where
  lastModFileTime : Nat := 0
  lastModFileDate : Nat := 0
  compressedSize : Nat := 0
  uncompressedSize : Nat := 0
  offset : Int := 0
  deriving DecidableEq, Repr

/-- The C struct `tm`, broken-down time. -/
structure tm where
  tm_sec : Int := 0
  tm_min : Int := 0
  tm_hour : Int := 0
  tm_mday : Int := 0
  tm_mon : Int := 0
  tm_year : Int := 0
  tm_wday : Int := 0
  tm_yday : Int := 0
  tm_isdst : Int := 0
  deriving DecidableEq, Repr

/-- The broken-down time `timeIs` that `DOSToTimeT` hands to `mktime`. -/
def DOSToTm (dosDate dosFile : Nat) : tm :=
  { tm_year := (((dosDate >>> 9) &&& 127 : Nat) : Int) + 1980 - 1900
    tm_mon := (((dosDate >>> 5) &&& 15 : Nat) : Int) - 1
    tm_mday := ((dosDate &&& 31 : Nat) : Int)
    tm_hour := (((dosFile >>> 11) &&& 31 : Nat) : Int)
    tm_min := (((dosFile >>> 5) &&& 63 : Nat) : Int)
    tm_sec := (((dosFile <<< 1) &&& 62 : Nat) : Int) }

/-- What the index construction asks of its surroundings: `mktime` of the C library (which
depends on the time zone), whether the ZIP decoder inflates the entry at an offset
(`jzReadData` returns `Z_OK`), whether a cache file can be opened for writing and for
reading, and whether writing the payload to it succeeds. For the archive file at a path:
the MD5 digest of its contents in hexadecimal, whether the ZIP decoder finds its end record
(`jzReadEndRecord` returns 0), the records of its central directory that the decoder hands
to the callback, and whether the decoder reads the central directory to its end
(`jzReadCentralDirectory` returns 0). -/
structure MountEnv where
  mktime : tm → Int
  jzReadData_ok : Int → Bool
  fopen_wb_ok : Str → Bool
  fwrite_ok : Str → Bool
  fopen_rb_ok : Str → Bool
  md5 : Str → Str := fun _ => []
  jzReadEndRecord_ok : Str → Bool := fun _ => true
  centralDirectory : Str → List (Int × JZFileHeader × Str) := fun _ => []
  jzReadCentralDirectory_ok : Str → Bool := fun _ => true

/-- The function `DOSToTimeT` of `archive_junzip.cc`. -/
def DOSToTimeT (env : MountEnv) (dosDate dosFile : Nat) : Int :=
  env.mktime (DOSToTm dosDate dosFile)

/-- The method `ArchiveFileJUnzip::Set`. -/
def ArchiveFileJUnzip.Set (f : ArchiveFileJUnzip) (env : MountEnv) (header : JZFileHeader) :
    ArchiveFileJUnzip :=
  { f with
    size_ := header.uncompressedSize
    offset_ := header.offset
    lastModified_ := DOSToTimeT env header.lastModFileDate header.lastModFileTime }

/-- The method `ArchiveDirJUnzip::Set`. -/
def ArchiveDirJUnzip.Set (d : ArchiveDirJUnzip) (env : MountEnv) (header : JZFileHeader) :
    ArchiveDirJUnzip :=
  { d with lastModified_ := DOSToTimeT env header.lastModFileDate header.lastModFileTime }

/-- Assignment through an `ArchiveDir*`. -/
def ArchiveJUnzip.setDir (a : ArchiveJUnzip) (p : Nat) (d : ArchiveDirJUnzip) : ArchiveJUnzip :=
  { a with dirHeap := a.dirHeap.set p d }

/-- Assignment through an `ArchiveFile*`. -/
def ArchiveJUnzip.setFile (a : ArchiveJUnzip) (p : Nat) (f : ArchiveFileJUnzip) : ArchiveJUnzip :=
  { a with fileHeap := a.fileHeap.set p f }

/-- The method `ArchiveJUnzip::Validate` on the file at address `file`. -/
def ArchiveJUnzip.Validate (a : ArchiveJUnzip) (env : MountEnv) (file : Nat) : ArchiveJUnzip :=
  if (a.fileAt file).exstracted_ ≠ ExtractStates.NotExtracted then a
  else
    let a1 := a.setFile file { a.fileAt file with exstracted_ := ExtractStates.Extracting }
    let cacheFilePath := a1.CacheFilePathOf (a1.fileAt file)
    if env.fopen_rb_ok cacheFilePath = false then
      { a1.setFile file { a1.fileAt file with exstracted_ := ExtractStates.NotExtracted } with
        is_unsafe_ := true }
    else
      a1.setFile file { a1.fileAt file with exstracted_ := ExtractStates.Extracted }

/-- The method `ArchiveJUnzip::Extract` on the file at address `file`; the value `fwrite`
returns is not looked at. -/
def ArchiveJUnzip.Extract (a : ArchiveJUnzip) (env : MountEnv) (file : Nat) : ArchiveJUnzip :=
  if (a.fileAt file).exstracted_ ≠ ExtractStates.NotExtracted then a
  else
    let a1 := a.setFile file { a.fileAt file with exstracted_ := ExtractStates.Extracting }
    if env.jzReadData_ok (a1.fileAt file).offset_ then
      let cacheFilePath := a1.CacheFilePathOf (a1.fileAt file)
      if env.fopen_wb_ok cacheFilePath = false then
        { a1 with is_unsafe_ := true }.setFile file
          { a1.fileAt file with exstracted_ := ExtractStates.NotExtracted }
      else
        a1.setFile file { a1.fileAt file with exstracted_ := ExtractStates.Extracted }
    else
      a1.setFile file { a1.fileAt file with exstracted_ := ExtractStates.NotExtracted }

/-- The `for` loop of `ArchiveJUnzip::AddEntry` over `parts[ i ]`, `parts[ i + 1 ]`, ...;
`node` is the local variable, `sz` the number of parts. -/
def AddEntryLoop (env : MountEnv) (archiveIndexNumber : Int) (fileHeader : JZFileHeader)
    (is_dir : Bool) (sz : Nat) : List Str → Nat → ArchiveJUnzip → Nat → ArchiveJUnzip
  | [], _, a, _ => a
  | name :: rest, i, a, node =>
    match (a.dirAt node).FindDir name with
    | none =>
      let addAsFile : Bool := decide (i = sz - 1) && (is_dir == false)
      if addAsFile = true then
        let newFile : ArchiveFileJUnzip :=
          ({ archiveId_ := archiveIndexNumber } : ArchiveFileJUnzip).Set env fileHeader
        let pFile := a.fileHeap.length
        let a1 : ArchiveJUnzip := { a with fileHeap := a.fileHeap ++ [newFile] }
        let a2 := a1.setDir node ((a1.dirAt node).AddFile name pFile)
        if a2.extract_on_mount_ = true then a2.Extract env pFile else a2.Validate env pFile
      else
        let pDir := a.dirHeap.length
        let a1 : ArchiveJUnzip := { a with dirHeap := a.dirHeap ++ [{}] }
        let a2 := a1.setDir node ((a1.dirAt node).AddDir name pDir)
        if i ≠ sz - 1 then
          AddEntryLoop env archiveIndexNumber fileHeader is_dir sz rest (i + 1)
            (a2.setDir pDir ((a2.dirAt pDir).Set env fileHeader)) pDir
        else
          AddEntryLoop env archiveIndexNumber fileHeader is_dir sz rest (i + 1) a2 node
    | some knownDir =>
      AddEntryLoop env archiveIndexNumber fileHeader is_dir sz rest (i + 1) a knownDir

/-- The method `ArchiveJUnzip::AddEntry`: the value returned (1, read the next record) and the
archive afterwards. -/
def ArchiveJUnzip.AddEntry (a : ArchiveJUnzip) (env : MountEnv) (archiveIndexNumber : Int)
    (fileHeader : JZFileHeader) (filename : Str) : Int × ArchiveJUnzip :=
  let split := SplitPath filename false
  let parts := split.1
  let is_dir := split.2
  (1, AddEntryLoop env archiveIndexNumber fileHeader is_dir parts.length parts 0 a a.Root)

/-- Modelled from the spec: the enumeration of the central directory by the ZIP decoder
(`jzReadCentralDirectory`, not part of the sources), which calls
`ArchiveJUnzip::onMountEachFile` for each record in turn, with the index, the header and the
name of the record, as long as the callback returns a non-zero value. -/
def readCentralDirectory (env : MountEnv) :
    List (Int × JZFileHeader × Str) → ArchiveJUnzip → ArchiveJUnzip
  | [], a => a
  | (index, header, filepath) :: rest, a =>
    let added := a.AddEntry env index header filepath
    if added.1 = 0 then added.2 else readCentralDirectory env rest added.2

/-! ## Requests and the event loop (libuv) -/

/-- Modelled from the spec: the libuv error code `UV_ENOENT` (declared in `uv.h`, which is not
part of the sources); results are "negative errno-style", the value is the one of Linux. -/
def UV_ENOENT : Int := -2

/-- Modelled from the spec: the libuv error code `UV_ENOTDIR` (declared in `uv.h`, which is not
part of the sources); the value is the one of Linux. -/
def UV_ENOTDIR : Int := -20

/-- Modelled from the spec: the libuv error code `UV_EIO` (declared in `uv.h`, which is not
part of the sources); the value is the one of Linux. -/
def UV_EIO : Int := -5

/-- Modelled from the spec: the libuv error code `UV_EBADF` (declared in `uv.h`, which is not
part of the sources); the value is the one of Linux. -/
def UV_EBADF : Int := -9

/-- Modelled from the spec: the libuv error code `UV_ECANCELED` (declared in `uv.h`, which is
not part of the sources); the value is the one of Linux. -/
def UV_ECANCELED : Int := -125

/-- Modelled from the spec: the libuv enumeration `uv_fs_type` (declared in `uv.h`, which is
not part of the sources), the request kinds of the filesystem API surface. -/
inductive uv_fs_type where
  | UV_FS_UNKNOWN
  | UV_FS_OPEN
  | UV_FS_CLOSE
  | UV_FS_READ
  | UV_FS_WRITE
  | UV_FS_STAT
  | UV_FS_LSTAT
  | UV_FS_FSTAT
  | UV_FS_FSYNC
  | UV_FS_FDATASYNC
  | UV_FS_SCANDIR
  | UV_FS_REALPATH
  deriving DecidableEq, Repr

/-- Modelled from the spec: the libuv enumeration `uv_dirent_type_t` (declared in `uv.h`, which
is not part of the sources), the entry types `DIR` and `FILE` of scandir. -/
inductive uv_dirent_type_t where
  | UV_DIRENT_UNKNOWN
  | UV_DIRENT_FILE
  | UV_DIRENT_DIR
  deriving DecidableEq, Repr

/-- Modelled from the spec: the libuv struct `uv__dirent_t` (not part of the sources): the type
and the name of one scandir entry. `d_name` is the C string stored in the entry. -/
structure uv__dirent_t where
  d_type : uv_dirent_type_t
  d_name : Str
  deriving DecidableEq, Repr

/-- Modelled from the spec: the libuv struct `uv_timespec_t` (declared in `uv.h`, which is not
part of the sources). -/
structure uv_timespec_t where
  tv_sec : Int := 0
  tv_nsec : Int := 0
  deriving DecidableEq, Repr

/-- Modelled from the spec: the libuv struct `uv_stat_t` (declared in `uv.h`, which is not part
of the sources), the stat buffer with dev/ino/uid/gid, mode, size and the four timestamps. -/
structure uv_stat_t where
  st_dev : Nat := 0
  st_mode : Nat := 0
  st_nlink : Nat := 0
  st_uid : Nat := 0
  st_gid : Nat := 0
  st_rdev : Nat := 0
  st_ino : Nat := 0
  st_size : Nat := 0
  st_blksize : Nat := 0
  st_blocks : Nat := 0
  st_flags : Nat := 0
  st_gen : Nat := 0
  st_atim : uv_timespec_t := {}
  st_mtim : uv_timespec_t := {}
  st_ctim : uv_timespec_t := {}
  st_birthtim : uv_timespec_t := {}
  deriving DecidableEq, Repr

/-- A non-null `uv_fs_cb`: a callback of the caller (told apart by a number) or one of the
completion handlers of the sources. -/
inductive Callback where
  | user (f : Nat)
  | Manager_fs_stat_on
  | Manager_fs_lstat_on
  | Manager_fs_fstat_on
  | Manager_fs_open_on
  | Manager_fs_read_on
  | Manager_fs_close_on
  | Manager_fs_scandir_on
  | Manager_fs_realpath_on
  | Manager_fs_write_on
  | Manager_fs_fsync_on
  | Manager_fs_fdatasync_on
  | ArchiveJUnzip_fs_open_on
  | ArchiveJUnzip_fs_read_on
  | ArchiveJUnzip_fs_close_on
  deriving DecidableEq, Repr

/-- What the member `data` of a request points to: user data of the caller, a `RequestSheath`
(`manager.h`; `owner_` is the one dispatcher) or, for a shadow request, the archive `this`. -/
inductive Data where
  | user (p : Nat)
  | sheath (fake_ : Int) (pUserData_ : Data) (cb_ : Option Callback) (pArchive_ : Option Nat)
  | archive (this : Nat)
  deriving DecidableEq, Repr

/-- What the member `ptr` of a request points to. -/
inductive Ptr where
  | null
  | statbuf
  | dirents (results_array : List uv__dirent_t)
  | str (s : Str)
  deriving DecidableEq, Repr

/-- Modelled from the spec: the libuv request object `uv_fs_t` (declared in `uv.h`, which is
not part of the sources), with the members the sources read and write. -/
structure uv_fs_t where
  data : Data := Data.user 0
  fs_type : uv_fs_type := uv_fs_type.UV_FS_UNKNOWN
  result : Int := 0
  ptr : Ptr := Ptr.null
  path : Option Str := none
  new_path : Option Str := none
  flags : Int := 0
  file : Int := 0
  nbufs : Nat := 0
  cb : Option Callback := none
  statbuf : uv_stat_t := {}
  deriving DecidableEq, Repr

/-- The struct `ArchiveJUnzip::Shadow_uv_fs_t`: a `uv_fs_t` (`base`) with the extra members.
`shadowing_request_` is the request of the caller it completes. -/
structure Shadow_uv_fs_t where
  base : uv_fs_t := {}
  target_ : Option ItemPtr := none
  real_fileId : Int := -1
  fake_fileId : Int := -1
  shadowing_request_ : uv_fs_t := {}
  deriving DecidableEq, Repr

/-- A request object handed to the event loop: a plain `uv_fs_t` or a `Shadow_uv_fs_t`. -/
inductive ReqObj where
  | plain (req : uv_fs_t)
  | shadow (req : Shadow_uv_fs_t)
  deriving DecidableEq, Repr

/-- The `uv_fs_t` part of a request object. -/
def ReqObj.base : ReqObj → uv_fs_t
  | ReqObj.plain req => req
  | ReqObj.shadow req => req.base

/-- A call of a real-filesystem primitive of libuv. -/
inductive RealCall where
  | fs_open (path : Str) (flags mode : Int)
  | fs_close (file : Int)
  | fs_write (file : Int) (offset : Int)
  | fs_stat (path : Str)
  | fs_scandir (path : Str) (flags : Int)
  | fs_fstat (file : Int)
  | fs_read (file : Int) (offset : Int)
  | fs_fsync (file : Int)
  | fs_fdatasync (file : Int)
  | fs_realpath (path : Str)
  deriving DecidableEq, Repr

/-- The part of the event loop the sources act on: the deferred completions posted with
`UvScheduleDelay::Schedule` (oldest first), the asynchronous real-filesystem operations that
have been submitted and not yet completed, and the record of every real-filesystem call
issued so far. -/
structure Loop where
  scheduled : List ReqObj := []
  inflight : List (RealCall × ReqObj) := []
  realCalls : List RealCall := []
  deriving DecidableEq, Repr

/-- The method `UvScheduleDelay::Schedule`: a `ScheduleRequest` for the request is created
and sent to the loop (`uv_async_send`). -/
def Schedule (owning_loop : Loop) (reqeust : ReqObj) : Loop :=
  { owning_loop with scheduled := owning_loop.scheduled ++ [reqeust] }

/-- Modelled from the spec: the answers of the real filesystem behind libuv (an external
collaborator): the result of opening a path, of closing and of writing to a descriptor
( "non-negative on success and negative errno-style on failure" ), the result and the stat
buffer of a stat, the result and the entries of a scandir, the value an asynchronous
submission returns at once (0, or a negative error when nothing is queued), the result and
the stat buffer of an fstat of a descriptor, the result of reading from a descriptor at
an offset and of an fsync and an fdatasync of a descriptor, the result of creating a
directory, the directory for temporary files (`uv_os_tmpdir`), and the result and the
resolved path of a realpath. -/
structure RealFs where
  open_result : Str → Int → Int → Int
  close_result : Int → Int
  write_result : Int → Int → Int
  stat_result : Str → Int × uv_stat_t := fun _ => (-2, {})
  scandir_result : Str → Int × List uv__dirent_t := fun _ => (-2, [])
  submit_result : Int := 0
  fstat_result : Int → Int × uv_stat_t := fun _ => (-9, {})
  read_result : Int → Int → Int := fun _ _ => -9
  fsync_result : Int → Int := fun _ => -9
  fdatasync_result : Int → Int := fun _ => -9
  mkdir_result : Str → Int := fun _ => 0
  tmpdir : Str := "/tmp".toList
  realpath_result : Str → Int × Str := fun _ => (-2, [])

/-- Modelled from the spec: the libuv primitive `uv_fs_open` called without a callback (libuv
is an external collaborator): the request is initialised, the open is done at once, and its
result is both stored in the request and returned. -/
def uv_fs_open_sync (uv : RealFs) (loop : Loop) (req : uv_fs_t) (path : Str) (flags mode : Int) :
    Int × uv_fs_t × Loop :=
  let r := uv.open_result path flags mode
  (r,
   { req with fs_type := uv_fs_type.UV_FS_OPEN, result := r, ptr := Ptr.null, path := some path,
              new_path := none, cb := none },
   { loop with realCalls := loop.realCalls ++ [RealCall.fs_open path flags mode] })

/-- Modelled from the spec: the libuv primitive `uv_fs_open` called with a callback (libuv is
an external collaborator): the request is initialised with the callback and the operation is
submitted; the call returns at once. -/
def uv_fs_open_async (uv : RealFs) (loop : Loop) (req : ReqObj) (path : Str) (flags mode : Int)
    (cb : Callback) : Int × ReqObj × Loop :=
  let init (b : uv_fs_t) : uv_fs_t :=
    { b with fs_type := uv_fs_type.UV_FS_OPEN, result := 0, ptr := Ptr.null, path := some path,
             new_path := none, cb := some cb }
  let req1 := match req with
    | ReqObj.plain b => ReqObj.plain (init b)
    | ReqObj.shadow sh => ReqObj.shadow { sh with base := init sh.base }
  if uv.submit_result < 0 then (uv.submit_result, req1, loop)
  else (0, req1,
    { loop with inflight := loop.inflight ++ [(RealCall.fs_open path flags mode, req1)],
                realCalls := loop.realCalls ++ [RealCall.fs_open path flags mode] })

/-- Modelled from the spec: the libuv primitive `uv_fs_close` called without a callback (libuv
is an external collaborator). -/
def uv_fs_close_sync (uv : RealFs) (loop : Loop) (req : uv_fs_t) (file : Int) :
    Int × uv_fs_t × Loop :=
  let r := uv.close_result file
  (r,
   { req with fs_type := uv_fs_type.UV_FS_CLOSE, result := r, ptr := Ptr.null, path := none,
              new_path := none, cb := none, file := file },
   { loop with realCalls := loop.realCalls ++ [RealCall.fs_close file] })

/-- Modelled from the spec: the libuv primitive `uv_fs_close` called with a callback (libuv is
an external collaborator). -/
def uv_fs_close_async (uv : RealFs) (loop : Loop) (req : uv_fs_t) (file : Int) (cb : Callback) :
    Int × uv_fs_t × Loop :=
  let req1 : uv_fs_t :=
    { req with fs_type := uv_fs_type.UV_FS_CLOSE, result := 0, ptr := Ptr.null, path := none,
               new_path := none, cb := some cb, file := file }
  if uv.submit_result < 0 then (uv.submit_result, req1, loop)
  else (0, req1,
    { loop with inflight := loop.inflight ++ [(RealCall.fs_close file, ReqObj.plain req1)],
                realCalls := loop.realCalls ++ [RealCall.fs_close file] })

/-- Modelled from the spec: the libuv primitive `uv_fs_write` called without a callback (libuv
is an external collaborator). -/
def uv_fs_write_sync (uv : RealFs) (loop : Loop) (req : uv_fs_t) (file offset : Int) :
    Int × uv_fs_t × Loop :=
  let r := uv.write_result file offset
  (r,
   { req with fs_type := uv_fs_type.UV_FS_WRITE, result := r, ptr := Ptr.null, path := none,
              new_path := none, cb := none, file := file },
   { loop with realCalls := loop.realCalls ++ [RealCall.fs_write file offset] })

/-- Modelled from the spec: the libuv primitive `uv_fs_write` called with a callback (libuv is
an external collaborator). -/
def uv_fs_write_async (uv : RealFs) (loop : Loop) (req : uv_fs_t) (file offset : Int)
    (cb : Callback) : Int × uv_fs_t × Loop :=
  let req1 : uv_fs_t :=
    { req with fs_type := uv_fs_type.UV_FS_WRITE, result := 0, ptr := Ptr.null, path := none,
               new_path := none, cb := some cb, file := file }
  if uv.submit_result < 0 then (uv.submit_result, req1, loop)
  else (0, req1,
    { loop with inflight := loop.inflight ++ [(RealCall.fs_write file offset, ReqObj.plain req1)],
                realCalls := loop.realCalls ++ [RealCall.fs_write file offset] })

/-- Modelled from the spec: the libuv primitive `uv_fs_stat` called without a callback (libuv
is an external collaborator). -/
def uv_fs_stat_sync (uv : RealFs) (loop : Loop) (req : uv_fs_t) (path : Str) :
    Int × uv_fs_t × Loop :=
  let r := uv.stat_result path
  (r.1,
   { req with fs_type := uv_fs_type.UV_FS_STAT, result := r.1, path := some path,
              new_path := none, cb := none, statbuf := r.2,
              ptr := if r.1 = 0 then Ptr.statbuf else Ptr.null },
   { loop with realCalls := loop.realCalls ++ [RealCall.fs_stat path] })

/-- Modelled from the spec: the libuv primitive `uv_fs_stat` called with a callback (libuv is
an external collaborator). -/
def uv_fs_stat_async (uv : RealFs) (loop : Loop) (req : uv_fs_t) (path : Str) (cb : Callback) :
    Int × uv_fs_t × Loop :=
  let req1 : uv_fs_t :=
    { req with fs_type := uv_fs_type.UV_FS_STAT, result := 0, ptr := Ptr.null, path := some path,
               new_path := none, cb := some cb }
  if uv.submit_result < 0 then (uv.submit_result, req1, loop)
  else (0, req1,
    { loop with inflight := loop.inflight ++ [(RealCall.fs_stat path, ReqObj.plain req1)],
                realCalls := loop.realCalls ++ [RealCall.fs_stat path] })

/-- Modelled from the spec: the libuv primitive `uv_fs_scandir` called without a callback
(libuv is an external collaborator). -/
def uv_fs_scandir_sync (uv : RealFs) (loop : Loop) (req : uv_fs_t) (path : Str) (flags : Int) :
    Int × uv_fs_t × Loop :=
  let r := uv.scandir_result path
  (r.1,
   { req with fs_type := uv_fs_type.UV_FS_SCANDIR, result := r.1, path := some path,
              new_path := none, cb := none, nbufs := 0,
              ptr := if r.1 > 0 then Ptr.dirents r.2 else Ptr.null },
   { loop with realCalls := loop.realCalls ++ [RealCall.fs_scandir path flags] })

/-- Modelled from the spec: the libuv primitive `uv_fs_scandir` called with a callback (libuv
is an external collaborator). -/
def uv_fs_scandir_async (uv : RealFs) (loop : Loop) (req : uv_fs_t) (path : Str) (flags : Int)
    (cb : Callback) : Int × uv_fs_t × Loop :=
  let req1 : uv_fs_t :=
    { req with fs_type := uv_fs_type.UV_FS_SCANDIR, result := 0, ptr := Ptr.null,
               path := some path, new_path := none, cb := some cb }
  if uv.submit_result < 0 then (uv.submit_result, req1, loop)
  else (0, req1,
    { loop with inflight := loop.inflight ++ [(RealCall.fs_scandir path flags, ReqObj.plain req1)],
                realCalls := loop.realCalls ++ [RealCall.fs_scandir path flags] })

/-- Modelled from the spec: the libuv primitive `uv_fs_fstat` called without a callback (libuv
is an external collaborator). -/
def uv_fs_fstat_sync (uv : RealFs) (loop : Loop) (req : uv_fs_t) (file : Int) :
    Int × uv_fs_t × Loop :=
  let r := uv.fstat_result file
  (r.1,
   { req with fs_type := uv_fs_type.UV_FS_FSTAT, result := r.1, path := none,
              new_path := none, cb := none, file := file, statbuf := r.2,
              ptr := if r.1 = 0 then Ptr.statbuf else Ptr.null },
   { loop with realCalls := loop.realCalls ++ [RealCall.fs_fstat file] })

/-- Modelled from the spec: the libuv primitive `uv_fs_fstat` called with a callback (libuv is
an external collaborator). -/
def uv_fs_fstat_async (uv : RealFs) (loop : Loop) (req : uv_fs_t) (file : Int) (cb : Callback) :
    Int × uv_fs_t × Loop :=
  let req1 : uv_fs_t :=
    { req with fs_type := uv_fs_type.UV_FS_FSTAT, result := 0, ptr := Ptr.null, path := none,
               new_path := none, cb := some cb, file := file }
  if uv.submit_result < 0 then (uv.submit_result, req1, loop)
  else (0, req1,
    { loop with inflight := loop.inflight ++ [(RealCall.fs_fstat file, ReqObj.plain req1)],
                realCalls := loop.realCalls ++ [RealCall.fs_fstat file] })

/-- Modelled from the spec: a libuv primitive that takes a descriptor ( `uv_fs_read`,
`uv_fs_fsync`, `uv_fs_fdatasync` ) called without a callback (libuv is an external
collaborator): `call` is the operation and `r` the answer of the real filesystem. -/
def uv_fs_fd_sync (loop : Loop) (req : uv_fs_t) (subType : uv_fs_type) (call : RealCall)
    (file r : Int) : Int × uv_fs_t × Loop :=
  (r,
   { req with fs_type := subType, result := r, ptr := Ptr.null, path := none,
              new_path := none, cb := none, file := file },
   { loop with realCalls := loop.realCalls ++ [call] })

/-- Modelled from the spec: a libuv primitive that takes a descriptor ( `uv_fs_read`,
`uv_fs_fsync`, `uv_fs_fdatasync` ) called with a callback (libuv is an external
collaborator). -/
def uv_fs_fd_async (uv : RealFs) (loop : Loop) (req : uv_fs_t) (subType : uv_fs_type)
    (call : RealCall) (file : Int) (cb : Callback) : Int × uv_fs_t × Loop :=
  let req1 : uv_fs_t :=
    { req with fs_type := subType, result := 0, ptr := Ptr.null, path := none,
               new_path := none, cb := some cb, file := file }
  if uv.submit_result < 0 then (uv.submit_result, req1, loop)
  else (0, req1,
    { loop with inflight := loop.inflight ++ [(call, ReqObj.plain req1)],
                realCalls := loop.realCalls ++ [call] })

/-- Modelled from the spec: the libuv primitive `uv_fs_realpath` called without a callback
(libuv is an external collaborator): on success `ptr` holds the resolved path. -/
def uv_fs_realpath_sync (uv : RealFs) (loop : Loop) (req : uv_fs_t) (path : Str) :
    Int × uv_fs_t × Loop :=
  let r := uv.realpath_result path
  (r.1,
   { req with fs_type := uv_fs_type.UV_FS_REALPATH, result := r.1, path := some path,
              new_path := none, cb := none,
              ptr := if r.1 = 0 then Ptr.str r.2 else Ptr.null },
   { loop with realCalls := loop.realCalls ++ [RealCall.fs_realpath path] })

/-- Modelled from the spec: the libuv primitive `uv_fs_realpath` called with a callback (libuv
is an external collaborator). -/
def uv_fs_realpath_async (uv : RealFs) (loop : Loop) (req : uv_fs_t) (path : Str)
    (cb : Callback) : Int × uv_fs_t × Loop :=
  let req1 : uv_fs_t :=
    { req with fs_type := uv_fs_type.UV_FS_REALPATH, result := 0, ptr := Ptr.null,
               path := some path, new_path := none, cb := some cb }
  if uv.submit_result < 0 then (uv.submit_result, req1, loop)
  else (0, req1,
    { loop with inflight := loop.inflight ++ [(RealCall.fs_realpath path, ReqObj.plain req1)],
                realCalls := loop.realCalls ++ [RealCall.fs_realpath path] })

/-! ## The handlers of a mount (`archive_junzip.cc`) -/

/-- The function `Convsert` of `archive_junzip.cc`; the division of C++ truncates. -/
def Convsert (input : Int) : uv_timespec_t :=
  { tv_nsec := 0, tv_sec := if input = 0 then 0 else Int.tdiv input 1000 }

/-- The method `ArchiveJUnzip::fs_stat`: the value returned, the request and the loop
afterwards. -/
def ArchiveJUnzip.fs_stat (a : ArchiveJUnzip) (loop : Loop) (req : uv_fs_t) (filePath : Str) :
    Int × uv_fs_t × Loop :=
  let parts := a.FilePathToParts filePath
  let pTarget := a.Find parts
  let req1 : uv_fs_t :=
    match pTarget with
    | none => { req with result := UV_ENOENT, ptr := Ptr.null }
    | some (ItemPtr.file p) =>
      let pFile := a.fileAt p
      { req with
        result := 0
        ptr := Ptr.statbuf
        statbuf :=
          { req.statbuf with
            st_dev := 0
            st_ino := 0
            st_gid := 0
            st_uid := 0
            st_atim := Convsert pFile.lastModified_
            st_ctim := Convsert pFile.lastModified_
            st_mtim := Convsert pFile.lastModified_
            st_birthtim := Convsert pFile.lastModified_
            st_mode := 0 ||| 0x8000
            st_size := pFile.size_ } }
    | some (ItemPtr.dir _) =>
      { req with
        result := 0
        ptr := Ptr.statbuf
        statbuf :=
          { req.statbuf with
            st_dev := 0
            st_ino := 0
            st_gid := 0
            st_uid := 0
            st_mode := 0 ||| 0x4000
            st_size := 0 } }
  if req1.cb = none then (toInt32 req1.result, req1, loop)
  else (0, req1, Schedule loop (ReqObj.plain req1))

/-- The entries `ArchiveJUnzip::fs_scandir` allocates for a directory: one per binding of
`dirs_` in iteration order, then one per binding of `files_` in iteration order; the name of
an entry is a copy of the key. -/
def scandirEntries (zip_dir_item : ArchiveDirJUnzip) : List uv__dirent_t :=
  zip_dir_item.dirs_.entries.map
      (fun sub_dir_item => { d_type := uv_dirent_type_t.UV_DIRENT_DIR, d_name := sub_dir_item.1 }) ++
    zip_dir_item.files_.entries.map
      (fun sub_file_item => { d_type := uv_dirent_type_t.UV_DIRENT_FILE, d_name := sub_file_item.1 })

/-- The method `ArchiveJUnzip::fs_scandir`: the value returned, the request and the loop
afterwards. -/
def ArchiveJUnzip.fs_scandir (a : ArchiveJUnzip) (loop : Loop) (request : uv_fs_t) (path : Str)
    (_flags : Int) : Int × uv_fs_t × Loop :=
  let path_parts := a.FilePathToParts path
  let target_item := a.Find path_parts
  let request1 : uv_fs_t :=
    match target_item with
    | none => { request with result := UV_ENOENT }
    | some (ItemPtr.file _) => { request with result := UV_ENOTDIR }
    | some (ItemPtr.dir p) =>
      let zip_dir_item := a.dirAt p
      let total_items := zip_dir_item.dirs_.size + zip_dir_item.files_.size
      if total_items > 0 then
        { request with
          result := total_items
          nbufs := 0
          ptr := Ptr.dirents (scandirEntries zip_dir_item) }
      else
        { request with result := total_items, ptr := Ptr.null, nbufs := 0 }
  if request1.cb = none then (toInt32 request1.result, request1, loop)
  else (0, request1, Schedule loop (ReqObj.plain request1))

/-- The method `ArchiveJUnzip::fs_open`; `this` is the address of the archive. The value
returned, the request, the archive and the loop afterwards. -/
def ArchiveJUnzip.fs_open (a : ArchiveJUnzip) (this : Nat) (uv : RealFs) (loop : Loop)
    (request : uv_fs_t) (flags : Int) (filePath : Str) :
    Int × uv_fs_t × ArchiveJUnzip × Loop :=
  let parts := a.FilePathToParts filePath
  let request0 : uv_fs_t := { request with result := 0 }
  let target_file_item := a.Find parts
  let found : uv_fs_t × Option ItemPtr × Str :=
    match target_file_item with
    | none => ({ request0 with result := UV_ENOENT }, none, [])
    | some (ItemPtr.dir _) => ({ request0 with result := UV_ENOENT }, none, [])
    | some (ItemPtr.file p) =>
      if (a.fileAt p).exstracted_ ≠ ExtractStates.Extracted then
        ({ request0 with result := UV_EIO }, some (ItemPtr.file p), [])
      else (request0, some (ItemPtr.file p), a.CacheFilePathOf (a.fileAt p))
  let request1 := found.1
  let zip_file_item := found.2.1
  let cache_filepath := found.2.2
  if request1.result < 0 then
    if request1.cb ≠ none then
      let openRequest : Shadow_uv_fs_t :=
        { base := { cb := some Callback.ArchiveJUnzip_fs_open_on, data := Data.archive this,
                    result := request1.result }
          target_ := none
          shadowing_request_ := request1 }
      (0, request1, a, Schedule loop (ReqObj.shadow openRequest))
    else (toInt32 request1.result, request1, a, loop)
  else if request1.cb = none then
    let opened := uv_fs_open_sync uv loop {} cache_filepath flags 0x0777
    let er := opened.1
    let request2 : uv_fs_t := { request1 with result := er }
    if er > 0 then
      (er, request2,
       { a with open_files_ :=
           a.open_files_.insert er { target_ := zip_file_item, real_fileId_ := er } },
       opened.2.2)
    else (er, request2, a, opened.2.2)
  else
    let openRequest : Shadow_uv_fs_t :=
      { base := { data := Data.archive this }
        target_ := zip_file_item
        shadowing_request_ := request1 }
    let submitted := uv_fs_open_async uv loop (ReqObj.shadow openRequest) cache_filepath flags
      0x0777 Callback.ArchiveJUnzip_fs_open_on
    let er := submitted.1
    if er < 0 then (er, request1, a, submitted.2.2)
    else (0, request1, a, submitted.2.2)

/-- The static method `ArchiveJUnzip::fs_open_on`, run on the archive `pThis` that the member
`data` of the shadow request points to: the archive afterwards, and the call it makes of the
callback of the shadowed request on the shadowed request. -/
def ArchiveJUnzip.fs_open_on (pThis : ArchiveJUnzip) (true_request : Shadow_uv_fs_t) :
    ArchiveJUnzip × Option Callback × uv_fs_t :=
  let request := true_request.base
  if request.result > 0 then
    let info : OpenFileInfo :=
      { target_ := true_request.target_, real_fileId_ := toInt32 true_request.base.result }
    ({ pThis with open_files_ := pThis.open_files_.insert (toInt32 request.result) info },
     true_request.shadowing_request_.cb,
     { true_request.shadowing_request_ with result := request.result })
  else
    (pThis, true_request.shadowing_request_.cb,
     { true_request.shadowing_request_ with result := request.result })

/-- The method `ArchiveJUnzip::fs_close`: the value returned, the request, the archive and
the loop afterwards. -/
def ArchiveJUnzip.fs_close (a : ArchiveJUnzip) (uv : RealFs) (loop : Loop) (req : uv_fs_t)
    (real_fileId : Int) : Int × uv_fs_t × ArchiveJUnzip × Loop :=
  let req0 : uv_fs_t := { req with result := 0 }
  let found : uv_fs_t × ArchiveJUnzip :=
    match a.open_files_.find real_fileId with
    | none => ({ req0 with result := UV_EBADF }, a)
    | some _ => (req0, { a with open_files_ := a.open_files_.erase real_fileId })
  let req1 := found.1
  let a1 := found.2
  if req1.cb = none then
    if req1.result = 0 then
      let closed := uv_fs_close_sync uv loop req1 real_fileId
      (closed.1, closed.2.1, a1, closed.2.2)
    else (toInt32 req1.result, req1, a1, loop)
  else
    if req1.result = 0 then
      let closed := uv_fs_close_async uv loop req1 real_fileId Callback.ArchiveJUnzip_fs_close_on
      (closed.1, closed.2.1, a1, closed.2.2)
    else
      let req2 : uv_fs_t := { req1 with cb := some Callback.ArchiveJUnzip_fs_close_on }
      (0, req2, a1, Schedule loop (ReqObj.plain req2))

/-- The method `ArchiveJUnzip::fs_fstat`: the value returned, the request and the loop
afterwards. `target_` of an entry of `open_files_` is dereferenced without a test; a null
`target_` (which no writer of the table stores for an open file) is taken as a Directory. -/
def ArchiveJUnzip.fs_fstat (a : ArchiveJUnzip) (loop : Loop) (req : uv_fs_t) (real_fileId : Int) :
    Int × uv_fs_t × Loop :=
  let req0 : uv_fs_t := { req with flags := 0 }
  let req1 : uv_fs_t :=
    match a.open_files_.find real_fileId with
    | none => { req0 with result := UV_ENOENT, ptr := Ptr.null }
    | some found_entry =>
      match found_entry.target_ with
      | some (ItemPtr.file p) =>
        let pFile := a.fileAt p
        { req0 with
          result := 0
          ptr := Ptr.statbuf
          statbuf :=
            { req0.statbuf with
              st_dev := 0
              st_ino := 0
              st_gid := 0
              st_uid := 0
              st_atim := Convsert pFile.lastModified_
              st_ctim := Convsert pFile.lastModified_
              st_mtim := Convsert pFile.lastModified_
              st_birthtim := Convsert pFile.lastModified_
              st_mode := 0 ||| 0x8000
              st_size := pFile.size_ } }
      | _ =>
        { req0 with
          result := 0
          ptr := Ptr.statbuf
          statbuf :=
            { req0.statbuf with
              st_dev := 0
              st_ino := 0
              st_gid := 0
              st_uid := 0
              st_mode := 0 ||| 0x4000
              st_size := 0 } }
  if req1.cb = none then (toInt32 req1.result, req1, loop)
  else (0, req1, Schedule loop (ReqObj.plain req1))

/-- The method `ArchiveJUnzip::fs_read`; the buffers are not part of the model. The value
returned, the request and the loop afterwards. -/
def ArchiveJUnzip.fs_read (a : ArchiveJUnzip) (uv : RealFs) (loop : Loop) (req : uv_fs_t)
    (real_fileId offset : Int) : Int × uv_fs_t × Loop :=
  let req0 : uv_fs_t := { req with result := 0 }
  let req1 : uv_fs_t :=
    match a.open_files_.find real_fileId with
    | none => { req0 with result := UV_EBADF }
    | some _ => req0
  if req1.cb = none then
    if req1.result = 0 then
      uv_fs_fd_sync loop req1 uv_fs_type.UV_FS_READ (RealCall.fs_read real_fileId offset)
        real_fileId (uv.read_result real_fileId offset)
    else (toInt32 req1.result, req1, loop)
  else
    if req1.result = 0 then
      uv_fs_fd_async uv loop req1 uv_fs_type.UV_FS_READ (RealCall.fs_read real_fileId offset)
        real_fileId Callback.ArchiveJUnzip_fs_read_on
    else
      let req2 : uv_fs_t := { req1 with cb := some Callback.ArchiveJUnzip_fs_read_on }
      (0, req2, Schedule loop (ReqObj.plain req2))

/-- The method `ArchiveJUnzip::CacheFilePath( const std::string& )`; the constructor of the
item found is what `IsFile()` tells apart. -/
def ArchiveJUnzip.CacheFilePath (a : ArchiveJUnzip) (full_filepath : Str) : Str :=
  match a.Find (a.FilePathToParts full_filepath) with
  | some (ItemPtr.file juzip_file_item) => a.CacheFilePathOf (a.fileAt juzip_file_item)
  | _ => []

/-- The enumeration `ErrorCodes` of `archive.h`. -/
inductive ErrorCodes where
  | NoError
  | ArchiveNotFound
  | ArchiveUnsupportedType
  | ArchiveInvalid
  | FailedToCreateCache
  deriving DecidableEq, Repr

/-- The constructor of `ArchiveJUnzip`. The member `zip_file_handle_` is declared without an
initializer and the constructor does not assign it, so that its value in the new object is
indeterminate: `indeterminate` says whether that value is non-null. -/
def ArchiveJUnzip.new (archiveId : Int) (mountPoint archiveFilePath : Str)
    (indeterminate : Bool) : ArchiveJUnzip :=
  { id_ := archiveId
    mount_point_ := mountPoint
    archive_filepath_ := archiveFilePath
    mounted := indeterminate }

/-- The method `ArchiveJUnzip::Mount` (non-Windows build); `cacheRoot` is what
`manager_->CacheRoot()` returns. The error code returned and the archive afterwards; the
member `file_handle_` is not part of the model. -/
def ArchiveJUnzip.Mount (a : ArchiveJUnzip) (cacheRoot : Str) (uv : RealFs) (env : MountEnv) :
    ErrorCodes × ArchiveJUnzip :=
  if env.fopen_rb_ok a.archive_filepath_ = false then (ErrorCodes.ArchiveNotFound, a)
  else
    let a1 : ArchiveJUnzip := { a with md5_hash_ := env.md5 a.archive_filepath_ }
    let a2 : ArchiveJUnzip := { a1 with temp_path_ := cacheRoot ++ "/".toList ++ a1.md5_hash_ }
    let error_code := (uv.stat_result a2.temp_path_).1
    let archiveExstracted : Int := if error_code ≠ 0 then 0 else 1
    let made : Option ArchiveJUnzip :=
      if archiveExstracted = 0 then
        if uv.mkdir_result a2.temp_path_ < 0 then none
        else some { a2 with extract_on_mount_ := true }
      else some a2
    match made with
    | none => (ErrorCodes.FailedToCreateCache, { a2 with mounted := false })
    | some a3 =>
      let a4 : ArchiveJUnzip := { a3 with mounted := true }
      if env.jzReadEndRecord_ok a4.archive_filepath_ = false then
        (ErrorCodes.ArchiveInvalid, { a4 with mounted := false })
      else
        let a5 := readCentralDirectory env (env.centralDirectory a4.archive_filepath_) a4
        if env.jzReadCentralDirectory_ok a4.archive_filepath_ = false then
          (ErrorCodes.ArchiveInvalid, { a5 with mounted := false })
        else (ErrorCodes.NoError, a5)

/-- The method `ArchiveJUnzip::IsMounted`. -/
def ArchiveJUnzip.IsMounted (a : ArchiveJUnzip) : Bool :=
  if a.mounted = false then false else true

/-! ## The descriptor table and the dispatcher (`manager.h`, `manager.cc`) -/

/-- The type `Mappings::RealSource`, a `std::pair< uv_file, Archive* >`; an `Archive*` is the
position of the archive in `Manager::archives_`. -/
abbrev RealSource := Int × Option Nat

/-- The class `Mappings`. -/
structure Mappings where
  counter_ : Int := 10
  known_ : StdMap Int RealSource := StdMap.empty

/-- The method `Mappings::NextFakeId`; `uv_file` is a 32-bit `int`, `++counter_` is taken
modulo 2^32. -/
def Mappings.NextFakeId (m : Mappings) : Int × Mappings :=
  let r := m.counter_
  let counter1 := toInt32 (m.counter_ + 1)
  (r, { m with counter_ := if counter1 < 10 then 10 else counter1 })

/-- The method `Mappings::Get`: the flag returned and the value of `gotten` afterwards. -/
def Mappings.Get (m : Mappings) (fake_fileId : Int) (gotten : RealSource) : Bool × RealSource :=
  match m.known_.find fake_fileId with
  | some found => (true, found)
  | none => (false, gotten)

/-- The method `Mappings::GetRealFile`. -/
def Mappings.GetRealFile (m : Mappings) (fake_fileId : Int) : Int :=
  match m.known_.find fake_fileId with
  | some found => found.1
  | none => 0

/-- The method `Mappings::GetArchive`. -/
def Mappings.GetArchive (m : Mappings) (fake_fileId : Int) : Option Nat :=
  match m.known_.find fake_fileId with
  | some found => found.2
  | none => none

/-- The method `Mappings::Insert( fake_fileId, real_fileId, owning_archive )`. -/
def Mappings.Insert (m : Mappings) (fake_fileId real_fileId : Int) (owning_archive : Option Nat) :
    Int × Mappings :=
  (fake_fileId, { m with known_ := m.known_.insert fake_fileId (real_fileId, owning_archive) })

/-- The method `Mappings::Remove`. -/
def Mappings.Remove (m : Mappings) (fake_fileId : Int) : Mappings :=
  match m.known_.find fake_fileId with
  | some _ => { m with known_ := m.known_.erase fake_fileId }
  | none => m

/-- The class `Manager`: the mount list, the cache root and the descriptor table. The trace
stream `report_wrappered_calls_` only produces diagnostics and is left out. -/
structure Manager where
  archives_ : List ArchiveJUnzip := []
  cachesRoot_ : Str := []
  knownFiles_ : Mappings := {}

/-- The `for` loop of `Manager::Find`: `i` is the position of the iterator, `pTarget` and
`mount_point_size` are the local variables. -/
def Manager.FindLoop (filepath : Str) (mount_start_point : Nat) :
    List ArchiveJUnzip → Nat → Option Nat → Nat → Option Nat
  | [], _, pTarget, _ => pTarget
  | a :: rest, i, pTarget, mount_point_size =>
    let mount_point := a.MountPoint
    let x := strFind filepath mount_point
    if x = some mount_start_point ∧ mount_point.length > mount_point_size then
      Manager.FindLoop filepath mount_start_point rest (i + 1) (some i) mount_point.length
    else
      Manager.FindLoop filepath mount_start_point rest (i + 1) pTarget mount_point_size

/-- The method `Manager::Find` (non-Windows build, where `mount_start_point` stays 0). -/
def Manager.Find (m : Manager) (filepath : Str) : Option Nat :=
  Manager.FindLoop filepath 0 m.archives_ 0 none 0

instance : Inhabited ArchiveJUnzip := ⟨{}⟩

/-- Dereference of an `Archive*`. -/
def Manager.archiveAt (m : Manager) (p : Nat) : ArchiveJUnzip :=
  m.archives_[p]?.getD default

/-- The manager after the archive at address `p` has become `a`. -/
def Manager.setArchive (m : Manager) (p : Nat) (a : ArchiveJUnzip) : Manager :=
  { m with archives_ := m.archives_.set p a }

/-- The method `Manager::BuildCacheDir( path )`: the value returned and the manager
afterwards. -/
def Manager.BuildCacheDir (m : Manager) (uv : RealFs) (path : Str) : Bool × Manager :=
  let m1 : Manager :=
    if m.cachesRoot_.length = 0 ∧ path.length = 0 then
      { m with cachesRoot_ := uv.tmpdir ++ "/archive_cache".toList }
    else m
  let m2 : Manager := if path.length ≠ 0 then { m1 with cachesRoot_ := path } else m1
  if (uv.stat_result m2.cachesRoot_).1 ≠ 0 then
    if uv.mkdir_result m2.cachesRoot_ ≠ 0 then (false, m2) else (true, m2)
  else (true, m2)

/-- The method `Manager::Mount`; `archive_id_counter` is a static that stays 1, and
`indeterminate` is the indeterminate value of `zip_file_handle_` in the object `new` returns.
The value returned and the manager afterwards; an archive whose mount fails is deleted (its
destructor calls `Unmount` when `zip_file_handle_` is not null) and is not part of the
manager. -/
def Manager.Mount (m : Manager) (uv : RealFs) (env : MountEnv) (archive_filepath : Str)
    (mount_point : Str) (indeterminate : Bool) : Bool × Manager :=
  let built := m.BuildCacheDir uv []
  if built.1 = false then (false, built.2)
  else
    let created_archive := ArchiveJUnzip.new 1 mount_point archive_filepath indeterminate
    let mounted := created_archive.Mount built.2.cachesRoot_ uv env
    if mounted.1 ≠ ErrorCodes.NoError then (false, built.2)
    else (true, { built.2 with archives_ := built.2.archives_ ++ [mounted.2] })

/-- The method `Manager::GetTrueFileName`. -/
def Manager.GetTrueFileName (m : Manager) (full_filepath : Str) : Str :=
  match m.Find full_filepath with
  | none => full_filepath
  | some found_archive => (m.archiveAt found_archive).CacheFilePath full_filepath

/-- The method `Manager::fs_req_init` (non-Windows build); the members `loop` and `bufs` are
not part of the model. -/
def Manager.fs_req_init (request : uv_fs_t) (subType : uv_fs_type) (cb : Option Callback) :
    uv_fs_t :=
  { request with
    fs_type := subType
    result := 0
    ptr := Ptr.null
    path := none
    flags := 0
    new_path := none
    cb := cb }

/-- The method `Manager::fs_capture_path` (non-Windows build); the copies it allocates are
taken to succeed, so it returns 0. -/
def Manager.fs_capture_path (req : uv_fs_t) (path new_path : Option Str) : Int × uv_fs_t :=
  match path with
  | none => (0, req)
  | some p =>
    match new_path with
    | some np => (0, { req with path := some p, new_path := some np })
    | none =>
      if req.cb = none then (0, { req with path := some p, new_path := none })
      else (0, { req with path := some p })

/-- The method `Manager::Sheath`. -/
def Manager.Sheath (request : uv_fs_t) (cb : Option Callback) (fake : Int)
    (pArchive : Option Nat) : uv_fs_t :=
  { request with data := Data.sheath fake request.data cb pArchive }

/-- The static method `Manager::Unsheath( request, pCb, fakeFileId, ppArchive )`: the request
afterwards and the values stored through the three out-parameters. A request whose `data` is
not a sheath is left as it is. -/
def Manager.Unsheath (request : uv_fs_t) : uv_fs_t × Option Callback × Int × Option Nat :=
  match request.data with
  | Data.sheath fake_ pUserData_ cb_ pArchive_ =>
    ({ request with data := pUserData_ }, cb_, fake_, pArchive_)
  | _ => (request, none, 0, none)

/-- The method `Manager::fs_stat` (the archives are not changed by it): the value returned,
the request and the loop afterwards. -/
def Manager.fs_stat (m : Manager) (uv : RealFs) (loop : Loop) (req : uv_fs_t) (path : Str)
    (cb : Option Callback) : Int × uv_fs_t × Loop :=
  match m.Find path with
  | none =>
    match cb with
    | none => uv_fs_stat_sync uv loop req path
    | some _ =>
      uv_fs_stat_async uv loop (Manager.Sheath req cb 0 none) path Callback.Manager_fs_stat_on
  | some pTarget =>
    let req1 := Manager.fs_req_init req uv_fs_type.UV_FS_STAT cb
    let req2 := (Manager.fs_capture_path req1 (some path) none).2
    let req3 : uv_fs_t :=
      match cb with
      | none => req2
      | some _ =>
        { Manager.Sheath req2 cb 0 (some pTarget) with cb := some Callback.Manager_fs_stat_on }
    (m.archiveAt pTarget).fs_stat loop { req3 with result := 0 } path

/-- The method `Manager::fs_scandir` (non-Windows build; the archives are not changed by it):
the value returned, the request and the loop afterwards. -/
def Manager.fs_scandir (m : Manager) (uv : RealFs) (loop : Loop) (req : uv_fs_t) (path : Str)
    (flags : Int) (cb : Option Callback) : Int × uv_fs_t × Loop :=
  match m.Find path with
  | none =>
    match cb with
    | none => uv_fs_scandir_sync uv loop req path flags
    | some _ =>
      uv_fs_scandir_async uv loop (Manager.Sheath req cb 0 none) path flags
        Callback.Manager_fs_scandir_on
  | some target_archive =>
    let req1 := Manager.fs_req_init req uv_fs_type.UV_FS_SCANDIR none
    let req2 := (Manager.fs_capture_path req1 (some path) none).2
    let req3 : uv_fs_t :=
      match cb with
      | none => req2
      | some _ =>
        { Manager.Sheath req2 cb 0 (some target_archive) with
          cb := some Callback.Manager_fs_scandir_on }
    (m.archiveAt target_archive).fs_scandir loop req3 path flags

/-- The method `Manager::fs_fstat` (the archives and the table are not changed by it): the
value returned, the request and the loop afterwards. `st` is the state after the first `if`;
the branch for a descriptor that is not in the table has no `return`, so the second `if` runs
after it with `source` as it was default-constructed. The loop keeps the address of a request
posted with `Schedule`; the entry of `scheduled` shows the request as it was when posted. -/
def Manager.fs_fstat (m : Manager) (uv : RealFs) (loop : Loop) (req : uv_fs_t) (fake_fileId : Int)
    (cb : Option Callback) : Int × uv_fs_t × Loop :=
  let got := m.knownFiles_.Get fake_fileId (0, none)
  let source := got.2
  let req0 : uv_fs_t := { req with result := 0 }
  let st : Int × uv_fs_t × Loop :=
    if got.1 = false then
      let req1 : uv_fs_t := { req0 with result := UV_ENOENT }
      match cb with
      | none => (toInt32 req1.result, req1, loop)
      | some _ =>
        let req2 := Manager.Sheath req1 cb fake_fileId none
        (0, req2, Schedule loop (ReqObj.plain req2))
    else (0, req0, loop)
  match source.2 with
  | some target =>
    let req1 := Manager.fs_req_init st.2.1 uv_fs_type.UV_FS_FSTAT cb
    let req2 : uv_fs_t :=
      match cb with
      | none => req1
      | some _ =>
        { Manager.Sheath req1 cb fake_fileId (some target) with
          cb := some Callback.Manager_fs_fstat_on }
    (m.archiveAt target).fs_fstat st.2.2 { req2 with result := 0 } source.1
  | none =>
    match cb with
    | some _ =>
      uv_fs_fstat_async uv st.2.2 (Manager.Sheath st.2.1 cb fake_fileId none) source.1
        Callback.Manager_fs_fstat_on
    | none =>
      let done := uv_fs_fstat_sync uv st.2.2 st.2.1 source.1
      (done.1, { done.2.1 with file := fake_fileId }, done.2.2)

/-- The method `Manager::fs_realpath` (the archives are not changed by it): the value
returned, the request and the loop afterwards. The copy `uv__strdup` allocates is taken to
succeed. -/
def Manager.fs_realpath (m : Manager) (uv : RealFs) (loop : Loop) (req : uv_fs_t) (path : Str)
    (cb : Option Callback) : Int × uv_fs_t × Loop :=
  match m.Find path with
  | none =>
    match cb with
    | none => uv_fs_realpath_sync uv loop req path
    | some _ =>
      uv_fs_realpath_async uv loop (Manager.Sheath req cb 0 none) path
        Callback.Manager_fs_realpath_on
  | some pTarget =>
    let req1 := Manager.fs_req_init req uv_fs_type.UV_FS_REALPATH cb
    let req2 := (Manager.fs_capture_path req1 (some path) none).2
    let dup := path
    let req3 : uv_fs_t := { req2 with ptr := Ptr.str dup, result := 0 }
    match cb with
    | some _ =>
      let req4 : uv_fs_t :=
        { Manager.Sheath req3 cb 0 (some pTarget) with
          cb := some Callback.Manager_fs_realpath_on }
      (0, req4, Schedule loop (ReqObj.plain req4))
    | none => (toInt32 req3.result, req3, loop)

/-- The static method `Manager::fs_open_on`: the manager afterwards, and the call it makes of
the callback of the caller on the request. -/
def Manager.fs_open_on (manager : Manager) (req : uv_fs_t) :
    Manager × Option Callback × uv_fs_t :=
  let un := Manager.Unsheath req
  let req1 := un.1
  let cb := un.2.1
  let target_archive := un.2.2.2
  if req1.result ≥ 0 then
    let real_fileId := toInt32 req1.result
    let minted := manager.knownFiles_.NextFakeId
    let fake_fileId := minted.1
    let inserted := minted.2.Insert fake_fileId real_fileId target_archive
    ({ manager with knownFiles_ := inserted.2 }, cb, { req1 with result := fake_fileId })
  else (manager, cb, req1)

/-- The method `Manager::fs_open` (non-Windows build, where `FLATTEN_PATH` does nothing): the
value returned, the request, the manager and the loop afterwards. -/
def Manager.fs_open (m : Manager) (uv : RealFs) (loop : Loop) (req : uv_fs_t) (path : Str)
    (flags mode : Int) (cb : Option Callback) : Int × uv_fs_t × Manager × Loop :=
  match m.Find path with
  | none =>
    match cb with
    | none =>
      let opened := uv_fs_open_sync uv loop req path flags mode
      let r := opened.1
      if r > 0 then
        let minted := m.knownFiles_.NextFakeId
        let fake_fileId := minted.1
        let inserted := minted.2.Insert fake_fileId (toInt32 opened.2.1.result) none
        (fake_fileId, { opened.2.1 with result := fake_fileId },
         { m with knownFiles_ := inserted.2 }, opened.2.2)
      else (r, opened.2.1, m, opened.2.2)
    | some _ =>
      let req1 := Manager.Sheath req cb 0 none
      let submitted := uv_fs_open_async uv loop (ReqObj.plain req1) path flags mode
        Callback.Manager_fs_open_on
      (submitted.1, submitted.2.1.base, m, submitted.2.2)
  | some target_archive =>
    let req1 := Manager.fs_req_init req uv_fs_type.UV_FS_OPEN (some Callback.Manager_fs_open_on)
    let req2 := (Manager.fs_capture_path req1 (some path) none).2
    match cb with
    | none =>
      let req3 : uv_fs_t := { req2 with cb := none }
      let opened := (m.archiveAt target_archive).fs_open target_archive uv loop req3 flags path
      let r := opened.1
      let m1 := m.setArchive target_archive opened.2.2.1
      if r > 0 then
        let minted := m1.knownFiles_.NextFakeId
        let fake_fileId := minted.1
        let real_fileId := toInt32 opened.2.1.result
        let inserted := minted.2.Insert fake_fileId real_fileId (some target_archive)
        (fake_fileId, { opened.2.1 with result := fake_fileId },
         { m1 with knownFiles_ := inserted.2 }, opened.2.2.2)
      else (r, opened.2.1, m1, opened.2.2.2)
    | some _ =>
      let req3 := Manager.Sheath req2 cb 0 (some target_archive)
      let opened := (m.archiveAt target_archive).fs_open target_archive uv loop req3 flags path
      (opened.1, opened.2.1, m.setArchive target_archive opened.2.2.1, opened.2.2.2)

/-- The static method `Manager::fs_close_on`: the manager afterwards, and the call it makes of
the callback of the caller on the request. -/
def Manager.fs_close_on (pM : Manager) (req : uv_fs_t) : Manager × Option Callback × uv_fs_t :=
  let un := Manager.Unsheath req
  ({ pM with knownFiles_ := pM.knownFiles_.Remove un.2.2.1 }, un.2.1, un.1)

/-- The method `Manager::fs_close`: the value returned, the request, the manager and the loop
afterwards. -/
def Manager.fs_close (m : Manager) (uv : RealFs) (loop : Loop) (req : uv_fs_t) (fake_fileId : Int)
    (on_close_cb : Option Callback) : Int × uv_fs_t × Manager × Loop :=
  let got := m.knownFiles_.Get fake_fileId (0, none)
  let source := got.2
  if got.1 = false then
    match on_close_cb with
    | some _ =>
      let req1 : uv_fs_t := { req with result := UV_ENOENT, cb := on_close_cb }
      (0, req1, m, Schedule loop (ReqObj.plain req1))
    | none => (toInt32 req.result, req, m, loop)
  else
    match source.2 with
    | some target_archive =>
      match on_close_cb with
      | none =>
        let req1 := Manager.fs_req_init req uv_fs_type.UV_FS_CLOSE none
        let closed := (m.archiveAt target_archive).fs_close uv loop req1 source.1
        let req2 : uv_fs_t := { closed.2.1 with file := fake_fileId }
        let m1 := m.setArchive target_archive closed.2.2.1
        (closed.1, req2, { m1 with knownFiles_ := m1.knownFiles_.Remove fake_fileId }, closed.2.2.2)
      | some _ =>
        let req1 := Manager.fs_req_init req uv_fs_type.UV_FS_CLOSE
          (some Callback.Manager_fs_close_on)
        let req2 := Manager.Sheath req1 on_close_cb fake_fileId (some target_archive)
        let closed := (m.archiveAt target_archive).fs_close uv loop req2 source.1
        (closed.1, closed.2.1, m.setArchive target_archive closed.2.2.1, closed.2.2.2)
    | none =>
      match on_close_cb with
      | none =>
        let closed := uv_fs_close_sync uv loop req source.1
        let req1 : uv_fs_t := { closed.2.1 with file := fake_fileId }
        (closed.1, req1, { m with knownFiles_ := m.knownFiles_.Remove fake_fileId }, closed.2.2)
      | some _ =>
        let req1 := Manager.Sheath req on_close_cb fake_fileId none
        let closed := uv_fs_close_async uv loop req1 source.1 Callback.Manager_fs_close_on
        (closed.1, closed.2.1, m, closed.2.2)

/-- The static method `Manager::fs_write_on`: the call it makes of the callback of the caller
on the request. -/
def Manager.fs_write_on (req : uv_fs_t) : Option Callback × uv_fs_t :=
  let un := Manager.Unsheath req
  (un.2.1, un.1)

/-- The method `Manager::fs_write`; the buffers are not part of the model. The value returned,
the request, the manager and the loop afterwards. -/
def Manager.fs_write (m : Manager) (uv : RealFs) (loop : Loop) (req : uv_fs_t) (fake_fileId : Int)
    (offset : Int) (cb : Option Callback) : Int × uv_fs_t × Manager × Loop :=
  let got := m.knownFiles_.Get fake_fileId (0, none)
  let source := got.2
  if got.1 = false then
    match cb with
    | some _ =>
      let req1 : uv_fs_t := { req with result := UV_ENOENT, cb := cb }
      (0, req1, m, Schedule loop (ReqObj.plain req1))
    | none => (UV_ENOENT, req, m, loop)
  else
    match source.2 with
    | some _target_archive =>
      let req1 : uv_fs_t := { req with result := UV_ECANCELED }
      match cb with
      | none => (toInt32 req1.result, req1, m, loop)
      | some _ =>
        let req2 := Manager.fs_req_init req1 uv_fs_type.UV_FS_WRITE
          (some Callback.Manager_fs_write_on)
        let req3 := Manager.Sheath req2 cb fake_fileId none
        (0, req3, m, Schedule loop (ReqObj.plain req3))
    | none =>
      match cb with
      | none =>
        let written := uv_fs_write_sync uv loop req source.1 offset
        (written.1, { written.2.1 with file := fake_fileId }, m, written.2.2)
      | some _ =>
        let req1 := Manager.Sheath req cb fake_fileId none
        let written := uv_fs_write_async uv loop req1 source.1 offset
          Callback.Manager_fs_write_on
        (written.1, written.2.1, m, written.2.2)

/-- The method `Manager::fs_read`; the buffers are not part of the model. The value returned,
the request and the loop afterwards. -/
def Manager.fs_read (m : Manager) (uv : RealFs) (loop : Loop) (req : uv_fs_t) (fake_fileId : Int)
    (offset : Int) (on_read_cb : Option Callback) : Int × uv_fs_t × Loop :=
  let got := m.knownFiles_.Get fake_fileId (0, none)
  let source := got.2
  if got.1 = false then
    match on_read_cb with
    | some _ =>
      let req1 : uv_fs_t := { req with result := UV_ENOENT, cb := on_read_cb }
      (0, req1, Schedule loop (ReqObj.plain req1))
    | none => (UV_ENOENT, req, loop)
  else
    match source.2 with
    | some target_archive =>
      match on_read_cb with
      | none =>
        let req1 := Manager.fs_req_init req uv_fs_type.UV_FS_READ none
        let done := (m.archiveAt target_archive).fs_read uv loop req1 source.1 offset
        (done.1, { done.2.1 with file := fake_fileId }, done.2.2)
      | some _ =>
        let req1 := Manager.fs_req_init req uv_fs_type.UV_FS_READ
          (some Callback.Manager_fs_read_on)
        let req2 := Manager.Sheath req1 on_read_cb fake_fileId none
        (m.archiveAt target_archive).fs_read uv loop req2 source.1 offset
    | none =>
      match on_read_cb with
      | none =>
        let done := uv_fs_fd_sync loop req uv_fs_type.UV_FS_READ
          (RealCall.fs_read source.1 offset) source.1 (uv.read_result source.1 offset)
        (done.1, { done.2.1 with file := fake_fileId }, done.2.2)
      | some _ =>
        let req1 := Manager.Sheath req on_read_cb fake_fileId none
        uv_fs_fd_async uv loop req1 uv_fs_type.UV_FS_READ (RealCall.fs_read source.1 offset)
          source.1 Callback.Manager_fs_read_on

/-- The method `Manager::fs_fsync`: the value returned, the request and the loop afterwards. -/
def Manager.fs_fsync (m : Manager) (uv : RealFs) (loop : Loop) (req : uv_fs_t) (fake_fileId : Int)
    (cb : Option Callback) : Int × uv_fs_t × Loop :=
  let got := m.knownFiles_.Get fake_fileId (0, none)
  let source := got.2
  if got.1 = false then
    match cb with
    | some _ =>
      let req1 : uv_fs_t := { req with result := UV_ENOENT, cb := cb }
      (0, req1, Schedule loop (ReqObj.plain req1))
    | none => (UV_ENOENT, req, loop)
  else
    match source.2 with
    | some _target_archive =>
      let req1 : uv_fs_t := { req with result := 0 }
      match cb with
      | none => (toInt32 req1.result, req1, loop)
      | some _ =>
        let req2 : uv_fs_t :=
          { Manager.Sheath req1 cb fake_fileId none with cb := some Callback.Manager_fs_fsync_on }
        (0, req2, Schedule loop (ReqObj.plain req2))
    | none =>
      match cb with
      | none =>
        let done := uv_fs_fd_sync loop req uv_fs_type.UV_FS_FSYNC (RealCall.fs_fsync source.1)
          source.1 (uv.fsync_result source.1)
        (done.1, { done.2.1 with file := fake_fileId }, done.2.2)
      | some _ =>
        let req1 := Manager.Sheath req cb fake_fileId none
        uv_fs_fd_async uv loop req1 uv_fs_type.UV_FS_FSYNC (RealCall.fs_fsync source.1) source.1
          Callback.Manager_fs_fsync_on

/-- The method `Manager::fs_fdatasync`: the value returned, the request and the loop
afterwards. -/
def Manager.fs_fdatasync (m : Manager) (uv : RealFs) (loop : Loop) (req : uv_fs_t)
    (fake_fileId : Int) (cb : Option Callback) : Int × uv_fs_t × Loop :=
  let got := m.knownFiles_.Get fake_fileId (0, none)
  let source := got.2
  if got.1 = false then
    match cb with
    | some _ =>
      let req1 : uv_fs_t := { req with result := UV_ENOENT, cb := cb }
      (0, req1, Schedule loop (ReqObj.plain req1))
    | none => (UV_ENOENT, req, loop)
  else
    match source.2 with
    | some _target_archive =>
      let req1 : uv_fs_t := { req with result := 0 }
      match cb with
      | none => (toInt32 req1.result, req1, loop)
      | some _ =>
        let req2 : uv_fs_t :=
          { Manager.Sheath req1 cb fake_fileId none with
            cb := some Callback.Manager_fs_fdatasync_on }
        (0, req2, Schedule loop (ReqObj.plain req2))
    | none =>
      match cb with
      | none =>
        let done := uv_fs_fd_sync loop req uv_fs_type.UV_FS_FDATASYNC
          (RealCall.fs_fdatasync source.1) source.1 (uv.fdatasync_result source.1)
        (done.1, { done.2.1 with file := fake_fileId }, done.2.2)
      | some _ =>
        let req1 := Manager.Sheath req cb fake_fileId none
        uv_fs_fd_async uv loop req1 uv_fs_type.UV_FS_FDATASYNC (RealCall.fs_fdatasync source.1)
          source.1 Callback.Manager_fs_fdatasync_on

/-- The methods `Manager::fs_ftruncate`, `Manager::fs_sendfile`, `Manager::fs_futime`,
`Manager::fs_fchmod` and `Manager::fs_fchown` have one and the same body, `int r = 0;
return r;`: the table, the request, the loop and the callback are not used. The value
returned, the request and the loop afterwards. -/
def Manager.fs_ftruncate (_m : Manager) (loop : Loop) (req : uv_fs_t) (_file : Int)
    (_offset : Int) (_cb : Option Callback) : Int × uv_fs_t × Loop :=
  let r := 0
  (r, req, loop)

/-- The method `Manager::fs_sendfile`. -/
def Manager.fs_sendfile (_m : Manager) (loop : Loop) (req : uv_fs_t) (_out_fd _in_fd : Int)
    (_in_offset : Int) (_length : Nat) (_cb : Option Callback) : Int × uv_fs_t × Loop :=
  let r := 0
  (r, req, loop)

/-- The method `Manager::fs_futime`; the times, of type `double`, are not used. -/
def Manager.fs_futime (_m : Manager) (loop : Loop) (req : uv_fs_t) (_file : Int)
    (_atime _mtime : Int) (_cb : Option Callback) : Int × uv_fs_t × Loop :=
  let r := 0
  (r, req, loop)

/-- The method `Manager::fs_fchmod`. -/
def Manager.fs_fchmod (_m : Manager) (loop : Loop) (req : uv_fs_t) (_file : Int) (_mode : Int)
    (_cb : Option Callback) : Int × uv_fs_t × Loop :=
  let r := 0
  (r, req, loop)

/-- The method `Manager::fs_fchown`. -/
def Manager.fs_fchown (_m : Manager) (loop : Loop) (req : uv_fs_t) (_file : Int)
    (_uid _gid : Nat) (_cb : Option Callback) : Int × uv_fs_t × Loop :=
  let r := 0
  (r, req, loop)

/-- The entries a caller reads from a request completed by scandir: the array `ptr` points to,
no entry when `ptr` is null. -/
def uv_fs_t.entries (req : uv_fs_t) : List uv__dirent_t :=
  match req.ptr with
  | Ptr.dirents results_array => results_array
  | _ => []

/-! ## Completions -/

/-- The dispatcher, the event loop, and the calls of callbacks of the caller made so far (which
callback, and the request it was called on). -/
structure World where
  manager : Manager := {}
  loop : Loop := {}
  delivered : List (Nat × uv_fs_t) := []

/-- A call `( *cb )( req )` of a `uv_fs_cb`. A callback of the caller is recorded; a completion
handler of the sources runs and then calls the callback it has unsheathed. `depth` bounds the
nesting of such calls (handler of the mount, handler of the dispatcher, callback of the
caller). -/
def invoke : Nat → World → Option Callback → ReqObj → World
  | 0, w, _, _ => w
  | _ + 1, w, none, _ => w
  | _ + 1, w, some (Callback.user f), obj => { w with delivered := w.delivered ++ [(f, obj.base)] }
  | depth + 1, w, some Callback.Manager_fs_open_on, obj =>
    let out := Manager.fs_open_on w.manager obj.base
    invoke depth { w with manager := out.1 } out.2.1 (ReqObj.plain out.2.2)
  | depth + 1, w, some Callback.Manager_fs_close_on, obj =>
    let out := Manager.fs_close_on w.manager obj.base
    invoke depth { w with manager := out.1 } out.2.1 (ReqObj.plain out.2.2)
  | depth + 1, w, some Callback.ArchiveJUnzip_fs_close_on, obj =>
    let out := Manager.fs_close_on w.manager obj.base
    invoke depth { w with manager := out.1 } out.2.1 (ReqObj.plain out.2.2)
  | depth + 1, w, some Callback.ArchiveJUnzip_fs_open_on, obj =>
    match obj with
    | ReqObj.plain _ => w
    | ReqObj.shadow true_request =>
      match true_request.base.data with
      | Data.archive this =>
        let out := (w.manager.archiveAt this).fs_open_on true_request
        invoke depth { w with manager := w.manager.setArchive this out.1 } out.2.1
          (ReqObj.plain out.2.2)
      | _ => w
  | depth + 1, w, some _, obj =>
    let un := Manager.Unsheath obj.base
    invoke depth w un.2.1 (ReqObj.plain un.1)

/-- The nesting bound used when the loop calls a callback. -/
def callDepth : Nat := 4

/-- The static method `UvScheduleDelay::OnProcessScheduleRequest`, run by the loop for the
oldest pending `ScheduleRequest`: the callback of its request is called on the request. -/
def OnProcessScheduleRequest (w : World) : World :=
  match w.loop.scheduled with
  | [] => w
  | schedule_item :: rest =>
    invoke callDepth { w with loop := { w.loop with scheduled := rest } }
      schedule_item.base.cb schedule_item

/-- Modelled from the spec: the completion of the oldest asynchronous real-filesystem
operation by libuv (an external collaborator): the result is stored in the request and the
callback of the request is called on it. -/
def completeReal (w : World) (result : Int) : World :=
  match w.loop.inflight with
  | [] => w
  | (_, obj) :: rest =>
    let done : ReqObj :=
      match obj with
      | ReqObj.plain b => ReqObj.plain { b with result := result }
      | ReqObj.shadow sh => ReqObj.shadow { sh with base := { sh.base with result := result } }
    invoke callDepth { w with loop := { w.loop with inflight := rest } } done.base.cb done

/-! ## A sample mount -/

/-- Surroundings in which every extraction succeeds; `mktime` is replaced by a fixed function
of the fields. -/
def sampleEnv : MountEnv :=
  { mktime := fun t =>
      ((((t.tm_year * 12 + t.tm_mon) * 31 + t.tm_mday) * 24 + t.tm_hour) * 60 + t.tm_min) * 60 +
        t.tm_sec
    jzReadData_ok := fun _ => true
    fopen_wb_ok := fun _ => true
    fwrite_ok := fun _ => true
    fopen_rb_ok := fun _ => true }

/-- The central directory of a small archive: a directory marker, a file below it, two files
at top level and a file below a directory that has no marker of its own. -/
def sampleEntries : List (Int × JZFileHeader × Str) :=
  [ (0, { lastModFileDate := 20000, lastModFileTime := 30000 }, "public/".toList),
    (1, { lastModFileDate := 20001, lastModFileTime := 30001, uncompressedSize := 120,
          offset := 40 }, "public/index.ejs".toList),
    (2, { lastModFileDate := 20002, lastModFileTime := 30002, uncompressedSize := 300,
          offset := 200 }, "package.json".toList),
    (3, { lastModFileDate := 20003, lastModFileTime := 30003, uncompressedSize := 77,
          offset := 520 }, "app.js".toList),
    (4, { lastModFileDate := 20004, lastModFileTime := 30004, uncompressedSize := 9,
          offset := 640 }, "bin/www".toList) ]

/-- The mount of the sample archive at "/mnt", extracted on mount. -/
def sampleArchive : ArchiveJUnzip :=
  readCentralDirectory sampleEnv sampleEntries
    { mount_point_ := "/mnt".toList
      temp_path_ := "/tmp/archive_cache/0f".toList
      extract_on_mount_ := true
      mounted := true }

/-- A real filesystem on which every open yields descriptor 7 and every close and write
yields 0. -/
def sampleFs : RealFs :=
  { open_result := fun _ _ _ => 7
    close_result := fun _ => 0
    write_result := fun _ _ => 0 }

/-- Surroundings in which no cache file can be opened. -/
def failingEnv : MountEnv :=
  { sampleEnv with
    fopen_wb_ok := fun _ => false
    fopen_rb_ok := fun _ => false }

/-- The mount of the sample archive at "/mnt" over a cache directory that exists but holds no
cache file: every entry fails validation. -/
def sampleUnsafeArchive : ArchiveJUnzip :=
  readCentralDirectory failingEnv sampleEntries
    { mount_point_ := "/mnt".toList
      temp_path_ := "/tmp/archive_cache/0f".toList
      extract_on_mount_ := false
      mounted := true }

/-- A dispatcher with the sample mount and an empty descriptor table. -/
def sampleManager : Manager := { archives_ := [sampleArchive] }

/-- A real filesystem on which every open yields descriptor 0 (the lowest free descriptor of
a process that has closed its standard input). -/
def zeroFs : RealFs :=
  { open_result := fun _ _ _ => 0
    close_result := fun _ => 0
    write_result := fun _ _ => 0 }

/-! ## Sequences of operations on the descriptor table -/

/-- The table after `n` calls of `Mappings::NextFakeId` on a fresh table. -/
def Mappings.afterMints : Nat → Mappings
  | 0 => {}
  | n + 1 => (Mappings.afterMints n).NextFakeId.2

/-- The value returned by call number `n` (counted from 0) of `Mappings::NextFakeId` on a
fresh table. -/
def Mappings.nthFakeId (n : Nat) : Int := (Mappings.afterMints n).NextFakeId.1

/-- An operation of the dispatcher that reads or changes the descriptor table: a call of
`Manager::fs_open` or `Manager::fs_close` (in either form), or a completion handled by
`Manager::fs_open_on` or `Manager::fs_close_on`. -/
inductive TableOp where
  | fs_open (uv : RealFs) (req : uv_fs_t) (path : Str) (flags mode : Int) (cb : Option Callback)
  | fs_close (uv : RealFs) (req : uv_fs_t) (fake_fileId : Int) (on_close_cb : Option Callback)
  | fs_open_on (req : uv_fs_t)
  | fs_close_on (req : uv_fs_t)

/-- The dispatcher and the loop after an operation. -/
def TableOp.run (m : Manager) (loop : Loop) : TableOp → Manager × Loop
  | TableOp.fs_open uv req path flags mode cb =>
    ((m.fs_open uv loop req path flags mode cb).2.2.1,
     (m.fs_open uv loop req path flags mode cb).2.2.2)
  | TableOp.fs_close uv req fake_fileId on_close_cb =>
    ((m.fs_close uv loop req fake_fileId on_close_cb).2.2.1,
     (m.fs_close uv loop req fake_fileId on_close_cb).2.2.2)
  | TableOp.fs_open_on req => ((Manager.fs_open_on m req).1, loop)
  | TableOp.fs_close_on req => ((Manager.fs_close_on m req).1, loop)

/-- The virtual descriptor minted between two states of the dispatcher, if any: the counter
of the table moves exactly when `Mappings::NextFakeId` is called, and the value minted is the
counter before the call. -/
def mintedBetween (before after : Manager) : List Int :=
  if after.knownFiles_.counter_ = before.knownFiles_.counter_ then []
  else [before.knownFiles_.counter_]

/-- The dispatcher and the loop after a sequence of operations, and the virtual descriptors
minted by them, oldest first. -/
def runOps : Manager → Loop → List TableOp → Manager × Loop × List Int
  | m, loop, [] => (m, loop, [])
  | m, loop, op :: rest =>
    let next := op.run m loop
    let later := runOps next.1 next.2 rest
    (later.1, later.2.1, mintedBetween m next.1 ++ later.2.2)

/-- The dispatcher and the loop after the operations `before` followed by a synchronous
`Manager::fs_close` of the virtual descriptor `v`. -/
def afterSyncClose (m : Manager) (loop : Loop) (before : List TableOp) (uv : RealFs)
    (req : uv_fs_t) (v : Int) : Manager × Loop :=
  (((runOps m loop before).1.fs_close uv (runOps m loop before).2.1 req v none).2.2.1,
   ((runOps m loop before).1.fs_close uv (runOps m loop before).2.1 req v none).2.2.2)

/-- The dispatcher `sampleManager` after a synchronous open of "/mnt/app.js" on `sampleFs`:
the table maps the virtual descriptor 10 to the real descriptor 7, owned by the mount. -/
def openedManager : Manager :=
  (sampleManager.fs_open sampleFs {} {} "/mnt/app.js".toList 0 0 none).2.2.1

/-- The world right after a call of `Manager::fs_open` returned. -/
def worldAfterOpen (m : Manager) (uv : RealFs) (req : uv_fs_t) (path : Str) (flags mode : Int)
    (cb : Option Callback) : World :=
  { manager := (m.fs_open uv {} req path flags mode cb).2.2.1
    loop := (m.fs_open uv {} req path flags mode cb).2.2.2 }

/-- The world right after a call of `Manager::fs_write` returned. -/
def worldAfterWrite (m : Manager) (uv : RealFs) (req : uv_fs_t) (fake_fileId offset : Int)
    (cb : Option Callback) : World :=
  { manager := (m.fs_write uv {} req fake_fileId offset cb).2.2.1
    loop := (m.fs_write uv {} req fake_fileId offset cb).2.2.2 }

/-! ## Calls seen from the event loop -/

/-- The world right after a call of `Manager::fs_stat` made in the world `w` has returned:
the call acts on the loop only. -/
def World.fs_stat (w : World) (uv : RealFs) (req : uv_fs_t) (path : Str)
    (cb : Option Callback) : World :=
  { w with loop := (w.manager.fs_stat uv w.loop req path cb).2.2 }

/-- The world right after a call of `Manager::fs_scandir` made in the world `w` has returned:
the call acts on the loop only. -/
def World.fs_scandir (w : World) (uv : RealFs) (req : uv_fs_t) (path : Str) (flags : Int)
    (cb : Option Callback) : World :=
  { w with loop := (w.manager.fs_scandir uv w.loop req path flags cb).2.2 }

/-- The world right after a call of `Manager::fs_fstat` returned. -/
def worldAfterFstat (m : Manager) (uv : RealFs) (req : uv_fs_t) (fake_fileId : Int)
    (cb : Option Callback) : World :=
  { manager := m
    loop := (m.fs_fstat uv {} req fake_fileId cb).2.2 }

/-- A real filesystem like `sampleFs` on which descriptor 0 is open (the standard input of the
process, a character device the size of which is 0). -/
def stdinFs : RealFs :=
  { sampleFs with
    fstat_result := fun file => if file = 0 then (0, { st_mode := 0x2000 }) else (-9, {}) }

/-- The sample mount after the synchronous open of "/mnt/app.js": its open-file table maps
the real descriptor 7 to the entry of the file. -/
def openedArchive : ArchiveJUnzip := openedManager.archiveAt 0

/-- Surroundings like `sampleEnv` in which the end record of no archive file is found. -/
def corruptArchiveEnv : MountEnv :=
  { sampleEnv with jzReadEndRecord_ok := fun _ => false }

/-- A real filesystem like `sampleFs` on which no directory can be created (the result is
`UV_EACCES`, -13). -/
def readOnlyFs : RealFs :=
  { sampleFs with mkdir_result := fun _ => -13 }

/-- Surroundings like `sampleEnv` in which nothing can be written to a cache file that has
been opened (the disk is full): `fwrite` writes no item. -/
def diskFullEnv : MountEnv :=
  { sampleEnv with fwrite_ok := fun _ => false }

/-- The mount of the sample archive at "/mnt", extracted on mount while the disk is full. -/
def diskFullArchive : ArchiveJUnzip :=
  readCentralDirectory diskFullEnv sampleEntries
    { mount_point_ := "/mnt".toList
      temp_path_ := "/tmp/archive_cache/0f".toList
      extract_on_mount_ := true
      mounted := true }

/-- The dispatcher `openedManager` (virtual descriptor 10 open on the real descriptor 7) once
the counter of the table has gone round: after 2147483638 calls of `Mappings::NextFakeId`
the counter is 10 again. -/
def wrappedManager : Manager :=
  { openedManager with knownFiles_ := { openedManager.knownFiles_ with counter_ := 10 } }

/-- The world right after a call of `Manager::fs_realpath` made in the world `w` has returned:
the call acts on the loop only. -/
def World.fs_realpath (w : World) (uv : RealFs) (req : uv_fs_t) (path : Str)
    (cb : Option Callback) : World :=
  { w with loop := (w.manager.fs_realpath uv w.loop req path cb).2.2 }

/-- The mount at "/mnt" of an archive with the single entry "a\\b", a file whose name holds a
backslash (an ordinary character of a file name outside Windows). -/
def backslashArchive : ArchiveJUnzip :=
  readCentralDirectory sampleEnv
    [(0, { lastModFileDate := 20000, lastModFileTime := 30000, uncompressedSize := 5 },
      "a\\b".toList)]
    { mount_point_ := "/mnt".toList
      temp_path_ := "/tmp/archive_cache/1a".toList
      extract_on_mount_ := true
      mounted := true }

/-- A mount at "/mnt" whose index holds the root only, as before the central directory is
read. -/
def emptyMount : ArchiveJUnzip :=
  { mount_point_ := "/mnt".toList
    temp_path_ := "/tmp/archive_cache/0f".toList
    extract_on_mount_ := true
    mounted := true }

/-- The header of a directory marker, with a DOS date and time. -/
def markerHeader : JZFileHeader :=
  { lastModFileDate := 21000, lastModFileTime := 31000 }

/-- The result `ArchiveJUnzip::fs_stat` stores in the request for a path. -/
def ArchiveJUnzip.statResult (a : ArchiveJUnzip) (filePath : Str) : Int :=
  match a.Find (a.FilePathToParts filePath) with
  | none => UV_ENOENT
  | some _ => 0

/-- The result `ArchiveJUnzip::fs_scandir` stores in the request for a path. -/
def ArchiveJUnzip.scandirResult (a : ArchiveJUnzip) (path : Str) : Int :=
  match a.Find (a.FilePathToParts path) with
  | none => UV_ENOENT
  | some (ItemPtr.file _) => UV_ENOTDIR
  | some (ItemPtr.dir p) => (((a.dirAt p).dirs_.size + (a.dirAt p).files_.size : Nat) : Int)

/-! ## Predicates used in the statements -/

/-- The decimal numeral of an integer, as the specification writes an entry id: the digits of
the absolute value, most significant first, after a minus sign when the integer is
negative. -/
def specDecimal (n : Int) : Str :=
  if n < 0 then '-' :: Nat.toDigits 10 n.natAbs else Nat.toDigits 10 n.natAbs

/-- The segments of the specification: the string is cut at every '/', which gives its
maximal substrings without '/' in left-to-right order, and the empty ones are dropped. -/
def specSegments (text : Str) : List Str :=
  (text.splitOn '/').filter (fun s => decide (s ≠ []))

/-- The archive after the statements `newDir = new ArchiveDirJUnzip(); node->Add( name,
newDir )` of `ArchiveJUnzip::AddEntry`: the new directory is at the end of the heap. -/
def ArchiveJUnzip.addDirNode (a : ArchiveJUnzip) (node : Nat) (name : Str) : ArchiveJUnzip :=
  ({ a with dirHeap := a.dirHeap ++ [{}] } : ArchiveJUnzip).setDir node
    ((({ a with dirHeap := a.dirHeap ++ [{}] } : ArchiveJUnzip).dirAt node).AddDir name
      a.dirHeap.length)

/-- The archive after the statements `newFile = new ArchiveFileJUnzip(); ...; node->Add( name,
newFile )` of `ArchiveJUnzip::AddEntry`: the new file is at the end of the heap. -/
def ArchiveJUnzip.addFileNode (a : ArchiveJUnzip) (node : Nat) (name : Str)
    (newFile : ArchiveFileJUnzip) : ArchiveJUnzip :=
  ({ a with fileHeap := a.fileHeap ++ [newFile] } : ArchiveJUnzip).setDir node
    ((({ a with fileHeap := a.fileHeap ++ [newFile] } : ArchiveJUnzip).dirAt node).AddFile name
      a.fileHeap.length)

/-- The directory reached from the directory `node` by following `parts` through `FindDir`
only, if there is one. -/
def ArchiveJUnzip.walk (a : ArchiveJUnzip) : Nat → List Str → Option Nat
  | node, [] => some node
  | node, s :: rest =>
    match (a.dirAt node).FindDir s with
    | none => none
    | some d => a.walk d rest

/-- The index is well formed: `root_` exists and every `ArchiveDir*` stored in a directory
points into the heap. -/
def IndexWF (a : ArchiveJUnzip) : Prop :=
  0 < a.dirHeap.length ∧
  ∀ (node : Nat) (name : Str) (d : Nat), (a.dirAt node).FindDir name = some d →
    d < a.dirHeap.length

/-- Every directory binding of `a` is a binding of `b`. -/
def DirsExtend (a b : ArchiveJUnzip) : Prop :=
  a.dirHeap.length ≤ b.dirHeap.length ∧
  ∀ (node : Nat) (name : Str) (d : Nat), (a.dirAt node).FindDir name = some d →
    (b.dirAt node).FindDir name = some d

/-- The pieces of a string between the characters that satisfy `isSep`, the empty ones
dropped. -/
def segmentsOf (isSep : Char → Bool) (text : Str) : List Str :=
  (text.splitOnP isSep).filter (fun s => decide (s ≠ []))

/-- The characters `FindNextDirSeperator` stops at, in every build: '/' and the backslash. -/
def isDirSeperator (c : Char) : Bool := c == '/' || c == '\\'

/-- The cache path of the specification, `<cache_subdir>/<entry_id>.cache`. -/
def specCachePath (cache_subdir : Str) (entry_id : Int) : Str :=
  cache_subdir ++ ['/'] ++ specDecimal entry_id ++ ['.', 'c', 'a', 'c', 'h', 'e']

/-- The loop invariant of `Manager::Find`: `pTarget` is null and nothing matched so far, or it
points to a matching mount of length `sz`; no mount seen so far matches with a longer mount
point. -/
def FindInv (p : Str) (seen : List ArchiveJUnzip) (pTarget : Option Nat) (sz : Nat) : Prop :=
  ((pTarget = none ∧ sz = 0) ∨
    ∃ i a, pTarget = some i ∧ seen[i]? = some a ∧ a.mount_point_ <+: p ∧
      a.mount_point_.length = sz ∧ 0 < sz) ∧
  ∀ b ∈ seen, b.mount_point_ <+: p → b.mount_point_.length ≤ sz

/-- What `ArchiveJUnzip::fs_open` does when it fails with `code` before any real open: the
request carries `code`; the archive, with its open-file table, is as before; no
real-filesystem call is issued or queued. The synchronous form returns `code` and leaves the
loop alone; the asynchronous form returns 0 and posts one shadow request, and
`ArchiveJUnzip::fs_open_on` on that shadow request leaves the archive as it is and calls the
callback of the request on the request carrying `code`. -/
def OpenFailsWith (a : ArchiveJUnzip) (this : Nat) (uv : RealFs) (loop : Loop)
    (request : uv_fs_t) (flags : Int) (filePath : Str) (code : Int) : Prop :=
  (a.fs_open this uv loop request flags filePath).2.1 = { request with result := code } ∧
  (a.fs_open this uv loop request flags filePath).2.2.1 = a ∧
  (a.fs_open this uv loop request flags filePath).2.2.2.realCalls = loop.realCalls ∧
  (a.fs_open this uv loop request flags filePath).2.2.2.inflight = loop.inflight ∧
  (request.cb = none →
    (a.fs_open this uv loop request flags filePath).1 = code ∧
    (a.fs_open this uv loop request flags filePath).2.2.2 = loop) ∧
  (request.cb ≠ none →
    (a.fs_open this uv loop request flags filePath).1 = 0 ∧
    ∃ openRequest : Shadow_uv_fs_t,
      (a.fs_open this uv loop request flags filePath).2.2.2 =
        Schedule loop (ReqObj.shadow openRequest) ∧
      openRequest.base.cb = some Callback.ArchiveJUnzip_fs_open_on ∧
      openRequest.base.data = Data.archive this ∧
      a.fs_open_on openRequest = (a, request.cb, { request with result := code }))

/-- What an operation of the dispatcher can do to the descriptor table: nothing, a
`Mappings::Remove`, or a `Mappings::NextFakeId` followed by a `Mappings::Insert` of the value
minted. -/
def TableEffect (kf kf2 : Mappings) : Prop :=
  kf2 = kf ∨ (∃ f, kf2 = kf.Remove f) ∨
    ∃ r a, kf2 = (kf.NextFakeId.2.Insert kf.NextFakeId.1 r a).2

/-- The state of the descriptor table after the values `minted` have been minted on a fresh
table without wrap: the counter is past all of them, they are 10, 11, 12, ... in this order,
and every key of the table is one of them. -/
def TableInv (kf : Mappings) (minted : List Int) : Prop :=
  kf.counter_ = 10 + minted.length ∧
  minted = (List.range minted.length).map (fun (i : Nat) => (10 : Int) + (i : Int)) ∧
  ∀ k, (kf.known_.find k).isSome = true → k ∈ minted

/-- The two failing cases of `ArchiveJUnzip::fs_scandir`, with `code` the error of the case:
the request carries `code` and its member `ptr` is not written; the synchronous form returns
`code` and leaves the loop alone; the asynchronous form returns 0 and posts the request. -/
def ScandirFailsWith (a : ArchiveJUnzip) (loop : Loop) (request : uv_fs_t) (path : Str)
    (flags : Int) (code : Int) : Prop :=
  (a.fs_scandir loop request path flags).2.1 = { request with result := code } ∧
  (request.cb = none →
    (a.fs_scandir loop request path flags).1 = code ∧
    (a.fs_scandir loop request path flags).2.2 = loop) ∧
  (request.cb ≠ none →
    (a.fs_scandir loop request path flags).1 = 0 ∧
    (a.fs_scandir loop request path flags).2.2 =
      Schedule loop (ReqObj.plain { request with result := code }))

/-! ## Routing: `Manager::Find` -/

theorem strFindFrom_ge (needle : Str) :
    ∀ (hay : Str) (pos q : Nat), strFindFrom needle hay pos = some q → pos ≤ q
  | [], pos, q, h => by
    simp only [strFindFrom] at h
    split_ifs at h
    simp only [Option.some.injEq] at h
    omega
  | c :: t, pos, q, h => by
    simp only [strFindFrom] at h
    split_ifs at h
    · simp only [Option.some.injEq] at h
      omega
    · have := strFindFrom_ge needle t (pos + 1) q h
      omega

theorem strFind_eq_zero_iff (hay needle : Str) :
    strFind hay needle = some 0 ↔ needle <+: hay := by
  unfold strFind
  cases hay with
  | nil =>
    simp only [strFindFrom]
    rw [← List.isPrefixOf_iff_prefix]
    split_ifs with h <;> simp [h]
  | cons c t =>
    simp only [strFindFrom]
    rw [← List.isPrefixOf_iff_prefix]
    split_ifs with h
    · simp [h]
    · constructor
      · intro h0
        have := strFindFrom_ge needle t 1 0 h0
        omega
      · intro h1
        exact absurd h1 h

theorem FindLoop_inv (p : Str) :
    ∀ (l seen : List ArchiveJUnzip) (pTarget : Option Nat) (sz : Nat),
      FindInv p seen pTarget sz →
      ∃ sz', FindInv p (seen ++ l) (Manager.FindLoop p 0 l seen.length pTarget sz) sz'
  | [], seen, pTarget, sz, h => ⟨sz, by simpa [Manager.FindLoop] using h⟩
  | a :: rest, seen, pTarget, sz, h => by
    have hstep : ∀ pT' sz', FindInv p (seen ++ [a]) pT' sz' →
        ∃ sz'', FindInv p (seen ++ a :: rest)
          (Manager.FindLoop p 0 rest (seen.length + 1) pT' sz') sz'' := by
      intro pT' sz' h'
      have := FindLoop_inv p rest (seen ++ [a]) pT' sz' h'
      simpa using this
    simp only [Manager.FindLoop, ArchiveJUnzip.MountPoint, strFind_eq_zero_iff]
    split_ifs with hc
    · apply hstep
      refine ⟨Or.inr ⟨seen.length, a, rfl, by simp, hc.1, rfl, by omega⟩, ?_⟩
      intro b hb hbp
      rcases List.mem_append.1 hb with hb | hb
      · have := h.2 b hb hbp
        omega
      · simp only [List.mem_singleton] at hb
        rw [hb]
    · apply hstep
      refine ⟨?_, ?_⟩
      · rcases h.1 with h1 | ⟨i, x, h1, h2, h3⟩
        · exact Or.inl h1
        · refine Or.inr ⟨i, x, h1, ?_, h3⟩
          have hi : i < seen.length := by
            rcases Nat.lt_or_ge i seen.length with hlt | hge
            · exact hlt
            · rw [List.getElem?_eq_none hge] at h2
              exact absurd h2 (by simp)
          rw [List.getElem?_append_left hi]
          exact h2
      · intro b hb hbp
        rcases List.mem_append.1 hb with hb | hb
        · exact h.2 b hb hbp
        · simp only [List.mem_singleton] at hb
          rw [hb] at hbp
          rw [hb]
          by_contra hlt
          exact hc ⟨hbp, by omega⟩

theorem Find_spec (m : Manager) (p : Str)
    (h : ∃ a ∈ m.archives_, a.mount_point_ ≠ [] ∧ a.mount_point_ <+: p) :
    ∃ i a, m.Find p = some i ∧ m.archives_[i]? = some a ∧ a.mount_point_ <+: p ∧
      ∀ b ∈ m.archives_, b.mount_point_ <+: p → b.mount_point_.length ≤ a.mount_point_.length := by
  obtain ⟨sz, hinv⟩ := FindLoop_inv p m.archives_ [] none 0
    ⟨Or.inl ⟨rfl, rfl⟩, by simp⟩
  simp only [List.nil_append, List.length_nil] at hinv
  obtain ⟨a0, ha0, hne, hpre⟩ := h
  have hpos : 0 < sz := by
    have := hinv.2 a0 ha0 hpre
    have : 0 < a0.mount_point_.length := List.length_pos.2 hne
    omega
  rcases hinv.1 with h1 | ⟨i, a, h1, h2, h3, h4, _⟩
  · omega
  · refine ⟨i, a, h1, h2, h3, ?_⟩
    intro b hb hbp
    rw [h4]
    exact hinv.2 b hb hbp

/-- C1. `Manager::Find` (non-Windows build) routes to a longest matching mount: when some
mount has a non-empty mount point that is a prefix of the path, `Find` returns a mount whose
mount point is a prefix of the path and at least as long as the mount point of every mount
that is a prefix of the path; the mount point selected is the same for every order of the
mount list. -/
theorem Manager_Find_longest_match (m : Manager) (p : Str)
    (h : ∃ a ∈ m.archives_, a.mount_point_ ≠ [] ∧ a.mount_point_ <+: p) :
    ∃ i a, m.Find p = some i ∧ m.archives_[i]? = some a ∧ a.mount_point_ <+: p ∧
      (∀ b ∈ m.archives_, b.mount_point_ <+: p →
        b.mount_point_.length ≤ a.mount_point_.length) ∧
      (∀ m2 : Manager, m2.archives_.Perm m.archives_ →
        ∃ j a2, m2.Find p = some j ∧ m2.archives_[j]? = some a2 ∧
          a2.mount_point_ = a.mount_point_) := by
  obtain ⟨i, a, h1, h2, h3, h4⟩ := Find_spec m p h
  refine ⟨i, a, h1, h2, h3, h4, ?_⟩
  intro m2 hperm
  have h' : ∃ a ∈ m2.archives_, a.mount_point_ ≠ [] ∧ a.mount_point_ <+: p := by
    obtain ⟨a0, ha0, hrest⟩ := h
    exact ⟨a0, hperm.mem_iff.2 ha0, hrest⟩
  obtain ⟨j, a2, k1, k2, k3, k4⟩ := Find_spec m2 p h'
  refine ⟨j, a2, k1, k2, ?_⟩
  have ha : a ∈ m.archives_ := List.getElem?_mem h2
  have ha2 : a2 ∈ m2.archives_ := List.getElem?_mem k2
  have e1 := h4 a2 (hperm.mem_iff.1 ha2) k3
  have e2 := k4 a (hperm.mem_iff.2 ha) h3
  have hp12 : a2.mount_point_ <+: a.mount_point_ := List.prefix_of_prefix_length_le k3 h3 e1
  exact hp12.eq_of_length (by omega)

/-- C1, at the mounts "/a" and "/a/b" and the path "/a/b/x": the path is routed to the "/a/b"
mount (position 1 of the mount list). -/
theorem Manager_Find_longest_match_witness :
    Manager.Find { archives_ := [{ mount_point_ := "/a".toList }, { mount_point_ := "/a/b".toList }] }
        "/a/b/x".toList = some 1 ∧
    ∃ i a, Manager.Find
        { archives_ := [{ mount_point_ := "/a".toList }, { mount_point_ := "/a/b".toList }] }
        "/a/b/x".toList = some i ∧
      (([{ mount_point_ := "/a".toList }, { mount_point_ := "/a/b".toList }] :
        List ArchiveJUnzip)[i]? = some a) ∧
      a.mount_point_ <+: "/a/b/x".toList :=
  ⟨by decide, by
    obtain ⟨i, a, h1, h2, h3, _⟩ := Manager_Find_longest_match
      { archives_ := [{ mount_point_ := "/a".toList }, { mount_point_ := "/a/b".toList }] }
      "/a/b/x".toList
      ⟨{ mount_point_ := "/a".toList }, by simp, by decide, by decide⟩
    exact ⟨i, a, h1, h2, h3⟩⟩

/-! ## The splitting loops run to completion -/

theorem FindNextDirSeperator_bounds :
    ∀ (rest : Str) (pos e : Nat), FindNextDirSeperator rest pos = some e →
      pos ≤ e ∧ e < pos + rest.length
  | [], _, _, h => by simp [FindNextDirSeperator] at h
  | c :: t, pos, e, h => by
    simp only [FindNextDirSeperator] at h
    simp only [List.length_cons]
    split_ifs at h
    · simp only [Option.some.injEq] at h
      omega
    · simp only [Option.some.injEq] at h
      omega
    · have := FindNextDirSeperator_bounds t (pos + 1) e h
      omega

theorem FindNextPathMarker_bounds :
    ∀ (rest : Str) (pos e : Nat), FindNextPathMarker rest pos = some e →
      pos ≤ e ∧ e < pos + rest.length
  | [], _, _, h => by simp [FindNextPathMarker] at h
  | c :: t, pos, e, h => by
    simp only [FindNextPathMarker] at h
    simp only [List.length_cons]
    split_ifs at h
    · simp only [Option.some.injEq] at h
      omega
    · have := FindNextPathMarker_bounds t (pos + 1) e h
      omega

/-- The loop of `Archive::FilePathToParts` ends by finding no further separator: with any two
amounts of fuel that exceed the number of characters left, the outcome is the same. In
particular the fuel `relativePath.length + 1` given by `FilePathToParts` is never used up. -/
theorem FilePathToPartsLoop_fuel (relativePath : Str) :
    ∀ (fuel fuel2 start : Nat) (ret : List Str),
      relativePath.length < start + fuel → relativePath.length < start + fuel2 →
      FilePathToPartsLoop relativePath fuel start ret =
        FilePathToPartsLoop relativePath fuel2 start ret
  | 0, fuel2, start, ret, h1, _ => by
    have hdrop : relativePath.drop start = [] := List.drop_eq_nil_of_le (by omega)
    cases fuel2 with
    | zero => rfl
    | succ f => simp [FilePathToPartsLoop, hdrop, FindNextDirSeperator]
  | fuel + 1, fuel2, start, ret, h1, h2 => by
    cases hf : FindNextDirSeperator (relativePath.drop start) start with
    | none =>
      cases fuel2 with
      | zero => simp [FilePathToPartsLoop, hf]
      | succ f => simp [FilePathToPartsLoop, hf]
    | some e =>
      have hb := FindNextDirSeperator_bounds _ _ _ hf
      rw [List.length_drop] at hb
      cases fuel2 with
      | zero => omega
      | succ f =>
        simp only [FilePathToPartsLoop, hf]
        exact FilePathToPartsLoop_fuel relativePath fuel f (e + 1) _ (by omega) (by omega)

/-- The loop of `Archive::SplitPath` ends by finding no further separator: with any two
amounts of fuel that exceed the number of characters left, the outcome is the same. -/
theorem SplitPathLoop_fuel (text : Str) :
    ∀ (fuel fuel2 start : Nat) (ret : List Str),
      text.length < start + fuel → text.length < start + fuel2 →
      SplitPathLoop text fuel start ret = SplitPathLoop text fuel2 start ret
  | 0, fuel2, start, ret, h1, _ => by
    have hdrop : text.drop start = [] := List.drop_eq_nil_of_le (by omega)
    cases fuel2 with
    | zero => rfl
    | succ f => simp [SplitPathLoop, hdrop, FindNextPathMarker]
  | fuel + 1, fuel2, start, ret, h1, h2 => by
    cases hf : FindNextPathMarker (text.drop start) start with
    | none =>
      cases fuel2 with
      | zero => simp [SplitPathLoop, hf]
      | succ f => simp [SplitPathLoop, hf]
    | some e =>
      have hb := FindNextPathMarker_bounds _ _ _ hf
      rw [List.length_drop] at hb
      cases fuel2 with
      | zero => omega
      | succ f =>
        simp only [SplitPathLoop, hf]
        exact SplitPathLoop_fuel text fuel f (e + 1) _ (by omega) (by omega)

/-! ## The handlers of a mount -/

theorem toInt32_of_range (x : Int) (h1 : -2147483648 ≤ x) (h2 : x < 2147483648) :
    toInt32 x = x := by
  unfold toInt32
  omega

theorem StdMap.keys_sorted {V : Type} (m : StdMap Str V) :
    m.keys.Pairwise (fun x y => strLt x y = true) := by
  unfold StdMap.keys
  rw [List.pairwise_map]
  exact m.sorted

/-- C2. `ArchiveJUnzip::fs_scandir` on a path that resolves to a Directory with `D` child
directories and `F` child files: the result of the request is `D + F` (and so is the value
returned by the synchronous form, as an `int`; the asynchronous form returns 0 and posts the
request), the entries are the keys of `dirs_` in ascending order, each typed `DIR`, followed by
the keys of `files_` in ascending order, each typed `FILE`. -/
theorem fs_scandir_directory (a : ArchiveJUnzip) (loop : Loop) (request : uv_fs_t) (path : Str)
    (flags : Int) (p : Nat) (h : a.Find (a.FilePathToParts path) = some (ItemPtr.dir p)) :
    (a.fs_scandir loop request path flags).2.1.result =
        ((a.dirAt p).dirs_.size + (a.dirAt p).files_.size : Nat) ∧
      (a.fs_scandir loop request path flags).2.1.entries =
        (a.dirAt p).dirs_.keys.map (fun n => { d_type := uv_dirent_type_t.UV_DIRENT_DIR, d_name := n }) ++
        (a.dirAt p).files_.keys.map (fun n => { d_type := uv_dirent_type_t.UV_DIRENT_FILE, d_name := n }) ∧
      (a.dirAt p).dirs_.keys.length = (a.dirAt p).dirs_.size ∧
      (a.dirAt p).files_.keys.length = (a.dirAt p).files_.size ∧
      (a.dirAt p).dirs_.keys.Pairwise (fun x y => strLt x y = true) ∧
      (a.dirAt p).files_.keys.Pairwise (fun x y => strLt x y = true) ∧
      (request.cb = none →
        (a.fs_scandir loop request path flags).1 =
          toInt32 ((a.dirAt p).dirs_.size + (a.dirAt p).files_.size : Nat) ∧
        (a.fs_scandir loop request path flags).2.2 = loop) ∧
      (request.cb ≠ none →
        (a.fs_scandir loop request path flags).1 = 0 ∧
        (a.fs_scandir loop request path flags).2.2 =
          Schedule loop (ReqObj.plain (a.fs_scandir loop request path flags).2.1)) := by
  have hk1 : (a.dirAt p).dirs_.keys.length = (a.dirAt p).dirs_.size := by
    simp [StdMap.keys, StdMap.size]
  have hk2 : (a.dirAt p).files_.keys.length = (a.dirAt p).files_.size := by
    simp [StdMap.keys, StdMap.size]
  refine ⟨?_, ?_, hk1, hk2, StdMap.keys_sorted _, StdMap.keys_sorted _, ?_, ?_⟩
  · simp only [ArchiveJUnzip.fs_scandir, h]
    split_ifs <;> rfl
  · simp only [ArchiveJUnzip.fs_scandir, h]
    by_cases ht : (a.dirAt p).dirs_.size + (a.dirAt p).files_.size > 0
    · simp only [ht, if_true]
      split_ifs <;>
        simp [uv_fs_t.entries, scandirEntries, StdMap.keys, List.map_map, Function.comp_def]
    · have h0 : (a.dirAt p).dirs_.size = 0 ∧ (a.dirAt p).files_.size = 0 := by omega
      have e1 : (a.dirAt p).dirs_.entries = [] := List.length_eq_zero.1 h0.1
      have e2 : (a.dirAt p).files_.entries = [] := List.length_eq_zero.1 h0.2
      simp only [ht, if_false]
      split_ifs <;> simp [uv_fs_t.entries, StdMap.keys, e1, e2]
  · intro hcb
    simp only [ArchiveJUnzip.fs_scandir, h]
    split_ifs <;> simp_all
  · intro hcb
    simp only [ArchiveJUnzip.fs_scandir, h]
    split_ifs <;> simp_all

/-- C2, at the root of the sample mount: the path "/mnt/" resolves to the root directory, the
result is 4, and the entries are "bin", "public" (DIR), then "app.js", "package.json"
(FILE). -/
theorem fs_scandir_directory_witness :
    sampleArchive.Find (sampleArchive.FilePathToParts "/mnt/".toList) = some (ItemPtr.dir 0) ∧
      (sampleArchive.fs_scandir {} {} "/mnt/".toList 0).2.1.result =
        ((sampleArchive.dirAt 0).dirs_.size + (sampleArchive.dirAt 0).files_.size : Nat) ∧
      (sampleArchive.fs_scandir {} {} "/mnt/".toList 0).2.1.result = 4 ∧
      (sampleArchive.fs_scandir {} {} "/mnt/".toList 0).2.1.entries =
        [ { d_type := uv_dirent_type_t.UV_DIRENT_DIR, d_name := "bin".toList },
          { d_type := uv_dirent_type_t.UV_DIRENT_DIR, d_name := "public".toList },
          { d_type := uv_dirent_type_t.UV_DIRENT_FILE, d_name := "app.js".toList },
          { d_type := uv_dirent_type_t.UV_DIRENT_FILE, d_name := "package.json".toList } ] :=
  ⟨by decide,
   (fs_scandir_directory sampleArchive {} {} "/mnt/".toList 0 0 (by decide)).1,
   by decide, by decide⟩

theorem fs_scandir_error_cases (a : ArchiveJUnzip) (loop : Loop) (request : uv_fs_t) (path : Str)
    (flags : Int) :
    (a.Find (a.FilePathToParts path) = none →
      ScandirFailsWith a loop request path flags UV_ENOENT) ∧
    (∀ p, a.Find (a.FilePathToParts path) = some (ItemPtr.file p) →
      ScandirFailsWith a loop request path flags UV_ENOTDIR) := by
  constructor
  · intro h
    simp only [ScandirFailsWith, ArchiveJUnzip.fs_scandir, h]
    refine ⟨?_, ?_, ?_⟩
    · split_ifs <;> rfl
    · intro hcb
      simp [hcb, UV_ENOENT, toInt32]
    · intro hcb
      simp [hcb]
  · intro p h
    simp only [ScandirFailsWith, ArchiveJUnzip.fs_scandir, h]
    refine ⟨?_, ?_, ?_⟩
    · split_ifs <;> rfl
    · intro hcb
      simp [hcb, UV_ENOTDIR, toInt32]
    · intro hcb
      simp [hcb]

theorem Manager_fs_scandir_owned (m : Manager) (uv : RealFs) (loop : Loop) (req : uv_fs_t)
    (path : Str) (flags : Int) (cb : Option Callback) (target : Nat)
    (h : m.Find path = some target) :
    ∃ req3 : uv_fs_t, req3.ptr = Ptr.null ∧
      m.fs_scandir uv loop req path flags cb =
        (m.archiveAt target).fs_scandir loop req3 path flags := by
  unfold Manager.fs_scandir
  simp only [h]
  refine ⟨_, ?_, rfl⟩
  cases cb <;>
    simp only [Manager.fs_capture_path, Manager.fs_req_init, Manager.Sheath] <;>
    split_ifs <;> rfl

/-- C3. `ArchiveJUnzip::fs_scandir` on a path that resolves to no entry gives `UV_ENOENT`, and
on a path that resolves to a File gives `UV_ENOTDIR`: this is the result of the request in both
forms, the value returned by the synchronous form, and the result carried by the request that
the asynchronous form posts for its callback. The member `ptr` of the request is not written,
so no entry list is produced; reached through `Manager::fs_scandir`, which clears `ptr` first,
the request ends with a null `ptr` and no entry. -/
theorem fs_scandir_errors (a : ArchiveJUnzip) (loop : Loop) (request : uv_fs_t) (path : Str)
    (flags : Int) :
    (a.Find (a.FilePathToParts path) = none →
      ScandirFailsWith a loop request path flags UV_ENOENT ∧
      (a.fs_scandir loop request path flags).2.1.ptr = request.ptr ∧
      ∀ (m : Manager) (uv : RealFs) (cb : Option Callback) (target : Nat),
        m.Find path = some target → m.archiveAt target = a →
        (m.fs_scandir uv loop request path flags cb).2.1.result = UV_ENOENT ∧
        (m.fs_scandir uv loop request path flags cb).2.1.ptr = Ptr.null ∧
        (m.fs_scandir uv loop request path flags cb).2.1.entries = []) ∧
    (∀ p, a.Find (a.FilePathToParts path) = some (ItemPtr.file p) →
      ScandirFailsWith a loop request path flags UV_ENOTDIR ∧
      (a.fs_scandir loop request path flags).2.1.ptr = request.ptr ∧
      ∀ (m : Manager) (uv : RealFs) (cb : Option Callback) (target : Nat),
        m.Find path = some target → m.archiveAt target = a →
        (m.fs_scandir uv loop request path flags cb).2.1.result = UV_ENOTDIR ∧
        (m.fs_scandir uv loop request path flags cb).2.1.ptr = Ptr.null ∧
        (m.fs_scandir uv loop request path flags cb).2.1.entries = []) := by
  have key : ∀ code, (∀ req3, ScandirFailsWith a loop req3 path flags code) →
      ScandirFailsWith a loop request path flags code ∧
      (a.fs_scandir loop request path flags).2.1.ptr = request.ptr ∧
      ∀ (m : Manager) (uv : RealFs) (cb : Option Callback) (target : Nat),
        m.Find path = some target → m.archiveAt target = a →
        (m.fs_scandir uv loop request path flags cb).2.1.result = code ∧
        (m.fs_scandir uv loop request path flags cb).2.1.ptr = Ptr.null ∧
        (m.fs_scandir uv loop request path flags cb).2.1.entries = [] := by
    intro code hall
    refine ⟨hall request, ?_, ?_⟩
    · rw [(hall request).1]
    · intro m uv cb target hfind harch
      obtain ⟨req3, hptr, heq⟩ := Manager_fs_scandir_owned m uv loop request path flags cb
        target hfind
      rw [heq, harch, (hall req3).1]
      exact ⟨rfl, hptr, by simp [uv_fs_t.entries, hptr]⟩
  constructor
  · intro h
    exact key UV_ENOENT (fun req3 => (fs_scandir_error_cases a loop req3 path flags).1 h)
  · intro p h
    exact key UV_ENOTDIR (fun req3 => (fs_scandir_error_cases a loop req3 path flags).2 p h)

/-- C3, at the sample mount: "/mnt/wibble" resolves to nothing and "/mnt/package.json" to a
File; scandir without a callback returns `UV_ENOENT` and `UV_ENOTDIR`. -/
theorem fs_scandir_errors_witness :
    (sampleArchive.Find (sampleArchive.FilePathToParts "/mnt/wibble".toList) = none ∧
      (sampleArchive.fs_scandir {} {} "/mnt/wibble".toList 0).1 = UV_ENOENT) ∧
    (sampleArchive.Find (sampleArchive.FilePathToParts "/mnt/package.json".toList) =
        some (ItemPtr.file 1) ∧
      (sampleArchive.fs_scandir {} {} "/mnt/package.json".toList 0).1 = UV_ENOTDIR) ∧
    (sampleManager.Find "/mnt/wibble".toList = some 0 ∧
      (sampleManager.fs_scandir sampleFs {} {} "/mnt/wibble".toList 0
        (some (Callback.user 1))).2.1.result = UV_ENOENT) :=
  ⟨⟨by decide,
    (((fs_scandir_errors sampleArchive {} {} "/mnt/wibble".toList 0).1 (by decide)).1.2.1
      rfl).1⟩,
   ⟨by decide,
    (((fs_scandir_errors sampleArchive {} {} "/mnt/package.json".toList 0).2 1
      (by decide)).1.2.1 rfl).1⟩,
   ⟨by decide,
    (((fs_scandir_errors sampleArchive {} {} "/mnt/wibble".toList 0).1 (by decide)).2.2
      sampleManager sampleFs (some (Callback.user 1)) 0 (by decide) rfl).1⟩⟩

/-- C4. `ArchiveJUnzip::fs_stat`: on a path that resolves to no entry the result is
`UV_ENOENT` (returned by the synchronous form, carried by the posted request in the
asynchronous form); on a path that resolves to an entry the result is 0 and the stat buffer has
`st_dev = st_ino = st_uid = st_gid = 0`, with `st_mode = 0x8000` and `st_size` the uncompressed
size for a File, and `st_mode = 0x4000` and `st_size = 0` for a Directory. -/
theorem fs_stat_result (a : ArchiveJUnzip) (loop : Loop) (req : uv_fs_t) (filePath : Str) :
    (a.Find (a.FilePathToParts filePath) = none →
      (a.fs_stat loop req filePath).2.1.result = UV_ENOENT ∧
      (req.cb = none → (a.fs_stat loop req filePath).1 = UV_ENOENT) ∧
      (req.cb ≠ none →
        (a.fs_stat loop req filePath).1 = 0 ∧
        (a.fs_stat loop req filePath).2.2 =
          Schedule loop (ReqObj.plain { req with result := UV_ENOENT, ptr := Ptr.null }))) ∧
    (∀ p, a.Find (a.FilePathToParts filePath) = some (ItemPtr.file p) →
      (a.fs_stat loop req filePath).2.1.result = 0 ∧
      (req.cb = none → (a.fs_stat loop req filePath).1 = 0) ∧
      (a.fs_stat loop req filePath).2.1.statbuf.st_dev = 0 ∧
      (a.fs_stat loop req filePath).2.1.statbuf.st_ino = 0 ∧
      (a.fs_stat loop req filePath).2.1.statbuf.st_uid = 0 ∧
      (a.fs_stat loop req filePath).2.1.statbuf.st_gid = 0 ∧
      (a.fs_stat loop req filePath).2.1.statbuf.st_mode = 0x8000 ∧
      (a.fs_stat loop req filePath).2.1.statbuf.st_size = (a.fileAt p).size_) ∧
    (∀ p, a.Find (a.FilePathToParts filePath) = some (ItemPtr.dir p) →
      (a.fs_stat loop req filePath).2.1.result = 0 ∧
      (req.cb = none → (a.fs_stat loop req filePath).1 = 0) ∧
      (a.fs_stat loop req filePath).2.1.statbuf.st_dev = 0 ∧
      (a.fs_stat loop req filePath).2.1.statbuf.st_ino = 0 ∧
      (a.fs_stat loop req filePath).2.1.statbuf.st_uid = 0 ∧
      (a.fs_stat loop req filePath).2.1.statbuf.st_gid = 0 ∧
      (a.fs_stat loop req filePath).2.1.statbuf.st_mode = 0x4000 ∧
      (a.fs_stat loop req filePath).2.1.statbuf.st_size = 0) := by
  refine ⟨?_, ?_, ?_⟩
  · intro h
    simp only [ArchiveJUnzip.fs_stat, h]
    refine ⟨?_, ?_, ?_⟩
    · split_ifs <;> rfl
    · intro hcb
      simp [hcb, UV_ENOENT, toInt32]
    · intro hcb
      simp [hcb]
  · intro p h
    simp only [ArchiveJUnzip.fs_stat, h]
    refine ⟨?_, ?_, ?_, ?_, ?_, ?_, ?_, ?_⟩
    · split_ifs <;> rfl
    · intro hcb
      simp [hcb, toInt32]
    all_goals split_ifs <;> simp
  · intro p h
    simp only [ArchiveJUnzip.fs_stat, h]
    refine ⟨?_, ?_, ?_, ?_, ?_, ?_, ?_, ?_⟩
    · split_ifs <;> rfl
    · intro hcb
      simp [hcb, toInt32]
    all_goals split_ifs <;> simp

/-- C4, at the sample mount: "/mnt/package.json" resolves to a File of size 300 and
"/mnt/public/" to a Directory. -/
theorem fs_stat_result_witness :
    (sampleArchive.Find (sampleArchive.FilePathToParts "/mnt/package.json".toList) =
        some (ItemPtr.file 1) ∧
      (sampleArchive.fs_stat {} {} "/mnt/package.json".toList).2.1.statbuf.st_mode = 0x8000 ∧
      (sampleArchive.fs_stat {} {} "/mnt/package.json".toList).2.1.statbuf.st_size = 300) ∧
    (sampleArchive.Find (sampleArchive.FilePathToParts "/mnt/public/".toList) =
        some (ItemPtr.dir 1) ∧
      (sampleArchive.fs_stat {} {} "/mnt/public/".toList).2.1.statbuf.st_mode = 0x4000) ∧
    (sampleArchive.Find (sampleArchive.FilePathToParts "/mnt/project.json".toList) = none ∧
      (sampleArchive.fs_stat {} {} "/mnt/project.json".toList).1 = UV_ENOENT) :=
  ⟨⟨by decide,
    ((fs_stat_result sampleArchive {} {} "/mnt/package.json".toList).2.1 1
      (by decide)).2.2.2.2.2.2.1,
    by decide⟩,
   ⟨by decide,
    ((fs_stat_result sampleArchive {} {} "/mnt/public/".toList).2.2 1
      (by decide)).2.2.2.2.2.2.1⟩,
   ⟨by decide,
    ((fs_stat_result sampleArchive {} {} "/mnt/project.json".toList).1 (by decide)).2.1 rfl⟩⟩

/-- The timestamps `ArchiveJUnzip::fs_stat` writes for a File: the four are equal, with
nanoseconds 0 and seconds `Convsert` of the last-modified time, which is that time divided by
1000. -/
theorem fs_stat_file_timestamps (a : ArchiveJUnzip) (loop : Loop) (req : uv_fs_t)
    (filePath : Str) (p : Nat)
    (h : a.Find (a.FilePathToParts filePath) = some (ItemPtr.file p)) :
    (a.fs_stat loop req filePath).2.1.statbuf.st_atim = Convsert (a.fileAt p).lastModified_ ∧
    (a.fs_stat loop req filePath).2.1.statbuf.st_ctim = Convsert (a.fileAt p).lastModified_ ∧
    (a.fs_stat loop req filePath).2.1.statbuf.st_mtim = Convsert (a.fileAt p).lastModified_ ∧
    (a.fs_stat loop req filePath).2.1.statbuf.st_birthtim =
      Convsert (a.fileAt p).lastModified_ ∧
    (Convsert (a.fileAt p).lastModified_).tv_nsec = 0 ∧
    (Convsert (a.fileAt p).lastModified_).tv_sec = Int.tdiv (a.fileAt p).lastModified_ 1000 := by
  simp only [ArchiveJUnzip.fs_stat, h]
  refine ⟨?_, ?_, ?_, ?_, rfl, ?_⟩
  · split_ifs <;> rfl
  · split_ifs <;> rfl
  · split_ifs <;> rfl
  · split_ifs <;> rfl
  · simp only [Convsert]
    split_ifs with h0
    · rw [h0]; rfl
    · rfl

/-- The timestamps after `ArchiveJUnzip::fs_stat` of a Directory: the four members of the stat
buffer are as they were before the call. -/
theorem fs_stat_dir_timestamps (a : ArchiveJUnzip) (loop : Loop) (req : uv_fs_t)
    (filePath : Str) (p : Nat)
    (h : a.Find (a.FilePathToParts filePath) = some (ItemPtr.dir p)) :
    (a.fs_stat loop req filePath).2.1.statbuf.st_atim = req.statbuf.st_atim ∧
    (a.fs_stat loop req filePath).2.1.statbuf.st_ctim = req.statbuf.st_ctim ∧
    (a.fs_stat loop req filePath).2.1.statbuf.st_mtim = req.statbuf.st_mtim ∧
    (a.fs_stat loop req filePath).2.1.statbuf.st_birthtim = req.statbuf.st_birthtim := by
  simp only [ArchiveJUnzip.fs_stat, h]
  refine ⟨?_, ?_, ?_, ?_⟩ <;> split_ifs <;> rfl

/-- C5, the code at two inputs. The File "/mnt/app.js" of the sample mount has last-modified
time 3825067298 and `fs_stat` reports 3825067 seconds. The Directory "/mnt/bin" has
last-modified time 3825153700; `fs_stat` on a request whose stat buffer holds the times 11, 12,
13 and 14 from an earlier use leaves them there. -/
theorem fs_stat_timestamps_diverge :
    (sampleArchive.Find (sampleArchive.FilePathToParts "/mnt/app.js".toList) =
        some (ItemPtr.file 2) ∧
      (sampleArchive.fileAt 2).lastModified_ = 3825067298 ∧
      (sampleArchive.fs_stat {} {} "/mnt/app.js".toList).2.1.statbuf.st_mtim.tv_sec = 3825067) ∧
    (sampleArchive.Find (sampleArchive.FilePathToParts "/mnt/bin".toList) =
        some (ItemPtr.dir 2) ∧
      (sampleArchive.dirAt 2).lastModified_ = 3825153700 ∧
      (sampleArchive.fs_stat {}
          { statbuf := { st_atim := { tv_sec := 11 }, st_mtim := { tv_sec := 12 },
                         st_ctim := { tv_sec := 13 }, st_birthtim := { tv_sec := 14 } } }
          "/mnt/bin".toList).2.1.statbuf =
        { st_mode := 0x4000, st_atim := { tv_sec := 11 }, st_mtim := { tv_sec := 12 },
          st_ctim := { tv_sec := 13 }, st_birthtim := { tv_sec := 14 } }) := by
  decide

/-- C6. `ArchiveJUnzip::fs_open` fails with `UV_ENOENT` on a path that resolves to no entry or
to a Directory, and with `UV_EIO` on a path that resolves to a File whose state is not
`Extracted`; in each case no real-filesystem open is issued and the open-file table of the
mount is unchanged, also after the deferred completion of the asynchronous form. -/
theorem fs_open_errors (a : ArchiveJUnzip) (this : Nat) (uv : RealFs) (loop : Loop)
    (request : uv_fs_t) (flags : Int) (filePath : Str) :
    (a.Find (a.FilePathToParts filePath) = none →
      OpenFailsWith a this uv loop request flags filePath UV_ENOENT) ∧
    (∀ p, a.Find (a.FilePathToParts filePath) = some (ItemPtr.dir p) →
      OpenFailsWith a this uv loop request flags filePath UV_ENOENT) ∧
    (∀ p, a.Find (a.FilePathToParts filePath) = some (ItemPtr.file p) →
      (a.fileAt p).exstracted_ ≠ ExtractStates.Extracted →
      OpenFailsWith a this uv loop request flags filePath UV_EIO) := by
  have key : ∀ code : Int, code < 0 → toInt32 code = code →
      (a.fs_open this uv loop request flags filePath) =
        (if ({ request with result := code } : uv_fs_t).cb ≠ none then
          (0, { request with result := code }, a,
            Schedule loop (ReqObj.shadow
              { base := { cb := some Callback.ArchiveJUnzip_fs_open_on, data := Data.archive this,
                          result := code }
                target_ := none
                shadowing_request_ := { request with result := code } }))
        else (code, { request with result := code }, a, loop)) →
      OpenFailsWith a this uv loop request flags filePath code := by
    intro code hneg hcast heq
    unfold OpenFailsWith
    rw [heq]
    by_cases hcb : request.cb = none
    · simp [hcb]
    · have hle : ¬ (0 < code) := by omega
      simp [hcb, Schedule, ArchiveJUnzip.fs_open_on, hle]
  refine ⟨?_, ?_, ?_⟩
  · intro h
    refine key UV_ENOENT (by decide) (by decide) ?_
    simp [ArchiveJUnzip.fs_open, h, UV_ENOENT, toInt32]
  · intro p h
    refine key UV_ENOENT (by decide) (by decide) ?_
    simp [ArchiveJUnzip.fs_open, h, UV_ENOENT, toInt32]
  · intro p h hx
    refine key UV_EIO (by decide) (by decide) ?_
    simp [ArchiveJUnzip.fs_open, h, hx, UV_EIO, toInt32]

/-- C6, at the sample mounts: "/mnt/project.json" resolves to nothing and "/mnt/public/" to a
Directory, and open returns `UV_ENOENT`; on the mount whose cache files are missing
"/mnt/app.js" resolves to a File in state `NotExtracted`, and open returns `UV_EIO`. -/
theorem fs_open_errors_witness :
    (sampleArchive.Find (sampleArchive.FilePathToParts "/mnt/project.json".toList) = none ∧
      (sampleArchive.fs_open 0 sampleFs {} {} 0 "/mnt/project.json".toList).1 = UV_ENOENT) ∧
    (sampleArchive.Find (sampleArchive.FilePathToParts "/mnt/public/".toList) =
        some (ItemPtr.dir 1) ∧
      (sampleArchive.fs_open 0 sampleFs {} {} 0 "/mnt/public/".toList).1 = UV_ENOENT) ∧
    (sampleUnsafeArchive.Find (sampleUnsafeArchive.FilePathToParts "/mnt/app.js".toList) =
        some (ItemPtr.file 2) ∧
      (sampleUnsafeArchive.fileAt 2).exstracted_ = ExtractStates.NotExtracted ∧
      (sampleUnsafeArchive.fs_open 0 sampleFs {} {} 0 "/mnt/app.js".toList).1 = UV_EIO) :=
  ⟨⟨by decide,
    (((fs_open_errors sampleArchive 0 sampleFs {} {} 0 "/mnt/project.json".toList).1
      (by decide)).2.2.2.2.1 rfl).1⟩,
   ⟨by decide,
    (((fs_open_errors sampleArchive 0 sampleFs {} {} 0 "/mnt/public/".toList).2.1 1
      (by decide)).2.2.2.2.1 rfl).1⟩,
   ⟨by decide, by decide,
    (((fs_open_errors sampleUnsafeArchive 0 sampleFs {} {} 0 "/mnt/app.js".toList).2.2 2
      (by decide) (by decide)).2.2.2.2.1 rfl).1⟩⟩

/-! ## The descriptor table -/

theorem NextFakeId_fst (m : Mappings) : m.NextFakeId.1 = m.counter_ := rfl

theorem NextFakeId_known (m : Mappings) : m.NextFakeId.2.known_ = m.known_ := rfl

theorem NextFakeId_counter (m : Mappings) (h1 : 10 ≤ m.counter_) (h2 : m.counter_ ≤ 2147483647) :
    m.NextFakeId.2.counter_ = if m.counter_ = 2147483647 then 10 else m.counter_ + 1 := by
  simp only [Mappings.NextFakeId, toInt32]
  split_ifs <;> omega

theorem afterMints_range (n : Nat) :
    10 ≤ (Mappings.afterMints n).counter_ ∧ (Mappings.afterMints n).counter_ ≤ 2147483647 := by
  induction n with
  | zero => exact ⟨by decide, by decide⟩
  | succ k ih =>
    simp only [Mappings.afterMints]
    rw [NextFakeId_counter _ ih.1 ih.2]
    split_ifs <;> omega

theorem afterMints_counter (n : Nat) (h : n ≤ 2147483637) :
    (Mappings.afterMints n).counter_ = 10 + n := by
  induction n with
  | zero => rfl
  | succ k ih =>
    have hk := ih (by omega)
    simp only [Mappings.afterMints]
    rw [NextFakeId_counter _ (afterMints_range k).1 (afterMints_range k).2, hk]
    split_ifs <;> omega

/-- C8. `Mappings::NextFakeId` on a fresh table: the first value returned is 10; every value
returned is at least 10; the value after `x` is `x + 1`, except that the value after
2147483647, the largest `uv_file`, is 10 (the increment taken modulo 2^32). Value number
2147483637 is 2147483647, so the exception is met. -/
theorem NextFakeId_sequence :
    Mappings.nthFakeId 0 = 10 ∧
    (∀ n, 10 ≤ Mappings.nthFakeId n) ∧
    (∀ n, Mappings.nthFakeId (n + 1) =
      if Mappings.nthFakeId n = 2147483647 then 10 else Mappings.nthFakeId n + 1) ∧
    Mappings.nthFakeId 2147483637 = 2147483647 ∧
    Mappings.nthFakeId 2147483638 = 10 := by
  have hlast : Mappings.nthFakeId 2147483637 = 2147483647 := by
    unfold Mappings.nthFakeId
    rw [NextFakeId_fst, afterMints_counter _ (le_refl _)]
    rfl
  have hstep : ∀ n, Mappings.nthFakeId (n + 1) =
      if Mappings.nthFakeId n = 2147483647 then 10 else Mappings.nthFakeId n + 1 := by
    intro n
    unfold Mappings.nthFakeId
    simp only [NextFakeId_fst, Mappings.afterMints]
    exact NextFakeId_counter _ (afterMints_range n).1 (afterMints_range n).2
  refine ⟨rfl, fun n => (afterMints_range n).1, hstep, hlast, ?_⟩
  rw [hstep, hlast]
  rfl

theorem findList_isSome_iff {K V : Type} [KeyOrder K] (k : K) :
    ∀ l : List (K × V), (findList k l).isSome = true ↔ ∃ p ∈ l, p.1 = k
  | [] => by simp [findList]
  | (k', v') :: t => by
    have ih := findList_isSome_iff k t
    simp only [findList]
    split_ifs with h1 h2
    · rw [ih]
      constructor
      · rintro ⟨p, hp, hk⟩
        exact ⟨p, List.mem_cons_of_mem _ hp, hk⟩
      · rintro ⟨p, hp, hk⟩
        rcases List.mem_cons.1 hp with hp | hp
        · subst hp
          simp only at hk
          rw [hk, KeyOrder.irrefl] at h1
          exact absurd h1 (by simp)
        · exact ⟨p, hp, hk⟩
    · rw [ih]
      constructor
      · rintro ⟨p, hp, hk⟩
        exact ⟨p, List.mem_cons_of_mem _ hp, hk⟩
      · rintro ⟨p, hp, hk⟩
        rcases List.mem_cons.1 hp with hp | hp
        · subst hp
          simp only at hk
          rw [hk, KeyOrder.irrefl] at h2
          exact absurd h2 (by simp)
        · exact ⟨p, hp, hk⟩
    · have hk : k = k' := KeyOrder.total k k' (by simpa using h1) (by simpa using h2)
      simp only [Option.isSome_some, true_iff]
      exact ⟨(k', v'), List.mem_cons_self _ _, hk.symm⟩

theorem findList_eraseList_self {K V : Type} [KeyOrder K] (k : K) :
    ∀ l : List (K × V), SortedKeys l → findList k (eraseList k l) = none
  | [], _ => by simp [eraseList, findList]
  | (k', v') :: t, h => by
    unfold SortedKeys at h
    rw [List.pairwise_cons] at h
    have ih := findList_eraseList_self k t h.2
    simp only [eraseList]
    split_ifs with h1 h2
    · simp only [findList, h1, if_true]
      exact ih
    · simp only [findList, h1, h2, if_true, if_false]
      exact ih
    · have hk : k = k' := KeyOrder.total k k' (by simpa using h1) (by simpa using h2)
      by_contra hne
      have hsome : (findList k t).isSome = true := by
        cases hf : findList k t with
        | none => exact absurd hf hne
        | some _ => rfl
      obtain ⟨p, hp, hpk⟩ := (findList_isSome_iff k t).1 hsome
      have hlt := h.1 p hp
      rw [hpk, ← hk, KeyOrder.irrefl] at hlt
      exact absurd hlt (by simp)

theorem StdMap.find_erase_self {K V : Type} [KeyOrder K] (m : StdMap K V) (k : K) :
    (m.erase k).find k = none :=
  findList_eraseList_self k m.entries m.sorted

theorem StdMap.find_erase_isSome {K V : Type} [KeyOrder K] (m : StdMap K V) (k k' : K)
    (h : ((m.erase k).find k').isSome = true) : (m.find k').isSome = true := by
  unfold StdMap.find StdMap.erase at *
  obtain ⟨p, hp, hk⟩ := (findList_isSome_iff k' _).1 h
  exact (findList_isSome_iff k' _).2 ⟨p, mem_eraseList k _ p hp, hk⟩

theorem StdMap.find_insert_isSome {K V : Type} [KeyOrder K] (m : StdMap K V) (k k' : K) (v : V)
    (h : ((m.insert k v).find k').isSome = true) : k' = k ∨ (m.find k').isSome = true := by
  unfold StdMap.find StdMap.insert at *
  obtain ⟨p, hp, hk⟩ := (findList_isSome_iff k' _).1 h
  rcases mem_insertList k v _ p hp with hp | hp
  · left
    rw [← hk, hp]
  · exact Or.inr ((findList_isSome_iff k' _).2 ⟨p, hp, hk⟩)

theorem Remove_find_self (kf : Mappings) (k : Int) : (kf.Remove k).known_.find k = none := by
  unfold Mappings.Remove
  cases h : kf.known_.find k with
  | none => simpa using h
  | some _ => exact StdMap.find_erase_self _ _

theorem Remove_find_isSome (kf : Mappings) (k k' : Int)
    (h : ((kf.Remove k).known_.find k').isSome = true) : (kf.known_.find k').isSome = true := by
  unfold Mappings.Remove at h
  cases hf : kf.known_.find k with
  | none => simpa [hf] using h
  | some _ =>
    rw [hf] at h
    exact StdMap.find_erase_isSome _ _ _ h

theorem Remove_counter (kf : Mappings) (k : Int) : (kf.Remove k).counter_ = kf.counter_ := by
  unfold Mappings.Remove
  cases kf.known_.find k <;> rfl

theorem setArchive_knownFiles (m : Manager) (p : Nat) (a : ArchiveJUnzip) :
    (m.setArchive p a).knownFiles_ = m.knownFiles_ := rfl

theorem fs_open_effect (m : Manager) (uv : RealFs) (loop : Loop) (req : uv_fs_t) (path : Str)
    (flags mode : Int) (cb : Option Callback) :
    TableEffect m.knownFiles_ (m.fs_open uv loop req path flags mode cb).2.2.1.knownFiles_ := by
  unfold Manager.fs_open
  split
  · split
    · dsimp only
      split_ifs
      · exact Or.inr (Or.inr ⟨_, _, rfl⟩)
      · exact Or.inl rfl
    · exact Or.inl rfl
  · split
    · dsimp only
      split_ifs
      · exact Or.inr (Or.inr ⟨_, _, rfl⟩)
      · exact Or.inl rfl
    · exact Or.inl rfl

theorem fs_close_effect (m : Manager) (uv : RealFs) (loop : Loop) (req : uv_fs_t) (fake : Int)
    (cb : Option Callback) :
    TableEffect m.knownFiles_ (m.fs_close uv loop req fake cb).2.2.1.knownFiles_ := by
  unfold Manager.fs_close
  dsimp only
  split_ifs
  · split
    · exact Or.inl rfl
    · exact Or.inl rfl
  · split
    · split
      · exact Or.inr (Or.inl ⟨_, rfl⟩)
      · exact Or.inl rfl
    · split
      · exact Or.inr (Or.inl ⟨_, rfl⟩)
      · exact Or.inl rfl

theorem fs_open_on_effect (m : Manager) (req : uv_fs_t) :
    TableEffect m.knownFiles_ (Manager.fs_open_on m req).1.knownFiles_ := by
  unfold Manager.fs_open_on
  dsimp only
  split_ifs
  · exact Or.inr (Or.inr ⟨_, _, rfl⟩)
  · exact Or.inl rfl

theorem fs_close_on_effect (m : Manager) (req : uv_fs_t) :
    TableEffect m.knownFiles_ (Manager.fs_close_on m req).1.knownFiles_ :=
  Or.inr (Or.inl ⟨_, rfl⟩)

theorem TableOp.run_effect (op : TableOp) (m : Manager) (loop : Loop) :
    TableEffect m.knownFiles_ (op.run m loop).1.knownFiles_ := by
  cases op with
  | fs_open uv req path flags mode cb => exact fs_open_effect m uv loop req path flags mode cb
  | fs_close uv req fake cb => exact fs_close_effect m uv loop req fake cb
  | fs_open_on req => exact fs_open_on_effect m req
  | fs_close_on req => exact fs_close_on_effect m req

theorem TableInv_step (kf kf2 : Mappings) (minted : List Int) (hinv : TableInv kf minted)
    (heff : TableEffect kf kf2)
    (hbound : (minted ++ (if kf2.counter_ = kf.counter_ then [] else [kf.counter_])).length
      ≤ 2147483637) :
    TableInv kf2 (minted ++ (if kf2.counter_ = kf.counter_ then [] else [kf.counter_])) := by
  obtain ⟨hc, hm, hk⟩ := hinv
  rcases heff with h | ⟨f, h⟩ | ⟨r, a, h⟩
  · rw [h]
    simp only [if_true, List.append_nil]
    exact ⟨hc, hm, hk⟩
  · have hcnt : kf2.counter_ = kf.counter_ := by rw [h]; exact Remove_counter kf f
    simp only [hcnt, if_true, List.append_nil]
    refine ⟨hcnt.trans hc, hm, ?_⟩
    intro k hks
    rw [h] at hks
    exact hk k (Remove_find_isSome kf f k hks)
  · have hlen : (minted.length : Int) ≤ 2147483637 := by
      have h1 : minted.length ≤
          (minted ++ (if kf2.counter_ = kf.counter_ then [] else [kf.counter_])).length := by
        simp
      have h2 := le_trans h1 hbound
      exact_mod_cast h2
    have hcnt : kf2.counter_ =
        if kf.counter_ = 2147483647 then 10 else kf.counter_ + 1 := by
      rw [h]
      exact NextFakeId_counter kf (by omega) (by omega)
    have hne : kf2.counter_ ≠ kf.counter_ := by
      rw [hcnt]
      split_ifs <;> omega
    simp only [hne, if_false] at hbound ⊢
    have hlen2 : minted.length + 1 ≤ 2147483637 := by simpa using hbound
    have hcnt2 : kf2.counter_ = kf.counter_ + 1 := by
      rw [hcnt]
      split_ifs with hmax
      · omega
      · rfl
    refine ⟨?_, ?_, ?_⟩
    · rw [hcnt2, hc]
      simp only [List.length_append, List.length_singleton]
      push_cast
      ring
    · simp only [List.length_append, List.length_singleton, List.range_succ, List.map_append,
        List.map_cons, List.map_nil]
      rw [← hm, hc]
    · intro k hks
      rw [h] at hks
      simp only [Mappings.Insert, NextFakeId_known, NextFakeId_fst] at hks
      rcases StdMap.find_insert_isSome _ _ _ _ hks with hks | hks
      · rw [hks]
        exact List.mem_append_right _ (List.mem_singleton_self _)
      · exact List.mem_append_left _ (hk k hks)

theorem runOps_inv :
    ∀ (ops : List TableOp) (m : Manager) (loop : Loop) (acc : List Int),
      TableInv m.knownFiles_ acc →
      (acc ++ (runOps m loop ops).2.2).length ≤ 2147483637 →
      TableInv (runOps m loop ops).1.knownFiles_ (acc ++ (runOps m loop ops).2.2)
  | [], m, loop, acc, h, _ => by simpa [runOps] using h
  | op :: rest, m, loop, acc, h, hb => by
    simp only [runOps, mintedBetween] at hb ⊢
    rw [← List.append_assoc] at hb ⊢
    have hb1 : (acc ++ (if (op.run m loop).1.knownFiles_.counter_ = m.knownFiles_.counter_
        then [] else [m.knownFiles_.counter_])).length ≤ 2147483637 := by
      refine le_trans ?_ hb
      rw [List.length_append (acc ++ _)]
      exact Nat.le_add_right _ _
    have hstep := TableInv_step m.knownFiles_ (op.run m loop).1.knownFiles_ acc h
      (TableOp.run_effect op m loop) hb1
    exact runOps_inv rest (op.run m loop).1 (op.run m loop).2 _ hstep hb

theorem TableInv_nodup (kf : Mappings) (minted : List Int) (h : TableInv kf minted) :
    minted.Nodup := by
  rw [h.2.1]
  refine List.Nodup.map ?_ (List.nodup_range _)
  intro i j hij
  simp only at hij
  omega

theorem fs_close_sync_known (m : Manager) (uv : RealFs) (loop : Loop) (req : uv_fs_t) (v : Int)
    (h : (m.knownFiles_.known_.find v).isSome = true) :
    (m.fs_close uv loop req v none).2.2.1.knownFiles_ = m.knownFiles_.Remove v := by
  have hget : (m.knownFiles_.Get v (0, none)).1 = true := by
    unfold Mappings.Get
    cases hf : m.knownFiles_.known_.find v with
    | none => rw [hf] at h; exact absurd h (by simp)
    | some _ => rfl
  unfold Manager.fs_close
  simp only [hget, Bool.true_eq_false, if_false]
  split <;> rfl

/-- C9. Descriptor isolation. Take a dispatcher with a fresh descriptor table, any mounts and
any operations `before`; close synchronously a virtual descriptor `v` that is in the table;
then run any operations `later`. If the counter has not wrapped (10 plus the number of virtual
descriptors minted stays within `int`), then `v` is not in the table after the close, every
virtual descriptor minted by the later operations differs from `v` and from every one minted
before, and no virtual descriptor is minted twice. -/
theorem fs_close_no_reuse (archives : List ArchiveJUnzip) (cachesRoot : Str) (loop : Loop)
    (before later : List TableOp) (uv : RealFs) (req : uv_fs_t) (v : Int)
    (hpresent : ((runOps { archives_ := archives, cachesRoot_ := cachesRoot } loop
      before).1.knownFiles_.known_.find v).isSome = true)
    (hnowrap : (10 : Int) +
      (((runOps { archives_ := archives, cachesRoot_ := cachesRoot } loop before).2.2 ++
        (runOps
          (afterSyncClose { archives_ := archives, cachesRoot_ := cachesRoot } loop before uv
            req v).1
          (afterSyncClose { archives_ := archives, cachesRoot_ := cachesRoot } loop before uv
            req v).2 later).2.2).length : Nat) ≤ 2147483647) :
    (afterSyncClose { archives_ := archives, cachesRoot_ := cachesRoot } loop before uv req
        v).1.knownFiles_.known_.find v = none ∧
    (∀ k ∈ (runOps
          (afterSyncClose { archives_ := archives, cachesRoot_ := cachesRoot } loop before uv
            req v).1
          (afterSyncClose { archives_ := archives, cachesRoot_ := cachesRoot } loop before uv
            req v).2 later).2.2,
        k ≠ v ∧
        k ∉ (runOps { archives_ := archives, cachesRoot_ := cachesRoot } loop before).2.2) ∧
    ((runOps { archives_ := archives, cachesRoot_ := cachesRoot } loop before).2.2 ++
        (runOps
          (afterSyncClose { archives_ := archives, cachesRoot_ := cachesRoot } loop before uv
            req v).1
          (afterSyncClose { archives_ := archives, cachesRoot_ := cachesRoot } loop before uv
            req v).2 later).2.2).Nodup := by
  generalize hm0 : ({ archives_ := archives, cachesRoot_ := cachesRoot } : Manager) = m0
    at hpresent hnowrap ⊢
  have hfresh : TableInv m0.knownFiles_ [] := by
    rw [← hm0]
    exact ⟨rfl, rfl, fun k hk => by simp [StdMap.find, StdMap.empty, findList] at hk⟩
  have hlen : ((runOps m0 loop before).2.2 ++
      (runOps (afterSyncClose m0 loop before uv req v).1
        (afterSyncClose m0 loop before uv req v).2 later).2.2).length ≤ 2147483637 := by
    omega
  have hlen1 : ([] ++ (runOps m0 loop before).2.2).length ≤ 2147483637 := by
    rw [List.length_append] at hlen
    simp only [List.nil_append]
    omega
  have hinv1 := runOps_inv before m0 loop [] hfresh hlen1
  simp only [List.nil_append] at hinv1
  have hclosed : (afterSyncClose m0 loop before uv req v).1.knownFiles_ =
      (runOps m0 loop before).1.knownFiles_.Remove v :=
    fs_close_sync_known _ uv _ req v hpresent
  have hinv2 : TableInv (afterSyncClose m0 loop before uv req v).1.knownFiles_
      (runOps m0 loop before).2.2 := by
    rw [hclosed]
    refine ⟨(Remove_counter _ _).trans hinv1.1, hinv1.2.1, ?_⟩
    intro k hk
    exact hinv1.2.2 k (Remove_find_isSome _ _ _ hk)
  have hinv3 := runOps_inv later _ (afterSyncClose m0 loop before uv req v).2 _ hinv2 hlen
  have hnodup := TableInv_nodup _ _ hinv3
  refine ⟨?_, ?_, hnodup⟩
  · rw [hclosed]
    exact Remove_find_self _ _
  · intro k hk
    have hdisj := List.disjoint_of_nodup_append hnodup
    have hv : v ∈ (runOps m0 loop before).2.2 := hinv1.2.2 v hpresent
    refine ⟨?_, fun hk1 => hdisj hk1 hk⟩
    intro hkv
    rw [hkv] at hk
    exact hdisj hv hk

/-- C9, at the sample dispatcher: a real path is opened (virtual descriptor 10 is minted), 10
is closed, then "/mnt/app.js" is opened: 10 is gone from the table and the descriptor minted
by the later open is 11. -/
theorem fs_close_no_reuse_witness :
    (runOps (afterSyncClose { archives_ := [sampleArchive], cachesRoot_ := [] } {}
          [TableOp.fs_open sampleFs {} "/etc/hosts".toList 0 0 none] sampleFs {} 10).1
        (afterSyncClose { archives_ := [sampleArchive], cachesRoot_ := [] } {}
          [TableOp.fs_open sampleFs {} "/etc/hosts".toList 0 0 none] sampleFs {} 10).2
        [TableOp.fs_open sampleFs {} "/mnt/app.js".toList 0 0 none]).2.2 = [11] ∧
    (afterSyncClose { archives_ := [sampleArchive], cachesRoot_ := [] } {}
        [TableOp.fs_open sampleFs {} "/etc/hosts".toList 0 0 none] sampleFs {}
        10).1.knownFiles_.known_.find 10 = none :=
  ⟨by decide,
   (fs_close_no_reuse [sampleArchive] [] {}
      [TableOp.fs_open sampleFs {} "/etc/hosts".toList 0 0 none]
      [TableOp.fs_open sampleFs {} "/mnt/app.js".toList 0 0 none] sampleFs {} 10
      (by decide) (by decide)).1⟩

/-- C7, the code where the real open yields descriptor 0. Without a callback, the open of
the real path "/etc/hosts" and the open of the archive path "/mnt/app.js" both issue the real
open, return 0, leave 0 as the result of the request and mint nothing: the descriptor table
stays empty. With a callback, the same two opens completed with descriptor 0 mint the virtual
descriptor 10, enter it in the table and hand 10 to the callback of the caller. -/
theorem Manager_fs_open_descriptor_zero :
    ((sampleManager.fs_open zeroFs {} {} "/etc/hosts".toList 0 0 none).1 = 0 ∧
      (sampleManager.fs_open zeroFs {} {} "/etc/hosts".toList 0 0 none).2.1.result = 0 ∧
      (sampleManager.fs_open zeroFs {} {} "/etc/hosts".toList 0 0 none).2.2.1.knownFiles_.known_.entries
        = [] ∧
      (sampleManager.fs_open zeroFs {} {} "/etc/hosts".toList 0 0 none).2.2.2.realCalls =
        [RealCall.fs_open "/etc/hosts".toList 0 0]) ∧
    ((sampleManager.fs_open zeroFs {} {} "/mnt/app.js".toList 0 0 none).1 = 0 ∧
      (sampleManager.fs_open zeroFs {} {} "/mnt/app.js".toList 0 0 none).2.1.result = 0 ∧
      (sampleManager.fs_open zeroFs {} {} "/mnt/app.js".toList 0 0 none).2.2.1.knownFiles_.known_.entries
        = [] ∧
      (sampleManager.fs_open zeroFs {} {} "/mnt/app.js".toList 0 0 none).2.2.2.realCalls =
        [RealCall.fs_open "/tmp/archive_cache/0f/3.cache".toList 0 0x0777]) ∧
    ((completeReal (worldAfterOpen sampleManager zeroFs {} "/etc/hosts".toList 0 0
          (some (Callback.user 1))) 0).delivered.map (fun d => (d.1, d.2.result)) = [(1, 10)] ∧
      (completeReal (worldAfterOpen sampleManager zeroFs {} "/etc/hosts".toList 0 0
          (some (Callback.user 1))) 0).manager.knownFiles_.known_.entries = [(10, 0, none)]) ∧
    ((completeReal (worldAfterOpen sampleManager zeroFs {} "/mnt/app.js".toList 0 0
          (some (Callback.user 1))) 0).delivered.map (fun d => (d.1, d.2.result)) = [(1, 10)] ∧
      (completeReal (worldAfterOpen sampleManager zeroFs {} "/mnt/app.js".toList 0 0
          (some (Callback.user 1))) 0).manager.knownFiles_.known_.entries =
        [(10, 0, some 0)]) := by
  decide

/-- C10, the code on the virtual descriptor 10 of `openedManager`, which the mount owns.
Without a callback `Manager::fs_write` returns `UV_ECANCELED`, the request carries
`UV_ECANCELED`, and no real-filesystem call is issued. With a callback it returns 0, issues
no real-filesystem call and posts the request with result 0 (`fs_req_init` has reset it); the
deferred completion hands the callback of the caller a request whose result is 0. -/
theorem Manager_fs_write_archive_owned :
    openedManager.knownFiles_.known_.find 10 = some (7, some 0) ∧
    ((openedManager.fs_write sampleFs {} {} 10 0 none).1 = UV_ECANCELED ∧
      (openedManager.fs_write sampleFs {} {} 10 0 none).2.1.result = UV_ECANCELED ∧
      (openedManager.fs_write sampleFs {} {} 10 0 none).2.2.2 = {}) ∧
    ((openedManager.fs_write sampleFs {} {} 10 0 (some (Callback.user 1))).1 = 0 ∧
      (worldAfterWrite openedManager sampleFs {} 10 0 (some (Callback.user 1))).loop.realCalls
        = [] ∧
      (worldAfterWrite openedManager sampleFs {} 10 0
        (some (Callback.user 1))).loop.scheduled.map (fun r => r.base.result) = [0] ∧
      (OnProcessScheduleRequest (worldAfterWrite openedManager sampleFs {} 10 0
        (some (Callback.user 1)))).delivered.map (fun d => (d.1, d.2.result)) = [(1, 0)]) := by
  decide

/-! ## Minting on open -/

theorem findList_insertList_self {K V : Type} [KeyOrder K] (k : K) (v : V) :
    ∀ l : List (K × V), findList k l = none → findList k (insertList k v l) = some v
  | [], _ => by simp [insertList, findList, KeyOrder.irrefl]
  | (k', v') :: t, h => by
    simp only [findList] at h
    simp only [insertList]
    split_ifs at h with h1 h2
    · simp [findList, KeyOrder.irrefl, h1]
    · simp only [h1, h2, if_false, if_true, findList]
      exact findList_insertList_self k v t h

theorem StdMap.find_insert_self {K V : Type} [KeyOrder K] (m : StdMap K V) (k : K) (v : V)
    (h : m.find k = none) : (m.insert k v).find k = some v :=
  findList_insertList_self k v m.entries h

/-- The asynchronous completion `Manager::fs_open_on` on a sheathed request whose real open
succeeded with descriptor `req.result >= 0`: the counter value is minted, entered in the table
with the real descriptor and the mount of the sheath, and stored as the result of the request
handed to the callback of the caller (provided the minted value is not in the table, as is
the case before the counter wraps). -/
theorem fs_open_on_mints (m : Manager) (req : uv_fs_t) (fake : Int) (pUserData : Data)
    (cb : Option Callback) (pArchive : Option Nat)
    (hdata : req.data = Data.sheath fake pUserData cb pArchive)
    (h0 : 0 ≤ req.result) (h1 : req.result < 2147483648)
    (hfree : m.knownFiles_.known_.find m.knownFiles_.counter_ = none) :
    (Manager.fs_open_on m req).2.2.result = m.knownFiles_.counter_ ∧
    (Manager.fs_open_on m req).2.1 = cb ∧
    (Manager.fs_open_on m req).1.knownFiles_.known_.find m.knownFiles_.counter_ =
      some (req.result, pArchive) := by
  have hcast : toInt32 req.result = req.result := toInt32_of_range _ (by omega) h1
  simp only [Manager.fs_open_on, Manager.Unsheath, hdata, ge_iff_le, h0, if_true,
    Mappings.Insert, NextFakeId_fst, NextFakeId_known, hcast]
  exact ⟨trivial, trivial, StdMap.find_insert_self _ _ _ hfree⟩

/-- The synchronous `Manager::fs_open` of a path that no mount owns, when the real open
succeeds with a descriptor `r > 0`: the counter value is minted, entered in the table with
`r` and no mount, stored as the result of the request and returned. -/
theorem fs_open_sync_real_mints (m : Manager) (uv : RealFs) (loop : Loop) (req : uv_fs_t)
    (path : Str) (flags mode : Int) (hfind : m.Find path = none)
    (h0 : 0 < uv.open_result path flags mode) (h1 : uv.open_result path flags mode < 2147483648)
    (hfree : m.knownFiles_.known_.find m.knownFiles_.counter_ = none) :
    (m.fs_open uv loop req path flags mode none).1 = m.knownFiles_.counter_ ∧
    (m.fs_open uv loop req path flags mode none).2.1.result = m.knownFiles_.counter_ ∧
    (m.fs_open uv loop req path flags mode none).2.2.1.knownFiles_.known_.find
      m.knownFiles_.counter_ = some (uv.open_result path flags mode, none) := by
  have hcast : toInt32 (uv.open_result path flags mode) = uv.open_result path flags mode :=
    toInt32_of_range _ (by omega) h1
  simp only [Manager.fs_open, hfind, uv_fs_open_sync, gt_iff_lt, h0, if_true,
    Mappings.Insert, NextFakeId_fst, NextFakeId_known, hcast]
  exact ⟨trivial, trivial, StdMap.find_insert_self _ _ _ hfree⟩

/-- `Manager::fs_write` on a virtual descriptor owned by a mount, in general: without a
callback it returns `UV_ECANCELED`, stores it in the request and touches neither the
dispatcher nor the loop; with a callback `f` it posts the request with result 0, and the
deferred completion calls `f` on the request with result 0. -/
theorem fs_write_archive_owned_general (m : Manager) (uv : RealFs) (req : uv_fs_t)
    (v offset real : Int) (owner f : Nat)
    (h : m.knownFiles_.known_.find v = some (real, some owner)) :
    (m.fs_write uv {} req v offset none =
      (UV_ECANCELED, { req with result := UV_ECANCELED }, m, {})) ∧
    (m.fs_write uv {} req v offset (some (Callback.user f))).1 = 0 ∧
    (worldAfterWrite m uv req v offset (some (Callback.user f))).loop.realCalls = [] ∧
    (OnProcessScheduleRequest
        (worldAfterWrite m uv req v offset (some (Callback.user f)))).delivered =
      [(f, Manager.fs_req_init { req with result := UV_ECANCELED } uv_fs_type.UV_FS_WRITE
            (some Callback.Manager_fs_write_on))] ∧
    (Manager.fs_req_init { req with result := UV_ECANCELED } uv_fs_type.UV_FS_WRITE
      (some Callback.Manager_fs_write_on)).result = 0 := by
  have hget : m.knownFiles_.Get v (0, none) = (true, (real, some owner)) := by
    simp [Mappings.Get, h]
  refine ⟨?_, ?_, ?_, ?_, rfl⟩
  · simp [Manager.fs_write, hget, UV_ECANCELED, toInt32]
  · simp [Manager.fs_write, hget]
  · simp [worldAfterWrite, Manager.fs_write, hget, Schedule]
  · simp [worldAfterWrite, Manager.fs_write, hget, Schedule, OnProcessScheduleRequest,
      callDepth, invoke, ReqObj.base, Manager.Sheath, Manager.fs_req_init, Manager.Unsheath]

/-! ## Synchronous and asynchronous forms -/

theorem fs_stat_shape (a : ArchiveJUnzip) (loop : Loop) (req : uv_fs_t) (filePath : Str) :
    (a.fs_stat loop req filePath).2.1.result = a.statResult filePath ∧
    (a.fs_stat loop req filePath).2.1.cb = req.cb ∧
    (a.fs_stat loop req filePath).2.1.data = req.data ∧
    (req.cb = none →
      (a.fs_stat loop req filePath).1 = a.statResult filePath ∧
      (a.fs_stat loop req filePath).2.2 = loop) ∧
    (req.cb ≠ none →
      (a.fs_stat loop req filePath).1 = 0 ∧
      (a.fs_stat loop req filePath).2.2 =
        Schedule loop (ReqObj.plain (a.fs_stat loop req filePath).2.1)) := by
  cases hf : a.Find (a.FilePathToParts filePath) with
  | none =>
    by_cases hcb : req.cb = none <;>
      simp [ArchiveJUnzip.fs_stat, ArchiveJUnzip.statResult, hf, hcb, UV_ENOENT, toInt32]
  | some item =>
    cases item <;> by_cases hcb : req.cb = none <;>
      simp [ArchiveJUnzip.fs_stat, ArchiveJUnzip.statResult, hf, hcb, toInt32]

theorem fs_scandir_shape (a : ArchiveJUnzip) (loop : Loop) (request : uv_fs_t) (path : Str)
    (flags : Int) :
    (a.fs_scandir loop request path flags).2.1.result = a.scandirResult path ∧
    (a.fs_scandir loop request path flags).2.1.cb = request.cb ∧
    (a.fs_scandir loop request path flags).2.1.data = request.data ∧
    (request.cb = none →
      (a.fs_scandir loop request path flags).1 = toInt32 (a.scandirResult path) ∧
      (a.fs_scandir loop request path flags).2.2 = loop) ∧
    (request.cb ≠ none →
      (a.fs_scandir loop request path flags).1 = 0 ∧
      (a.fs_scandir loop request path flags).2.2 =
        Schedule loop (ReqObj.plain (a.fs_scandir loop request path flags).2.1)) := by
  cases hf : a.Find (a.FilePathToParts path) with
  | none =>
    by_cases hcb : request.cb = none <;>
      simp [ArchiveJUnzip.fs_scandir, ArchiveJUnzip.scandirResult, hf, hcb]
  | some item =>
    cases item with
    | file p =>
      by_cases hcb : request.cb = none <;>
        simp [ArchiveJUnzip.fs_scandir, ArchiveJUnzip.scandirResult, hf, hcb]
    | dir p =>
      by_cases hcb : request.cb = none <;>
        by_cases ht : (a.dirAt p).dirs_.size + (a.dirAt p).files_.size > 0 <;>
        simp [ArchiveJUnzip.fs_scandir, ArchiveJUnzip.scandirResult, hf, hcb, ht]

theorem Manager_fs_stat_owned (m : Manager) (uv : RealFs) (loop : Loop) (req : uv_fs_t)
    (path : Str) (cb : Option Callback) (target : Nat) (h : m.Find path = some target) :
    ∃ req3 : uv_fs_t,
      m.fs_stat uv loop req path cb = (m.archiveAt target).fs_stat loop req3 path ∧
      (cb = none → req3.cb = none) ∧
      (cb ≠ none → req3.cb = some Callback.Manager_fs_stat_on ∧
        req3.data = Data.sheath 0 req.data cb (some target)) := by
  unfold Manager.fs_stat
  simp only [h]
  refine ⟨_, rfl, ?_, ?_⟩
  · intro hcb
    subst hcb
    simp [Manager.fs_capture_path, Manager.fs_req_init]
  · intro hcb
    cases cb with
    | none => exact absurd rfl hcb
    | some c => simp [Manager.fs_capture_path, Manager.fs_req_init, Manager.Sheath]

theorem Manager_fs_scandir_owned_cb (m : Manager) (uv : RealFs) (loop : Loop) (req : uv_fs_t)
    (path : Str) (flags : Int) (cb : Option Callback) (target : Nat)
    (h : m.Find path = some target) :
    ∃ req3 : uv_fs_t,
      m.fs_scandir uv loop req path flags cb =
        (m.archiveAt target).fs_scandir loop req3 path flags ∧
      (cb = none → req3.cb = none) ∧
      (cb ≠ none → req3.cb = some Callback.Manager_fs_scandir_on ∧
        req3.data = Data.sheath 0 req.data cb (some target)) := by
  unfold Manager.fs_scandir
  simp only [h]
  refine ⟨_, rfl, ?_, ?_⟩
  · intro hcb
    subst hcb
    simp [Manager.fs_capture_path, Manager.fs_req_init]
  · intro hcb
    cases cb with
    | none => exact absurd rfl hcb
    | some c => simp [Manager.fs_capture_path, Manager.fs_req_init, Manager.Sheath]

theorem invoke_stat_on (w : World) (r : uv_fs_t) (fake : Int) (ud : Data) (f : Nat)
    (ar : Option Nat) (h : r.data = Data.sheath fake ud (some (Callback.user f)) ar) :
    invoke callDepth w (some Callback.Manager_fs_stat_on) (ReqObj.plain r) =
      { w with delivered := w.delivered ++ [(f, { r with data := ud })] } := by
  simp [invoke, callDepth, Manager.Unsheath, ReqObj.base, h]

theorem invoke_scandir_on (w : World) (r : uv_fs_t) (fake : Int) (ud : Data) (f : Nat)
    (ar : Option Nat) (h : r.data = Data.sheath fake ud (some (Callback.user f)) ar) :
    invoke callDepth w (some Callback.Manager_fs_scandir_on) (ReqObj.plain r) =
      { w with delivered := w.delivered ++ [(f, { r with data := ud })] } := by
  simp [invoke, callDepth, Manager.Unsheath, ReqObj.base, h]

/-- What an archive-served call with the callback `f` leaves behind, for stat and scandir
alike: the world `w1` right after the call differs from the world `w` before it only by one
more pending completion, for a request `r` that carries `result`; and whenever that
completion is the oldest one pending, processing it calls `f` once, on the request carrying
`result`, and takes the completion off the queue. -/
theorem deferred_once (w w1 : World) (r : uv_fs_t) (handler : Callback) (f : Nat)
    (ud : Data) (ar : Option Nat)
    (hinv : ∀ (w2 : World) (r2 : uv_fs_t), r2.data = Data.sheath 0 ud (some (Callback.user f)) ar →
      invoke callDepth w2 (some handler) (ReqObj.plain r2) =
        { w2 with delivered := w2.delivered ++ [(f, { r2 with data := ud })] })
    (hcb : r.cb = some handler)
    (hdata : r.data = Data.sheath 0 ud (some (Callback.user f)) ar)
    (hw1 : w1 = { w with loop := Schedule w.loop (ReqObj.plain r) }) :
    w1.delivered = w.delivered ∧ w1.manager = w.manager ∧
    w1.loop.scheduled = w.loop.scheduled ++ [ReqObj.plain r] ∧
    w1.loop.inflight = w.loop.inflight ∧ w1.loop.realCalls = w.loop.realCalls ∧
    ∀ (w2 : World) (rest : List ReqObj), w2.loop.scheduled = ReqObj.plain r :: rest →
      (OnProcessScheduleRequest w2).delivered = w2.delivered ++ [(f, { r with data := ud })] ∧
      (OnProcessScheduleRequest w2).loop.scheduled = rest ∧
      (OnProcessScheduleRequest w2).manager = w2.manager := by
  subst hw1
  refine ⟨rfl, rfl, rfl, rfl, rfl, ?_⟩
  intro w2 rest hq
  unfold OnProcessScheduleRequest
  rw [hq]
  simp only [ReqObj.base, hcb]
  rw [hinv _ r hdata]
  refine ⟨?_, ?_, ?_⟩ <;> simp [hcb]

theorem toInt32_scandirResult (a : ArchiveJUnzip) (path : Str)
    (hsize : ∀ p, a.Find (a.FilePathToParts path) = some (ItemPtr.dir p) →
      (a.dirAt p).dirs_.size + (a.dirAt p).files_.size < 2147483648) :
    toInt32 (a.scandirResult path) = a.scandirResult path := by
  unfold ArchiveJUnzip.scandirResult
  cases hf : a.Find (a.FilePathToParts path) with
  | none => rfl
  | some item =>
    cases item with
    | file p => rfl
    | dir p =>
      have := hsize p hf
      show toInt32 (((a.dirAt p).dirs_.size + (a.dirAt p).files_.size : Nat) : Int) = _
      exact toInt32_of_range _ (by omega) (by omega)

theorem stat_parity_dispatch (m : Manager) (uv : RealFs) (req : uv_fs_t) (path : Str)
    (f target : Nat) (hfind : m.Find path = some target) :
    (m.fs_stat uv {} req path none).1 = (m.archiveAt target).statResult path ∧
    (m.fs_stat uv {} req path none).2.1.result = (m.archiveAt target).statResult path ∧
    ∃ r, (OnProcessScheduleRequest
        (World.fs_stat { manager := m } uv req path (some (Callback.user f)))).delivered =
        [(f, r)] ∧
      r.result = (m.archiveAt target).statResult path := by
  obtain ⟨r1, h1, hc1, _⟩ := Manager_fs_stat_owned m uv {} req path none target hfind
  obtain ⟨r2, h2, _, hc2⟩ :=
    Manager_fs_stat_owned m uv {} req path (some (Callback.user f)) target hfind
  have s1 := fs_stat_shape (m.archiveAt target) {} r1 path
  have s2 := fs_stat_shape (m.archiveAt target) {} r2 path
  have hcb2 := (hc2 (by simp)).1
  have hd2 := (hc2 (by simp)).2
  refine ⟨?_, ?_, ?_⟩
  · rw [h1]
    exact (s1.2.2.2.1 (hc1 rfl)).1
  · rw [h1]
    exact s1.1
  · have hne : r2.cb ≠ none := by rw [hcb2]; simp
    have hloop := (s2.2.2.2.2 hne).2
    refine ⟨{ ((m.archiveAt target).fs_stat {} r2 path).2.1 with data := req.data }, ?_, ?_⟩
    · have hw : World.fs_stat { manager := m } uv req path (some (Callback.user f)) =
          { ({ manager := m } : World) with
            loop := Schedule {} (ReqObj.plain ((m.archiveAt target).fs_stat {} r2 path).2.1) } := by
        unfold World.fs_stat
        rw [h2, hloop]
      have key := (deferred_once { manager := m } _ _ Callback.Manager_fs_stat_on f req.data
        (some target)
        (fun w2 r3 h3 => invoke_stat_on w2 r3 0 req.data f (some target) h3)
        (s2.2.1.trans hcb2) (s2.2.2.1.trans hd2) hw).2.2.2.2.2
      have := (key (World.fs_stat { manager := m } uv req path (some (Callback.user f))) []
        (by rw [hw]; rfl)).1
      rw [this, hw]
      rfl
    · exact s2.1

theorem scandir_parity_dispatch (m : Manager) (uv : RealFs) (req : uv_fs_t) (path : Str)
    (flags : Int) (f target : Nat) (hfind : m.Find path = some target) :
    (m.fs_scandir uv {} req path flags none).1 =
      toInt32 ((m.archiveAt target).scandirResult path) ∧
    (m.fs_scandir uv {} req path flags none).2.1.result =
      (m.archiveAt target).scandirResult path ∧
    ∃ r, (OnProcessScheduleRequest
        (World.fs_scandir { manager := m } uv req path flags
          (some (Callback.user f)))).delivered = [(f, r)] ∧
      r.result = (m.archiveAt target).scandirResult path := by
  obtain ⟨r1, h1, hc1, _⟩ := Manager_fs_scandir_owned_cb m uv {} req path flags none target hfind
  obtain ⟨r2, h2, _, hc2⟩ :=
    Manager_fs_scandir_owned_cb m uv {} req path flags (some (Callback.user f)) target hfind
  have s1 := fs_scandir_shape (m.archiveAt target) {} r1 path flags
  have s2 := fs_scandir_shape (m.archiveAt target) {} r2 path flags
  have hcb2 := (hc2 (by simp)).1
  have hd2 := (hc2 (by simp)).2
  refine ⟨?_, ?_, ?_⟩
  · rw [h1]
    exact (s1.2.2.2.1 (hc1 rfl)).1
  · rw [h1]
    exact s1.1
  · have hne : r2.cb ≠ none := by rw [hcb2]; simp
    have hloop := (s2.2.2.2.2 hne).2
    refine ⟨{ ((m.archiveAt target).fs_scandir {} r2 path flags).2.1 with data := req.data },
      ?_, ?_⟩
    · have hw : World.fs_scandir { manager := m } uv req path flags (some (Callback.user f)) =
          { ({ manager := m } : World) with
            loop := Schedule {}
              (ReqObj.plain ((m.archiveAt target).fs_scandir {} r2 path flags).2.1) } := by
        unfold World.fs_scandir
        rw [h2, hloop]
      have key := (deferred_once { manager := m } _ _ Callback.Manager_fs_scandir_on f req.data
        (some target)
        (fun w2 r3 h3 => invoke_scandir_on w2 r3 0 req.data f (some target) h3)
        (s2.2.1.trans hcb2) (s2.2.2.1.trans hd2) hw).2.2.2.2.2
      have := (key (World.fs_scandir { manager := m } uv req path flags
        (some (Callback.user f))) [] (by rw [hw]; rfl)).1
      rw [this, hw]
      rfl
    · exact s2.1

/-- C11. Sync/async parity of the in-memory handlers. For every archive and path (a directory
having fewer than 2^31 children, so that its count fits the `int` returned): the value stat
returns without a callback equals the result of the request after the call and the result of
the request posted for the callback when the call is made with one, and likewise for scandir;
through `Manager::fs_stat` and `Manager::fs_scandir`, for a path owned by the mount, the value
returned without a callback equals the result of the request and the result of the request
on which the callback of the caller is called by the deferred completion. -/
theorem sync_async_parity (a : ArchiveJUnzip) (path : Str)
    (hsize : ∀ p, a.Find (a.FilePathToParts path) = some (ItemPtr.dir p) →
      (a.dirAt p).dirs_.size + (a.dirAt p).files_.size < 2147483648) :
    (∀ (loop : Loop) (req : uv_fs_t) (flags : Int) (c : Callback),
      ((a.fs_stat loop { req with cb := none } path).1 =
          (a.fs_stat loop { req with cb := none } path).2.1.result ∧
        (a.fs_stat loop { req with cb := some c } path).2.2 =
          Schedule loop (ReqObj.plain (a.fs_stat loop { req with cb := some c } path).2.1) ∧
        (a.fs_stat loop { req with cb := some c } path).2.1.result =
          (a.fs_stat loop { req with cb := none } path).1) ∧
      ((a.fs_scandir loop { req with cb := none } path flags).1 =
          (a.fs_scandir loop { req with cb := none } path flags).2.1.result ∧
        (a.fs_scandir loop { req with cb := some c } path flags).2.2 =
          Schedule loop
            (ReqObj.plain (a.fs_scandir loop { req with cb := some c } path flags).2.1) ∧
        (a.fs_scandir loop { req with cb := some c } path flags).2.1.result =
          (a.fs_scandir loop { req with cb := none } path flags).1)) ∧
    (∀ (m : Manager) (uv : RealFs) (req : uv_fs_t) (flags : Int) (f target : Nat),
      m.Find path = some target → m.archiveAt target = a →
      ((m.fs_stat uv {} req path none).1 = (m.fs_stat uv {} req path none).2.1.result ∧
        ∃ r, (OnProcessScheduleRequest
            (World.fs_stat { manager := m } uv req path (some (Callback.user f)))).delivered =
            [(f, r)] ∧
          r.result = (m.fs_stat uv {} req path none).1) ∧
      ((m.fs_scandir uv {} req path flags none).1 =
          (m.fs_scandir uv {} req path flags none).2.1.result ∧
        ∃ r, (OnProcessScheduleRequest
            (World.fs_scandir { manager := m } uv req path flags
              (some (Callback.user f)))).delivered = [(f, r)] ∧
          r.result = (m.fs_scandir uv {} req path flags none).1)) := by
  have hcast := toInt32_scandirResult a path hsize
  constructor
  · intro loop req flags c
    have s1 := fs_stat_shape a loop { req with cb := none } path
    have s2 := fs_stat_shape a loop { req with cb := some c } path
    have d1 := fs_scandir_shape a loop { req with cb := none } path flags
    have d2 := fs_scandir_shape a loop { req with cb := some c } path flags
    refine ⟨⟨?_, (s2.2.2.2.2 (by simp)).2, ?_⟩, ⟨?_, (d2.2.2.2.2 (by simp)).2, ?_⟩⟩
    · rw [(s1.2.2.2.1 rfl).1, s1.1]
    · rw [(s1.2.2.2.1 rfl).1, s2.1]
    · rw [(d1.2.2.2.1 rfl).1, d1.1, hcast]
    · rw [(d1.2.2.2.1 rfl).1, d2.1, hcast]
  · intro m uv req flags f target hfind harch
    have p1 := stat_parity_dispatch m uv req path f target hfind
    have p2 := scandir_parity_dispatch m uv req path flags f target hfind
    rw [harch] at p1 p2
    rw [hcast] at p2
    refine ⟨⟨?_, ?_⟩, ⟨?_, ?_⟩⟩
    · rw [p1.1, p1.2.1]
    · obtain ⟨r, hr1, hr2⟩ := p1.2.2
      exact ⟨r, hr1, by rw [hr2, p1.1]⟩
    · rw [p2.1, p2.2.1]
    · obtain ⟨r, hr1, hr2⟩ := p2.2.2
      exact ⟨r, hr1, by rw [hr2, p2.1]⟩

/-- C11, at the sample dispatcher and the path "/mnt/" (the root of the mount, with 4
children): scandir without a callback returns 4, and with the callback 1 the deferred
completion calls the callback on a request with result 4. -/
theorem sync_async_parity_witness :
    (sampleManager.fs_scandir sampleFs {} {} "/mnt/".toList 0 none).1 = 4 ∧
    (∃ r, (OnProcessScheduleRequest
        (World.fs_scandir { manager := sampleManager } sampleFs {} "/mnt/".toList 0
          (some (Callback.user 1)))).delivered = [(1, r)] ∧
      r.result = (sampleManager.fs_scandir sampleFs {} {} "/mnt/".toList 0 none).1) :=
  ⟨by decide,
   (((sync_async_parity sampleArchive "/mnt/".toList
      (fun p hp => by
        have h0 : sampleArchive.Find (sampleArchive.FilePathToParts "/mnt/".toList) =
            some (ItemPtr.dir 0) := by decide
        rw [h0] at hp
        cases hp
        decide)).2 sampleManager sampleFs {} 0 1 0 (by decide) rfl).2).2⟩

/-- C12. Async asynchrony. An archive-served stat or scandir called with the callback `f` in
any world returns 0 and leaves a world in which no callback has been called since, the
dispatcher is as before, no real-filesystem call has been issued, and the queue of pending
completions has exactly one more element, for the request of the call. Whenever that
completion is the oldest one pending, processing it calls `f` exactly once, on that request
with the user data restored, and removes the completion from the queue. -/
theorem async_deferred (w : World) (uv : RealFs) (req : uv_fs_t) (path : Str) (flags : Int)
    (f target : Nat) (hfind : w.manager.Find path = some target) :
    ((w.manager.fs_stat uv w.loop req path (some (Callback.user f))).1 = 0 ∧
      ∃ r : uv_fs_t,
        (w.fs_stat uv req path (some (Callback.user f))).delivered = w.delivered ∧
        (w.fs_stat uv req path (some (Callback.user f))).manager = w.manager ∧
        (w.fs_stat uv req path (some (Callback.user f))).loop.scheduled =
          w.loop.scheduled ++ [ReqObj.plain r] ∧
        (w.fs_stat uv req path (some (Callback.user f))).loop.inflight = w.loop.inflight ∧
        (w.fs_stat uv req path (some (Callback.user f))).loop.realCalls = w.loop.realCalls ∧
        ∀ (w2 : World) (rest : List ReqObj), w2.loop.scheduled = ReqObj.plain r :: rest →
          (OnProcessScheduleRequest w2).delivered =
            w2.delivered ++ [(f, { r with data := req.data })] ∧
          (OnProcessScheduleRequest w2).loop.scheduled = rest ∧
          (OnProcessScheduleRequest w2).manager = w2.manager) ∧
    ((w.manager.fs_scandir uv w.loop req path flags (some (Callback.user f))).1 = 0 ∧
      ∃ r : uv_fs_t,
        (w.fs_scandir uv req path flags (some (Callback.user f))).delivered = w.delivered ∧
        (w.fs_scandir uv req path flags (some (Callback.user f))).manager = w.manager ∧
        (w.fs_scandir uv req path flags (some (Callback.user f))).loop.scheduled =
          w.loop.scheduled ++ [ReqObj.plain r] ∧
        (w.fs_scandir uv req path flags (some (Callback.user f))).loop.inflight =
          w.loop.inflight ∧
        (w.fs_scandir uv req path flags (some (Callback.user f))).loop.realCalls =
          w.loop.realCalls ∧
        ∀ (w2 : World) (rest : List ReqObj), w2.loop.scheduled = ReqObj.plain r :: rest →
          (OnProcessScheduleRequest w2).delivered =
            w2.delivered ++ [(f, { r with data := req.data })] ∧
          (OnProcessScheduleRequest w2).loop.scheduled = rest ∧
          (OnProcessScheduleRequest w2).manager = w2.manager) := by
  constructor
  · obtain ⟨r2, h2, _, hc2⟩ :=
      Manager_fs_stat_owned w.manager uv w.loop req path (some (Callback.user f)) target hfind
    have s2 := fs_stat_shape (w.manager.archiveAt target) w.loop r2 path
    have hcb2 := (hc2 (by simp)).1
    have hd2 := (hc2 (by simp)).2
    have hne : r2.cb ≠ none := by rw [hcb2]; simp
    refine ⟨by rw [h2]; exact (s2.2.2.2.2 hne).1,
      ((w.manager.archiveAt target).fs_stat w.loop r2 path).2.1, ?_⟩
    exact deferred_once w _ ((w.manager.archiveAt target).fs_stat w.loop r2 path).2.1
      Callback.Manager_fs_stat_on f req.data (some target)
      (fun w2 r3 h3 => invoke_stat_on w2 r3 0 req.data f (some target) h3)
      (s2.2.1.trans hcb2) (s2.2.2.1.trans hd2)
      (by unfold World.fs_stat; rw [h2, (s2.2.2.2.2 hne).2])
  · obtain ⟨r2, h2, _, hc2⟩ :=
      Manager_fs_scandir_owned_cb w.manager uv w.loop req path flags (some (Callback.user f))
        target hfind
    have s2 := fs_scandir_shape (w.manager.archiveAt target) w.loop r2 path flags
    have hcb2 := (hc2 (by simp)).1
    have hd2 := (hc2 (by simp)).2
    have hne : r2.cb ≠ none := by rw [hcb2]; simp
    refine ⟨by rw [h2]; exact (s2.2.2.2.2 hne).1,
      ((w.manager.archiveAt target).fs_scandir w.loop r2 path flags).2.1, ?_⟩
    exact deferred_once w _ ((w.manager.archiveAt target).fs_scandir w.loop r2 path flags).2.1
      Callback.Manager_fs_scandir_on f req.data (some target)
      (fun w2 r3 h3 => invoke_scandir_on w2 r3 0 req.data f (some target) h3)
      (s2.2.1.trans hcb2) (s2.2.2.1.trans hd2)
      (by unfold World.fs_scandir; rw [h2, (s2.2.2.2.2 hne).2])

/-- C12, at the sample dispatcher: stat of "/mnt/app.js" with the callback 1 returns 0 with
no callback called and one completion pending; processing it calls the callback once, with
result 0, and leaves nothing pending. -/
theorem async_deferred_witness :
    sampleManager.Find "/mnt/app.js".toList = some 0 ∧
    (sampleManager.fs_stat sampleFs {} {} "/mnt/app.js".toList (some (Callback.user 1))).1 = 0 ∧
    (World.fs_stat { manager := sampleManager } sampleFs {} "/mnt/app.js".toList
      (some (Callback.user 1))).delivered = [] ∧
    (World.fs_stat { manager := sampleManager } sampleFs {} "/mnt/app.js".toList
      (some (Callback.user 1))).loop.scheduled.length = 1 ∧
    (OnProcessScheduleRequest (World.fs_stat { manager := sampleManager } sampleFs {}
      "/mnt/app.js".toList (some (Callback.user 1)))).delivered.map
        (fun d => (d.1, d.2.result)) = [(1, 0)] ∧
    (OnProcessScheduleRequest (World.fs_stat { manager := sampleManager } sampleFs {}
      "/mnt/app.js".toList (some (Callback.user 1)))).loop.scheduled = [] :=
  ⟨by decide,
   (async_deferred { manager := sampleManager } sampleFs {} "/mnt/app.js".toList 0 1 0
      (by decide)).1.1,
   by decide, by decide, by decide, by decide⟩

/-! ## Operations keyed by a descriptor -/

theorem Mappings_Get_unknown (kf : Mappings) (fake_fileId : Int) (gotten : RealSource)
    (h : kf.known_.find fake_fileId = none) : kf.Get fake_fileId gotten = (false, gotten) := by
  simp [Mappings.Get, h]

/-- `Manager::fs_fstat` without a callback, on a descriptor that is not in the table: the
call is passed on to the real filesystem for descriptor 0, and its answer is returned. -/
theorem Manager_fs_fstat_unknown_sync (m : Manager) (uv : RealFs) (loop : Loop) (req : uv_fs_t)
    (fake_fileId : Int) (h : m.knownFiles_.known_.find fake_fileId = none) :
    (m.fs_fstat uv loop req fake_fileId none).1 = (uv.fstat_result 0).1 ∧
    (m.fs_fstat uv loop req fake_fileId none).2.1.result = (uv.fstat_result 0).1 ∧
    (m.fs_fstat uv loop req fake_fileId none).2.2.realCalls =
      loop.realCalls ++ [RealCall.fs_fstat 0] := by
  simp [Manager.fs_fstat, Mappings_Get_unknown _ _ _ h, uv_fs_fstat_sync]

/-- `Manager::fs_fstat` with a callback, on a descriptor that is not in the table: a deferred
completion is posted for the request and, when the submission is accepted, the same request
is submitted to the real filesystem for an fstat of descriptor 0. -/
theorem Manager_fs_fstat_unknown_async (m : Manager) (uv : RealFs) (loop : Loop) (req : uv_fs_t)
    (fake_fileId : Int) (c : Callback) (h : m.knownFiles_.known_.find fake_fileId = none)
    (hs : 0 ≤ uv.submit_result) :
    (m.fs_fstat uv loop req fake_fileId (some c)).2.2.scheduled.length =
      loop.scheduled.length + 1 ∧
    (m.fs_fstat uv loop req fake_fileId (some c)).2.2.inflight.length =
      loop.inflight.length + 1 ∧
    (m.fs_fstat uv loop req fake_fileId (some c)).2.2.realCalls =
      loop.realCalls ++ [RealCall.fs_fstat 0] := by
  have hs2 : ¬ uv.submit_result < 0 := by omega
  simp [Manager.fs_fstat, Mappings_Get_unknown _ _ _ h, uv_fs_fstat_async, hs2, Schedule]

/-- C13. `Manager::fs_fstat` on a virtual descriptor that is not in the table does not stop at
`UV_ENOENT`. On the sample dispatcher (empty table) over a real filesystem whose descriptor 0
is open, for the descriptor 99: without a callback the call issues a real fstat of descriptor
0 and returns its result, 0, which is also the result of the request; with a callback the
call issues the same real fstat and leaves two completions pending for the one request, the
deferred one and the one of the real fstat, and the latter calls the callback with the
result of the real fstat. -/
theorem Manager_fs_fstat_unknown_descriptor :
    sampleManager.knownFiles_.known_.find 99 = none ∧
    ((sampleManager.fs_fstat stdinFs {} {} 99 none).1 = 0 ∧
      (sampleManager.fs_fstat stdinFs {} {} 99 none).2.1.result = 0 ∧
      (sampleManager.fs_fstat stdinFs {} {} 99 none).2.2.realCalls = [RealCall.fs_fstat 0]) ∧
    ((sampleManager.fs_fstat stdinFs {} {} 99 (some (Callback.user 1))).1 = 0 ∧
      (worldAfterFstat sampleManager stdinFs {} 99 (some (Callback.user 1))).loop.realCalls =
        [RealCall.fs_fstat 0] ∧
      (worldAfterFstat sampleManager stdinFs {} 99
        (some (Callback.user 1))).loop.scheduled.map (fun r => r.base.result) = [UV_ENOENT] ∧
      (worldAfterFstat sampleManager stdinFs {} 99
        (some (Callback.user 1))).loop.inflight.map (fun r => r.1) = [RealCall.fs_fstat 0] ∧
      (completeReal (worldAfterFstat sampleManager stdinFs {} 99 (some (Callback.user 1)))
        0).delivered.map (fun d => (d.1, d.2.result)) = [(1, 0)]) := by
  decide

/-- `Manager::fs_close` without a callback, on a descriptor that is not in the table: the
value returned is the member `result` of the request as the caller left it, narrowed to
`int`; the request, the dispatcher and the loop are unchanged. -/
theorem Manager_fs_close_unknown_sync (m : Manager) (uv : RealFs) (loop : Loop) (req : uv_fs_t)
    (fake_fileId : Int) (h : m.knownFiles_.known_.find fake_fileId = none) :
    m.fs_close uv loop req fake_fileId none = (toInt32 req.result, req, m, loop) := by
  simp [Manager.fs_close, Mappings_Get_unknown _ _ _ h]

/-- `Manager::fs_read`, `Manager::fs_write`, `Manager::fs_fsync` and `Manager::fs_fdatasync`
without a callback, on a descriptor that is not in the table, return `UV_ENOENT`. -/
theorem Manager_unknown_sync_siblings (m : Manager) (uv : RealFs) (loop : Loop) (req : uv_fs_t)
    (fake_fileId offset : Int) (h : m.knownFiles_.known_.find fake_fileId = none) :
    (m.fs_read uv loop req fake_fileId offset none).1 = UV_ENOENT ∧
    (m.fs_write uv loop req fake_fileId offset none).1 = UV_ENOENT ∧
    (m.fs_fsync uv loop req fake_fileId none).1 = UV_ENOENT ∧
    (m.fs_fdatasync uv loop req fake_fileId none).1 = UV_ENOENT := by
  simp [Manager.fs_read, Manager.fs_write, Manager.fs_fsync, Manager.fs_fdatasync,
    Mappings_Get_unknown _ _ _ h]

/-- C14. `Manager::fs_close` without a callback on a virtual descriptor that is not in the
table returns what the request held, not `UV_ENOENT`. On the sample dispatcher (empty table),
for the descriptor 99: with a fresh request the call returns 0, with a request that holds the
result 5 of an earlier use it returns 5, while read, write, fsync and fdatasync return
`UV_ENOENT` on the same inputs; the table is unchanged and no real close is issued. -/
theorem Manager_fs_close_unknown_descriptor :
    sampleManager.knownFiles_.known_.find 99 = none ∧
    (sampleManager.fs_close sampleFs {} {} 99 none).1 = 0 ∧
    (sampleManager.fs_close sampleFs {} { result := 5 } 99 none).1 = 5 ∧
    ((sampleManager.fs_read sampleFs {} { result := 5 } 99 0 none).1 = UV_ENOENT ∧
      (sampleManager.fs_write sampleFs {} { result := 5 } 99 0 none).1 = UV_ENOENT ∧
      (sampleManager.fs_fsync sampleFs {} { result := 5 } 99 none).1 = UV_ENOENT ∧
      (sampleManager.fs_fdatasync sampleFs {} { result := 5 } 99 none).1 = UV_ENOENT) ∧
    ((sampleManager.fs_close sampleFs {} { result := 5 } 99 none).2.2.1.knownFiles_.known_.entries
        = sampleManager.knownFiles_.known_.entries ∧
      (sampleManager.fs_close sampleFs {} { result := 5 } 99 none).2.2.2.realCalls = []) := by
  decide

/-- `ArchiveJUnzip::fs_fstat` on a real descriptor that is not in the open-file table stores
`UV_ENOENT` in the request, and returns it when there is no callback. -/
theorem fs_fstat_unknown (a : ArchiveJUnzip) (loop : Loop) (req : uv_fs_t) (real_fileId : Int)
    (h : a.open_files_.find real_fileId = none) :
    (a.fs_fstat loop req real_fileId).2.1.result = UV_ENOENT ∧
    (req.cb = none → (a.fs_fstat loop req real_fileId).1 = UV_ENOENT) := by
  constructor
  · simp only [ArchiveJUnzip.fs_fstat, h]
    split_ifs <;> rfl
  · intro hcb
    simp [ArchiveJUnzip.fs_fstat, h, hcb, UV_ENOENT, toInt32]

/-- `ArchiveJUnzip::fs_fstat` on a real descriptor of the open-file table: the result is 0
and the stat buffer is the one `ArchiveJUnzip::fs_stat` fills for a path that resolves to the
recorded entry. -/
theorem fs_fstat_known (a : ArchiveJUnzip) (loop : Loop) (req : uv_fs_t) (real_fileId : Int)
    (info : OpenFileInfo) (t : ItemPtr) (path : Str)
    (h : a.open_files_.find real_fileId = some info) (ht : info.target_ = some t)
    (hp : a.Find (a.FilePathToParts path) = some t) :
    (a.fs_fstat loop req real_fileId).2.1.result = 0 ∧
    (a.fs_fstat loop req real_fileId).2.1.ptr = Ptr.statbuf ∧
    (a.fs_fstat loop req real_fileId).2.1.statbuf = (a.fs_stat loop req path).2.1.statbuf := by
  cases t with
  | file p =>
    simp only [ArchiveJUnzip.fs_fstat, ArchiveJUnzip.fs_stat, h, ht, hp]
    split_ifs <;> exact ⟨rfl, rfl, rfl⟩
  | dir p =>
    simp only [ArchiveJUnzip.fs_fstat, ArchiveJUnzip.fs_stat, h, ht, hp]
    split_ifs <;> exact ⟨rfl, rfl, rfl⟩

/-- C15. `ArchiveJUnzip::fs_fstat` on a real descriptor that is not in the open-file table of
the mount gives `UV_ENOENT`, not `UV_EBADF`. On the sample mount with "/mnt/app.js" open on
the real descriptor 7, for the descriptor 8: fstat returns `UV_ENOENT` and stores it in the
request, while read and close of the same descriptor give `UV_EBADF`; for the descriptor 7
the result is 0 and the stat buffer has the mode 0x8000 and the size 77 of the file. -/
theorem ArchiveJUnzip_fs_fstat_unknown_descriptor :
    openedArchive.open_files_.find 8 = none ∧
    ((openedArchive.fs_fstat {} {} 8).1 = UV_ENOENT ∧
      (openedArchive.fs_fstat {} {} 8).2.1.result = UV_ENOENT ∧
      UV_ENOENT ≠ UV_EBADF) ∧
    ((openedArchive.fs_read sampleFs {} {} 8 0).1 = UV_EBADF ∧
      (openedArchive.fs_close sampleFs {} {} 8).1 = UV_EBADF) ∧
    (openedArchive.open_files_.find 7 =
        some { target_ := some (ItemPtr.file 2), real_fileId_ := 7 } ∧
      (openedArchive.fs_fstat {} {} 7).2.1.result = 0 ∧
      (openedArchive.fs_fstat {} {} 7).2.1.statbuf.st_mode = 0x8000 ∧
      (openedArchive.fs_fstat {} {} 7).2.1.statbuf.st_size = 77 ∧
      (openedArchive.fs_fstat {} {} 7).2.1.statbuf =
        (openedArchive.fs_stat {} {} "/mnt/app.js".toList).2.1.statbuf) := by
  decide

/-- C16. `Manager::fs_ftruncate`, `Manager::fs_sendfile`, `Manager::fs_futime`,
`Manager::fs_fchmod` and `Manager::fs_fchown` report success on every input: they return 0
and leave the request and the loop as they were, so that no error is stored and no
completion is posted for a callback. On the sample dispatcher with the virtual descriptor 10
owned by the mount, each of them returns 0, while a write to the descriptor returns
`UV_ECANCELED`. -/
theorem Manager_unhandled_descriptor_ops :
    (∀ (m : Manager) (loop : Loop) (req : uv_fs_t) (file other n : Int) (k l : Nat)
        (cb : Option Callback),
      m.fs_ftruncate loop req file n cb = (0, req, loop) ∧
      m.fs_sendfile loop req file other n k cb = (0, req, loop) ∧
      m.fs_futime loop req file n other cb = (0, req, loop) ∧
      m.fs_fchmod loop req file n cb = (0, req, loop) ∧
      m.fs_fchown loop req file k l cb = (0, req, loop)) ∧
    openedManager.knownFiles_.known_.find 10 = some (7, some 0) ∧
    ((openedManager.fs_ftruncate {} {} 10 0 none).1 = 0 ∧
      (openedManager.fs_sendfile {} {} 1 10 0 77 none).1 = 0 ∧
      (openedManager.fs_futime {} {} 10 0 0 none).1 = 0 ∧
      (openedManager.fs_fchmod {} {} 10 0x1ff none).1 = 0 ∧
      (openedManager.fs_fchown {} {} 10 0 0 none).1 = 0) ∧
    ((openedManager.fs_ftruncate {} {} 10 0 (some (Callback.user 1))).2.2.scheduled = [] ∧
      (openedManager.fs_ftruncate {} {} 10 0 (some (Callback.user 1))).2.1.result = 0) ∧
    (openedManager.fs_write sampleFs {} {} 10 0 none).1 = UV_ECANCELED := by
  refine ⟨?_, by decide, by decide, by decide, by decide⟩
  intro m loop req file other n k l cb
  exact ⟨rfl, rfl, rfl, rfl, rfl⟩

/-! ## Cache validation -/

theorem fileAt_setFile_self (a : ArchiveJUnzip) (p : Nat) (f : ArchiveFileJUnzip) :
    (a.setFile p f).fileAt p = if p < a.fileHeap.length then f else a.fileAt p := by
  unfold ArchiveJUnzip.setFile ArchiveJUnzip.fileAt
  by_cases h : p < a.fileHeap.length
  · simp [h, List.getElem?_set]
  · have h2 : a.fileHeap[p]? = none := List.getElem?_eq_none (by omega)
    simp [h, h2, List.getElem?_set]

theorem FindLoop_congr (a b : ArchiveJUnzip) (h : b.dirHeap = a.dirHeap) :
    ∀ (parts : List Str) (dirNode : Option Nat) (ret : Option ItemPtr),
      b.FindLoop parts dirNode ret = a.FindLoop parts dirNode ret
  | [], _, _ => by simp [ArchiveJUnzip.FindLoop]
  | _ :: _, none, _ => by simp [ArchiveJUnzip.FindLoop]
  | i :: rest, some dirNode, _ => by
    have hd : b.dirAt dirNode = a.dirAt dirNode := by
      unfold ArchiveJUnzip.dirAt
      rw [h]
    simp only [ArchiveJUnzip.FindLoop, hd]
    cases (a.dirAt dirNode).FindDir i with
    | none => exact FindLoop_congr a b h rest none _
    | some sDir => exact FindLoop_congr a b h rest (some sDir) _

theorem Find_congr (a b : ArchiveJUnzip) (h : b.dirHeap = a.dirHeap) (parts : List Str) :
    b.Find parts = a.Find parts := by
  unfold ArchiveJUnzip.Find
  rw [FindLoop_congr a b h]
  rfl

theorem Validate_dirHeap (a : ArchiveJUnzip) (env : MountEnv) (file : Nat) :
    (a.Validate env file).dirHeap = a.dirHeap := by
  simp only [ArchiveJUnzip.Validate, ArchiveJUnzip.setFile]
  split_ifs <;> rfl

theorem Validate_mount_point (a : ArchiveJUnzip) (env : MountEnv) (file : Nat) :
    (a.Validate env file).mount_point_ = a.mount_point_ := by
  simp only [ArchiveJUnzip.Validate, ArchiveJUnzip.setFile]
  split_ifs <;> rfl

/-- The cache file `ArchiveJUnzip::Validate` tries to open is the one of the entry as it was
on entry to the method. -/
theorem Validate_cache_path (a : ArchiveJUnzip) (file : Nat) (st : ExtractStates) :
    (a.setFile file { a.fileAt file with exstracted_ := st }).CacheFilePathOf
        ((a.setFile file { a.fileAt file with exstracted_ := st }).fileAt file) =
      a.CacheFilePathOf (a.fileAt file) := by
  rw [fileAt_setFile_self]
  unfold ArchiveJUnzip.CacheFilePathOf
  split_ifs <;> rfl

/-- `ArchiveJUnzip::Validate` on an entry in state `NotExtracted` whose cache file cannot be
opened: the state is `NotExtracted` afterwards and `is_unsafe_` is set. -/
theorem Validate_fails (a : ArchiveJUnzip) (env : MountEnv) (file : Nat)
    (hstate : (a.fileAt file).exstracted_ = ExtractStates.NotExtracted)
    (hfail : env.fopen_rb_ok (a.CacheFilePathOf (a.fileAt file)) = false) :
    ((a.Validate env file).fileAt file).exstracted_ = ExtractStates.NotExtracted ∧
    (a.Validate env file).is_unsafe_ = true := by
  have hv : a.Validate env file =
      { (a.setFile file { a.fileAt file with exstracted_ := ExtractStates.Extracting }).setFile
          file
          { (a.setFile file { a.fileAt file with exstracted_ := ExtractStates.Extracting }).fileAt
              file with exstracted_ := ExtractStates.NotExtracted } with is_unsafe_ := true } := by
    unfold ArchiveJUnzip.Validate
    rw [if_neg (by simp [hstate])]
    simp only [Validate_cache_path, hfail, if_true]
  rw [hv]
  refine ⟨?_, rfl⟩
  have hf : ∀ (b : ArchiveJUnzip), ({ b with is_unsafe_ := true } : ArchiveJUnzip).fileAt file =
      b.fileAt file := fun _ => rfl
  rw [hf, fileAt_setFile_self, fileAt_setFile_self]
  have hlen : (a.setFile file
      { a.fileAt file with exstracted_ := ExtractStates.Extracting }).fileHeap.length =
      a.fileHeap.length := by simp [ArchiveJUnzip.setFile]
  rw [hlen]
  split_ifs
  · rfl
  · exact hstate

/-- `ArchiveJUnzip::fs_open` of a path that resolves to a File whose state is not `Extracted`
fails with `UV_EIO` before any real open. -/
theorem fs_open_not_extracted (a : ArchiveJUnzip) (this : Nat) (uv : RealFs) (loop : Loop)
    (request : uv_fs_t) (flags : Int) (filePath : Str) (p : Nat)
    (h : a.Find (a.FilePathToParts filePath) = some (ItemPtr.file p))
    (hx : (a.fileAt p).exstracted_ ≠ ExtractStates.Extracted) :
    OpenFailsWith a this uv loop request flags filePath UV_EIO := by
  have heq : a.fs_open this uv loop request flags filePath =
      (if ({ request with result := UV_EIO } : uv_fs_t).cb ≠ none then
        (0, { request with result := UV_EIO }, a,
          Schedule loop (ReqObj.shadow
            { base := { cb := some Callback.ArchiveJUnzip_fs_open_on, data := Data.archive this,
                        result := UV_EIO }
              target_ := none
              shadowing_request_ := { request with result := UV_EIO } }))
      else ( UV_EIO, { request with result := UV_EIO }, a, loop)) := by
    simp [ArchiveJUnzip.fs_open, h, hx, UV_EIO, toInt32]
  unfold OpenFailsWith
  rw [heq]
  by_cases hcb : request.cb = none
  · simp [hcb]
  · simp [hcb, Schedule, ArchiveJUnzip.fs_open_on, UV_EIO]

/-- `ArchiveJUnzip::AddEntry` for a record whose name is a single segment `name` that the
root does not hold yet, on a mount that validates its cache (`extract_on_mount_` is false)
and cannot open the cache file of the record: the index afterwards resolves `name` to the
new File node, the state of the node is `NotExtracted` and `is_unsafe_` is set. -/
theorem AddEntry_top_level_unvalidated (a : ArchiveJUnzip) (env : MountEnv)
    (archiveIndexNumber : Int) (fileHeader : JZFileHeader) (filename name : Str)
    (hsplit : SplitPath filename false = ([name], false))
    (hroot : 0 < a.dirHeap.length)
    (hdir : (a.dirAt a.Root).FindDir name = none)
    (hfile : (a.dirAt a.Root).FindFile name = none)
    (hmode : a.extract_on_mount_ = false)
    (hfail : env.fopen_rb_ok
      (a.temp_path_ ++ "/".toList ++ (toString archiveIndexNumber).toList ++ ".cache".toList) =
        false) :
    (a.AddEntry env archiveIndexNumber fileHeader filename).2.Find [name] =
      some (ItemPtr.file a.fileHeap.length) ∧
    ((a.AddEntry env archiveIndexNumber fileHeader filename).2.fileAt
      a.fileHeap.length).exstracted_ = ExtractStates.NotExtracted ∧
    (a.AddEntry env archiveIndexNumber fileHeader filename).2.is_unsafe_ = true ∧
    (a.AddEntry env archiveIndexNumber fileHeader filename).2.mount_point_ = a.mount_point_ := by
  have hfileAt : ∀ (f : ArchiveFileJUnzip) (d : ArchiveDirJUnzip),
      (({ a with fileHeap := a.fileHeap ++ [f] } : ArchiveJUnzip).setDir 0 d).fileAt
        a.fileHeap.length = f := by
    intro f d
    simp [ArchiveJUnzip.setDir, ArchiveJUnzip.fileAt]
  have hdirAt : ∀ (f : ArchiveFileJUnzip) (d : ArchiveDirJUnzip),
      (({ a with fileHeap := a.fileHeap ++ [f] } : ArchiveJUnzip).setDir 0 d).dirAt 0 = d := by
    intro f d
    simp [ArchiveJUnzip.setDir, ArchiveJUnzip.dirAt, List.getElem?_set, hroot]
  have hadd : (a.AddEntry env archiveIndexNumber fileHeader filename).2 =
      (({ a with fileHeap := a.fileHeap ++
            [({ archiveId_ := archiveIndexNumber } : ArchiveFileJUnzip).Set env fileHeader] }
          : ArchiveJUnzip).setDir 0
        ((a.dirAt 0).AddFile name a.fileHeap.length)).Validate env a.fileHeap.length := by
    have hdir0 : (a.dirAt 0).FindDir name = none := hdir
    simp only [ArchiveJUnzip.AddEntry, hsplit, List.length_singleton, AddEntryLoop,
      ArchiveJUnzip.Root, hdir0]
    simp [ArchiveJUnzip.setDir, ArchiveJUnzip.dirAt, hmode]
  rw [hadd]
  have hv := Validate_fails
    (({ a with fileHeap := a.fileHeap ++
          [({ archiveId_ := archiveIndexNumber } : ArchiveFileJUnzip).Set env fileHeader] }
        : ArchiveJUnzip).setDir 0 ((a.dirAt 0).AddFile name a.fileHeap.length))
    env a.fileHeap.length (by rw [hfileAt]; rfl) (by rw [hfileAt]; exact hfail)
  refine ⟨?_, hv.1, hv.2, ?_⟩
  · rw [Find_congr _ _ (Validate_dirHeap _ env _)]
    have hfile0 : (a.dirAt 0).files_.find name = none := hfile
    have hdir0 : (a.dirAt 0).dirs_.find name = none := hdir
    simp [ArchiveJUnzip.Find, ArchiveJUnzip.FindLoop, ArchiveJUnzip.Root, hdirAt,
      ArchiveDirJUnzip.FindDir, ArchiveDirJUnzip.FindFile, ArchiveDirJUnzip.AddFile, hdir0,
      StdMap.find_insert_self _ _ _ hfile0]
  · rw [Validate_mount_point]
    rfl

theorem FilePathToParts_congr (a b : ArchiveJUnzip) (h : b.mount_point_ = a.mount_point_)
    (filepath : Str) : b.FilePathToParts filepath = a.FilePathToParts filepath := by
  unfold ArchiveJUnzip.FilePathToParts
  rw [h]

/-- Every record of the central directory is processed: `ArchiveJUnzip::AddEntry` returns 1
(read the next record) on every input. -/
theorem readCentralDirectory_cons (env : MountEnv) (index : Int) (header : JZFileHeader)
    (filepath : Str) (rest : List (Int × JZFileHeader × Str)) (a : ArchiveJUnzip) :
    (a.AddEntry env index header filepath).1 = 1 ∧
    readCentralDirectory env ((index, header, filepath) :: rest) a =
      readCentralDirectory env rest (a.AddEntry env index header filepath).2 := by
  constructor
  · rfl
  · simp [readCentralDirectory, ArchiveJUnzip.AddEntry]

/-- C17. A cache-validation failure does not abort the mount and makes the entry unopenable.
When `ArchiveJUnzip::Validate` runs on an entry in state `NotExtracted` and cannot open its
cache file, the state of the entry is `NotExtracted` afterwards and `is_unsafe_` is true;
`ArchiveJUnzip::AddEntry` returns 1 on every input, so the enumeration of the central
directory goes on with the next record; and `ArchiveJUnzip::fs_open` of every path that
resolves to the entry fails with `UV_EIO` before any real open. The same holds for the whole
of `AddEntry` on a record named by a single new segment, on a mount that validates its
cache: the segment then resolves to the new entry, the entry is `NotExtracted`, `is_unsafe_`
is true, and open of every path whose parts are that segment fails with `UV_EIO`. -/
theorem Validate_failure_unopenable (a : ArchiveJUnzip) (env : MountEnv) (file : Nat)
    (hstate : (a.fileAt file).exstracted_ = ExtractStates.NotExtracted)
    (hfail : env.fopen_rb_ok (a.CacheFilePathOf (a.fileAt file)) = false) :
    ((a.Validate env file).fileAt file).exstracted_ = ExtractStates.NotExtracted ∧
    (a.Validate env file).is_unsafe_ = true ∧
    (∀ (b : ArchiveJUnzip) (index : Int) (header : JZFileHeader) (filename : Str)
        (rest : List (Int × JZFileHeader × Str)),
      (b.AddEntry env index header filename).1 = 1 ∧
      readCentralDirectory env ((index, header, filename) :: rest) b =
        readCentralDirectory env rest (b.AddEntry env index header filename).2) ∧
    (∀ (this : Nat) (uv : RealFs) (loop : Loop) (request : uv_fs_t) (flags : Int)
        (filePath : Str),
      a.Find (a.FilePathToParts filePath) = some (ItemPtr.file file) →
      (a.Validate env file).Find ((a.Validate env file).FilePathToParts filePath) =
        some (ItemPtr.file file) ∧
      OpenFailsWith (a.Validate env file) this uv loop request flags filePath UV_EIO) ∧
    (∀ (index : Int) (header : JZFileHeader) (filename name : Str),
      SplitPath filename false = ([name], false) →
      0 < a.dirHeap.length →
      (a.dirAt a.Root).FindDir name = none →
      (a.dirAt a.Root).FindFile name = none →
      a.extract_on_mount_ = false →
      env.fopen_rb_ok
        (a.temp_path_ ++ "/".toList ++ (toString index).toList ++ ".cache".toList) = false →
      (a.AddEntry env index header filename).1 = 1 ∧
      (a.AddEntry env index header filename).2.Find [name] =
        some (ItemPtr.file a.fileHeap.length) ∧
      ((a.AddEntry env index header filename).2.fileAt a.fileHeap.length).exstracted_ =
        ExtractStates.NotExtracted ∧
      (a.AddEntry env index header filename).2.is_unsafe_ = true ∧
      ∀ (this : Nat) (uv : RealFs) (loop : Loop) (request : uv_fs_t) (flags : Int)
          (filePath : Str),
        a.FilePathToParts filePath = [name] →
        OpenFailsWith (a.AddEntry env index header filename).2 this uv loop request flags
          filePath UV_EIO) := by
  have hv := Validate_fails a env file hstate hfail
  refine ⟨hv.1, hv.2, ?_, ?_, ?_⟩
  · intro b index header filename rest
    exact readCentralDirectory_cons env index header filename rest b
  · intro this uv loop request flags filePath hfind
    have hfind2 : (a.Validate env file).Find ((a.Validate env file).FilePathToParts filePath) =
        some (ItemPtr.file file) := by
      rw [FilePathToParts_congr a _ (Validate_mount_point a env file),
        Find_congr a _ (Validate_dirHeap a env file)]
      exact hfind
    refine ⟨hfind2, fs_open_not_extracted _ this uv loop request flags filePath file hfind2 ?_⟩
    rw [hv.1]
    decide
  · intro index header filename name hsplit hroot hdir hfile hmode hfail2
    have hadd := AddEntry_top_level_unvalidated a env index header filename name hsplit hroot
      hdir hfile hmode hfail2
    refine ⟨rfl, hadd.1, hadd.2.1, hadd.2.2.1, ?_⟩
    intro this uv loop request flags filePath hparts
    refine fs_open_not_extracted _ this uv loop request flags filePath a.fileHeap.length ?_ ?_
    · rw [FilePathToParts_congr a _ hadd.2.2.2, hparts]
      exact hadd.1
    · rw [hadd.2.1]
      decide

/-- C17, at the sample mount whose cache files are missing: the entry of "/mnt/app.js" (file
node 2) is in state `NotExtracted` and its cache file cannot be opened; after validation the
state is `NotExtracted`, `is_unsafe_` is true, and open of "/mnt/app.js" returns `UV_EIO`.
A further record "readme.md" with index 5 is added as file node 4, and open of
"/mnt/readme.md" returns `UV_EIO`. -/
theorem Validate_failure_unopenable_witness :
    (sampleUnsafeArchive.fileAt 2).exstracted_ = ExtractStates.NotExtracted ∧
    failingEnv.fopen_rb_ok (sampleUnsafeArchive.CacheFilePathOf (sampleUnsafeArchive.fileAt 2)) =
      false ∧
    sampleUnsafeArchive.Find (sampleUnsafeArchive.FilePathToParts "/mnt/app.js".toList) =
      some (ItemPtr.file 2) ∧
    ((sampleUnsafeArchive.Validate failingEnv 2).fileAt 2).exstracted_ =
      ExtractStates.NotExtracted ∧
    (sampleUnsafeArchive.Validate failingEnv 2).is_unsafe_ = true ∧
    ((sampleUnsafeArchive.Validate failingEnv 2).fs_open 0 sampleFs {} {} 0
      "/mnt/app.js".toList).1 = UV_EIO ∧
    (sampleUnsafeArchive.AddEntry failingEnv 5 {} "readme.md".toList).2.Find
      ["readme.md".toList] = some (ItemPtr.file 4) ∧
    ((sampleUnsafeArchive.AddEntry failingEnv 5 {} "readme.md".toList).2.fs_open 0 sampleFs {}
      {} 0 "/mnt/readme.md".toList).1 = UV_EIO :=
  ⟨by decide, by decide, by decide,
   (Validate_failure_unopenable sampleUnsafeArchive failingEnv 2 (by decide) (by decide)).1,
   (Validate_failure_unopenable sampleUnsafeArchive failingEnv 2 (by decide) (by decide)).2.1,
   (((Validate_failure_unopenable sampleUnsafeArchive failingEnv 2 (by decide)
      (by decide)).2.2.2.1 0 sampleFs {} {} 0 "/mnt/app.js".toList
      (by decide)).2.2.2.2.2.1 rfl).1,
   ((Validate_failure_unopenable sampleUnsafeArchive failingEnv 2 (by decide)
      (by decide)).2.2.2.2 5 {} "readme.md".toList "readme.md".toList (by decide) (by decide)
      (by decide) (by decide) (by decide) (by decide)).2.1,
   ((((Validate_failure_unopenable sampleUnsafeArchive failingEnv 2 (by decide)
      (by decide)).2.2.2.2 5 {} "readme.md".toList "readme.md".toList (by decide) (by decide)
      (by decide) (by decide) (by decide) (by decide)).2.2.2.2 0 sampleFs {} {} 0
      "/mnt/readme.md".toList (by decide)).2.2.2.2.1 rfl).1⟩

/-! ## Mounting -/

/-- What `ArchiveJUnzip::Mount` leaves behind for each error code: `zip_file_handle_` is set
to null when the code is `FailedToCreateCache` or `ArchiveInvalid`; when the code is
`ArchiveNotFound` the archive, with `zip_file_handle_`, is as it was before the call. -/
theorem Mount_error_cases (a : ArchiveJUnzip) (cacheRoot : Str) (uv : RealFs) (env : MountEnv) :
    ((a.Mount cacheRoot uv env).1 = ErrorCodes.FailedToCreateCache →
      (a.Mount cacheRoot uv env).2.IsMounted = false) ∧
    ((a.Mount cacheRoot uv env).1 = ErrorCodes.ArchiveInvalid →
      (a.Mount cacheRoot uv env).2.IsMounted = false) ∧
    ((a.Mount cacheRoot uv env).1 = ErrorCodes.ArchiveNotFound →
      (a.Mount cacheRoot uv env).2 = a ∧
      env.fopen_rb_ok a.archive_filepath_ = false) ∧
    (a.Mount cacheRoot uv env).1 ≠ ErrorCodes.ArchiveUnsupportedType := by
  by_cases h0 : env.fopen_rb_ok a.archive_filepath_ = false
  · simp [ArchiveJUnzip.Mount, h0]
  · by_cases hs : (uv.stat_result (cacheRoot ++ '/' :: env.md5 a.archive_filepath_)).1 = 0
    · by_cases he : env.jzReadEndRecord_ok a.archive_filepath_ = false
      · simp [ArchiveJUnzip.Mount, ArchiveJUnzip.IsMounted, h0, hs, he]
      · by_cases hc : env.jzReadCentralDirectory_ok a.archive_filepath_ = false
        · simp [ArchiveJUnzip.Mount, ArchiveJUnzip.IsMounted, h0, hs, he, hc]
        · simp [ArchiveJUnzip.Mount, ArchiveJUnzip.IsMounted, h0, hs, he, hc]
    · by_cases hm : uv.mkdir_result (cacheRoot ++ '/' :: env.md5 a.archive_filepath_) < 0
      · simp [ArchiveJUnzip.Mount, ArchiveJUnzip.IsMounted, h0, hs, hm]
      · by_cases he : env.jzReadEndRecord_ok a.archive_filepath_ = false
        · simp [ArchiveJUnzip.Mount, ArchiveJUnzip.IsMounted, h0, hs, hm, he]
        · by_cases hc : env.jzReadCentralDirectory_ok a.archive_filepath_ = false
          · simp [ArchiveJUnzip.Mount, ArchiveJUnzip.IsMounted, h0, hs, hm, he, hc]
          · simp [ArchiveJUnzip.Mount, ArchiveJUnzip.IsMounted, h0, hs, hm, he, hc]

/-- `Manager::Mount` returns false and leaves the mount list as it was whenever
`ArchiveJUnzip::Mount` of the archive it creates returns an error code. -/
theorem Manager_Mount_failure (m : Manager) (uv : RealFs) (env : MountEnv)
    (archive_filepath mount_point : Str) (indeterminate : Bool)
    (h : ((ArchiveJUnzip.new 1 mount_point archive_filepath indeterminate).Mount
      (m.BuildCacheDir uv []).2.cachesRoot_ uv env).1 ≠ ErrorCodes.NoError) :
    (m.Mount uv env archive_filepath mount_point indeterminate).1 = false ∧
    (m.Mount uv env archive_filepath mount_point indeterminate).2.archives_ = m.archives_ := by
  have hb : (m.BuildCacheDir uv []).2.archives_ = m.archives_ := by
    simp only [Manager.BuildCacheDir]
    split_ifs <;> rfl
  simp only [Manager.Mount]
  by_cases h1 : (m.BuildCacheDir uv []).1 = false
  · rw [if_pos h1]
    exact ⟨rfl, hb⟩
  · rw [if_neg h1, if_pos h]
    exact ⟨rfl, hb⟩

/-- C18. `ArchiveJUnzip::Mount` that fails with `ArchiveNotFound` returns before it assigns
`zip_file_handle_`, and `ArchiveJUnzip::IsMounted` then answers from the value the member
had before. For an archive file that cannot be opened: on a new object in which the
uninitialised member is non-null, and on a mounted archive on which `Mount` is called again,
`Mount` returns `ArchiveNotFound` and `IsMounted` is true afterwards (on a new object in which
the member happens to be null it is false). When the cache directory cannot be created
(`FailedToCreateCache`) or the end record is not found (`ArchiveInvalid`) `IsMounted` is false
afterwards, and `Manager::Mount` returns false with an unchanged mount list. -/
theorem Mount_failure_IsMounted :
    (((ArchiveJUnzip.new 1 "/mnt".toList "/missing.zip".toList true).Mount
          "/tmp/archive_cache".toList sampleFs failingEnv).1 = ErrorCodes.ArchiveNotFound ∧
      ((ArchiveJUnzip.new 1 "/mnt".toList "/missing.zip".toList true).Mount
          "/tmp/archive_cache".toList sampleFs failingEnv).2.IsMounted = true) ∧
    (sampleArchive.IsMounted = true ∧
      (sampleArchive.Mount "/tmp/archive_cache".toList sampleFs failingEnv).1 =
        ErrorCodes.ArchiveNotFound ∧
      (sampleArchive.Mount "/tmp/archive_cache".toList sampleFs failingEnv).2.IsMounted = true) ∧
    (((ArchiveJUnzip.new 1 "/mnt".toList "/missing.zip".toList false).Mount
          "/tmp/archive_cache".toList sampleFs failingEnv).1 = ErrorCodes.ArchiveNotFound ∧
      ((ArchiveJUnzip.new 1 "/mnt".toList "/missing.zip".toList false).Mount
          "/tmp/archive_cache".toList sampleFs failingEnv).2.IsMounted = false) ∧
    (((ArchiveJUnzip.new 1 "/mnt".toList "/app.zip".toList true).Mount
          "/tmp/archive_cache".toList readOnlyFs sampleEnv).1 = ErrorCodes.FailedToCreateCache ∧
      ((ArchiveJUnzip.new 1 "/mnt".toList "/app.zip".toList true).Mount
          "/tmp/archive_cache".toList readOnlyFs sampleEnv).2.IsMounted = false) ∧
    (((ArchiveJUnzip.new 1 "/mnt".toList "/app.zip".toList true).Mount
          "/tmp/archive_cache".toList sampleFs corruptArchiveEnv).1 = ErrorCodes.ArchiveInvalid ∧
      ((ArchiveJUnzip.new 1 "/mnt".toList "/app.zip".toList true).Mount
          "/tmp/archive_cache".toList sampleFs corruptArchiveEnv).2.IsMounted = false) ∧
    ((sampleManager.Mount sampleFs failingEnv "/missing.zip".toList "/opt".toList true).1 =
        false ∧
      (sampleManager.Mount sampleFs failingEnv "/missing.zip".toList "/opt".toList
        true).2.archives_.length = 1) := by
  decide

/-! ## Cache paths -/

/-- `std::to_string` of an `int` is its decimal numeral. -/
theorem toString_eq_specDecimal (n : Int) : (toString n).toList = specDecimal n := by
  cases n with
  | ofNat k =>
    have h : ¬ ((Int.ofNat k) < 0) := by simp
    simp only [specDecimal, h, if_false]
    rfl
  | negSucc k =>
    have h : Int.negSucc k < 0 := Int.negSucc_lt_zero k
    simp only [specDecimal, h, if_true]
    rfl

theorem CacheFilePathOf_eq_spec (a : ArchiveJUnzip) (file : ArchiveFileJUnzip) :
    a.CacheFilePathOf file = specCachePath a.temp_path_ file.archiveId_ := by
  unfold ArchiveJUnzip.CacheFilePathOf specCachePath
  rw [toString_eq_specDecimal]
  rfl

/-- C19. Cache path. For every mount and every path, `ArchiveJUnzip::CacheFilePath` returns
`<cache_subdir>/<entry_id>.cache`, with the entry id in decimal, when the path resolves to a
File entry, and the empty string when it resolves to a Directory or to nothing;
`Manager::GetTrueFileName` returns that value of the owning mount for a path owned by a
mount, and the path itself for a path owned by no mount. -/
theorem CacheFilePath_spec (m : Manager) (a : ArchiveJUnzip) (full_filepath : Str) :
    (∀ p, a.Find (a.FilePathToParts full_filepath) = some (ItemPtr.file p) →
      a.CacheFilePath full_filepath = specCachePath a.temp_path_ (a.fileAt p).archiveId_) ∧
    (∀ p, a.Find (a.FilePathToParts full_filepath) = some (ItemPtr.dir p) →
      a.CacheFilePath full_filepath = []) ∧
    (a.Find (a.FilePathToParts full_filepath) = none → a.CacheFilePath full_filepath = []) ∧
    (∀ target, m.Find full_filepath = some target →
      m.GetTrueFileName full_filepath = (m.archiveAt target).CacheFilePath full_filepath) ∧
    (m.Find full_filepath = none → m.GetTrueFileName full_filepath = full_filepath) := by
  refine ⟨?_, ?_, ?_, ?_, ?_⟩
  · intro p h
    simp only [ArchiveJUnzip.CacheFilePath, h]
    exact CacheFilePathOf_eq_spec a (a.fileAt p)
  · intro p h
    simp only [ArchiveJUnzip.CacheFilePath, h]
  · intro h
    simp only [ArchiveJUnzip.CacheFilePath, h]
  · intro target h
    simp only [Manager.GetTrueFileName, h]
  · intro h
    simp only [Manager.GetTrueFileName, h]

/-- C19, at the sample dispatcher: "/mnt/app.js" is owned by the sample mount and resolves to
the File entry 3 of the archive, so its true file name is "/tmp/archive_cache/0f/3.cache";
the directory "/mnt/public" has the empty string; "/etc/hosts" is owned by no mount and is
returned as it is. -/
theorem CacheFilePath_spec_witness :
    (sampleManager.Find "/mnt/app.js".toList = some 0 ∧
      sampleArchive.Find (sampleArchive.FilePathToParts "/mnt/app.js".toList) =
        some (ItemPtr.file 2) ∧
      (sampleArchive.fileAt 2).archiveId_ = 3 ∧
      sampleArchive.CacheFilePath "/mnt/app.js".toList =
        specCachePath sampleArchive.temp_path_ (sampleArchive.fileAt 2).archiveId_ ∧
      sampleManager.GetTrueFileName "/mnt/app.js".toList =
        "/tmp/archive_cache/0f/3.cache".toList) ∧
    (sampleArchive.Find (sampleArchive.FilePathToParts "/mnt/public".toList) =
        some (ItemPtr.dir 1) ∧
      sampleArchive.CacheFilePath "/mnt/public".toList = []) ∧
    (sampleArchive.Find (sampleArchive.FilePathToParts "/mnt/nothing".toList) = none ∧
      sampleArchive.CacheFilePath "/mnt/nothing".toList = []) ∧
    (sampleManager.Find "/etc/hosts".toList = none ∧
      sampleManager.GetTrueFileName "/etc/hosts".toList = "/etc/hosts".toList) :=
  ⟨⟨by decide, by decide, by decide,
    (CacheFilePath_spec sampleManager sampleArchive "/mnt/app.js".toList).1 2 (by decide),
    by decide⟩,
   ⟨by decide,
    (CacheFilePath_spec sampleManager sampleArchive "/mnt/public".toList).2.1 1 (by decide)⟩,
   ⟨by decide,
    (CacheFilePath_spec sampleManager sampleArchive "/mnt/nothing".toList).2.2.1 (by decide)⟩,
   ⟨by decide,
    (CacheFilePath_spec sampleManager sampleArchive "/etc/hosts".toList).2.2.2.2 (by decide)⟩⟩

/-! ## Splitting a path into segments -/

theorem FindNextPathMarker_none :
    ∀ (rest : Str) (offset : Nat), FindNextPathMarker rest offset = none →
      ∀ c ∈ rest, c ≠ '/'
  | [], _, _ => by simp
  | c :: t, offset, h => by
    simp only [FindNextPathMarker] at h
    split_ifs at h with hc
    intro d hd
    rcases List.mem_cons.mp hd with hd | hd
    · rw [hd]
      exact hc
    · exact FindNextPathMarker_none t (offset + 1) h d hd

theorem FindNextPathMarker_some :
    ∀ (rest : Str) (offset e : Nat), FindNextPathMarker rest offset = some e →
      ∃ pre post : Str, rest = pre ++ '/' :: post ∧ (∀ c ∈ pre, c ≠ '/') ∧
        e = offset + pre.length
  | [], _, _, h => by simp [FindNextPathMarker] at h
  | c :: t, offset, e, h => by
    simp only [FindNextPathMarker] at h
    split_ifs at h with hc
    · simp only [Option.some.injEq] at h
      exact ⟨[], t, by simp [hc], by simp, by simp [h]⟩
    · obtain ⟨pre, post, h1, h2, h3⟩ := FindNextPathMarker_some t (offset + 1) e h
      refine ⟨c :: pre, post, by simp [h1], ?_, by simp; omega⟩
      intro d hd
      rcases List.mem_cons.mp hd with hd | hd
      · rw [hd]
        exact hc
      · exact h2 d hd

theorem specSegments_no_separator (rest : Str) (h : ∀ c ∈ rest, c ≠ '/') :
    specSegments rest = if rest = [] then [] else [rest] := by
  unfold specSegments List.splitOn
  rw [List.splitOnP_eq_single (fun x => x == '/') rest (by simpa using h)]
  by_cases hr : rest = []
  · simp [hr]
  · simp [hr]

theorem specSegments_first (pre post : Str) (h : ∀ c ∈ pre, c ≠ '/') :
    specSegments (pre ++ '/' :: post) = (if pre = [] then [] else [pre]) ++ specSegments post := by
  unfold specSegments List.splitOn
  rw [List.splitOnP_first (fun x => x == '/') pre (by simpa using h) '/' (by simp) post]
  by_cases hr : pre = []
  · simp [hr]
  · simp [hr]

/-- The loop of `Archive::SplitPath` followed by the `push_back` of the remainder: with enough
fuel, what is appended to `ret` are the segments of the part of the text from `start` on. -/
theorem SplitPathLoop_segments (text : Str) :
    ∀ (fuel start : Nat) (ret : List Str), text.length < start + fuel →
      (if (substrFrom text (SplitPathLoop text fuel start ret).2).length ≠ 0 then
          (SplitPathLoop text fuel start ret).1 ++
            [substrFrom text (SplitPathLoop text fuel start ret).2]
        else (SplitPathLoop text fuel start ret).1) =
        ret ++ specSegments (text.drop start)
  | 0, start, ret, h => by
    have hdrop : text.drop start = [] := List.drop_eq_nil_of_le (by omega)
    simp [SplitPathLoop, substrFrom, hdrop, specSegments]
  | fuel + 1, start, ret, h => by
    cases hf : FindNextPathMarker (text.drop start) start with
    | none =>
      have hn := FindNextPathMarker_none _ _ hf
      simp only [SplitPathLoop, hf, substrFrom]
      rw [specSegments_no_separator _ hn]
      by_cases hr : text.drop start = []
      · simp [hr]
      · have hl : (text.drop start).length ≠ 0 := fun h0 => hr (List.length_eq_zero.mp h0)
        rw [if_pos hl, if_neg hr]
    | some e =>
      obtain ⟨pre, post, h1, h2, h3⟩ := FindNextPathMarker_some _ _ _ hf
      have hb := FindNextPathMarker_bounds _ _ _ hf
      rw [List.length_drop] at hb
      simp only [SplitPathLoop, hf]
      rw [SplitPathLoop_segments text fuel (e + 1) _ (by omega)]
      have hsub : substr text start (e - start) = pre := by
        unfold substr
        rw [h1, h3]
        simp
      have hpost : text.drop (e + 1) = post := by
        have hdd : text.drop (e + 1) = (text.drop start).drop (pre.length + 1) := by
          rw [List.drop_drop]
          congr 1
          omega
        rw [hdd, h1]
        simp
      rw [hsub, hpost, h1, specSegments_first pre post h2]
      by_cases hp : pre = []
      · have he : e = start := by simp [h3, hp]
        simp [hp, he]
      · have he : e ≠ start := by
          have := List.length_pos.mpr hp
          omega
        simp [hp, he]

theorem specSegments_nil : specSegments [] = [] := by
  simp [specSegments]

theorem specSegments_mem :
    ∀ (n : Nat) (text : Str), text.length ≤ n → ∀ s ∈ specSegments text, s ≠ [] ∧ '/' ∉ s
  | 0, text, h, s, hs => by
    have ht : text = [] := List.length_eq_zero.mp (by omega)
    rw [ht, specSegments_nil] at hs
    simp at hs
  | n + 1, text, h, s, hs => by
    cases hf : FindNextPathMarker text 0 with
    | none =>
      have hn := FindNextPathMarker_none _ _ hf
      rw [specSegments_no_separator _ hn] at hs
      split_ifs at hs with ht
      · simp at hs
      · simp only [List.mem_singleton] at hs
        rw [hs]
        exact ⟨ht, fun hmem => hn '/' hmem rfl⟩
    | some e =>
      obtain ⟨pre, post, h1, h2, _⟩ := FindNextPathMarker_some _ _ _ hf
      rw [h1, specSegments_first pre post h2] at hs
      rcases List.mem_append.mp hs with hs1 | hs2
      · split_ifs at hs1 with hp
        · simp at hs1
        · simp only [List.mem_singleton] at hs1
          rw [hs1]
          exact ⟨hp, fun hmem => h2 '/' hmem rfl⟩
      · refine specSegments_mem n post ?_ s hs2
        rw [h1] at h
        simp at h
        omega

theorem specSegments_append :
    ∀ (n : Nat) (a : Str), a.length ≤ n → ∀ b : Str,
      specSegments (a ++ '/' :: b) = specSegments a ++ specSegments b
  | 0, a, h, b => by
    have ha : a = [] := List.length_eq_zero.mp (by omega)
    rw [ha, specSegments_nil]
    exact specSegments_first [] b (by simp)
  | n + 1, a, h, b => by
    cases hf : FindNextPathMarker a 0 with
    | none =>
      have hn := FindNextPathMarker_none _ _ hf
      rw [specSegments_first a b hn, specSegments_no_separator a hn]
    | some e =>
      obtain ⟨pre, post, h1, h2, _⟩ := FindNextPathMarker_some _ _ _ hf
      have hlen : post.length ≤ n := by
        rw [h1] at h
        simp at h
        omega
      have hassoc : a ++ '/' :: b = pre ++ '/' :: (post ++ '/' :: b) := by
        rw [h1]
        simp
      rw [hassoc, specSegments_first pre _ h2, specSegments_append n post hlen b, h1,
        specSegments_first pre post h2, List.append_assoc]

theorem SplitPath_eq_specSegments (text : Str) (b : Bool) :
    (SplitPath text b).1 = specSegments text := by
  unfold SplitPath
  by_cases ht : text.length ≠ 0
  · rw [if_pos ht]
    have h := SplitPathLoop_segments text (text.length + 1) 0 [] (by omega)
    simpa using h
  · have ht2 : text = [] := List.length_eq_zero.mp (by omega)
    rw [if_neg ht, ht2, specSegments_nil]

/-- C20. `Archive::SplitPath` (non-Windows build) returns, for every string, the non-empty
maximal substrings without '/' of the string in left-to-right order: the list obtained by
cutting the string at every '/' and dropping the empty pieces. Hence no segment returned is
empty or contains '/'; the segments of two strings joined by a '/' are the segments of the
first followed by those of the second; and a leading, a trailing and a repeated '/'
contribute no segment. -/
theorem SplitPath_segments (text : Str) (b : Bool) :
    (SplitPath text b).1 = specSegments text ∧
    (∀ s ∈ (SplitPath text b).1, s ≠ [] ∧ '/' ∉ s) ∧
    (('/' ∉ text ∧ text ≠ []) ↔ (SplitPath text b).1 = [text]) ∧
    (∀ other : Str, (SplitPath (text ++ '/' :: other) b).1 =
      (SplitPath text b).1 ++ (SplitPath other b).1) ∧
    (SplitPath ('/' :: text) b).1 = (SplitPath text b).1 ∧
    (SplitPath (text ++ ['/']) b).1 = (SplitPath text b).1 ∧
    (∀ other : Str, (SplitPath (text ++ '/' :: '/' :: other) b).1 =
      (SplitPath (text ++ '/' :: other) b).1) := by
  simp only [SplitPath_eq_specSegments]
  have happ := fun (x y : Str) => specSegments_append x.length x (Nat.le_refl _) y
  refine ⟨trivial, specSegments_mem text.length text (Nat.le_refl _), ?_, ?_, ?_, ?_, ?_⟩
  · constructor
    · intro h
      rw [specSegments_no_separator text (fun c hc hc2 => h.1 (hc2 ▸ hc)), if_neg h.2]
    · intro h
      have hm := specSegments_mem text.length text (Nat.le_refl _) text (by rw [h]; simp)
      exact ⟨hm.2, hm.1⟩
  · intro other
    exact happ text other
  · have h := happ [] text
    rw [specSegments_nil] at h
    simpa using h
  · have h := happ text []
    rw [specSegments_nil] at h
    simpa using h
  · intro other
    rw [happ text ('/' :: other), happ text other]
    have h := happ [] other
    rw [specSegments_nil] at h
    simp only [List.nil_append] at h
    rw [h]

/-- C20, at the string "//usr//lib/": the segments are "usr" and "lib". -/
theorem SplitPath_segments_witness :
    (SplitPath "//usr//lib/".toList false).1 = ["usr".toList, "lib".toList] ∧
    specSegments "//usr//lib/".toList = ["usr".toList, "lib".toList] :=
  ⟨by decide, (SplitPath_segments "//usr//lib/".toList false).1.symm.trans (by decide)⟩

/-! ## DOS timestamps -/

theorem and_mask_eq_mod (x k : Nat) : x &&& (2 ^ k - 1) = x % 2 ^ k :=
  Nat.and_pow_two_sub_one_eq_mod x k

theorem shiftLeft_one_and_62 (f : Nat) : (f <<< 1) &&& 62 = 2 * (f % 32) := by
  have hm : f % 32 = f &&& 31 := (and_mask_eq_mod f 5).symm
  rw [hm]
  apply Nat.eq_of_testBit_eq
  intro i
  rw [Nat.testBit_and, Nat.testBit_shiftLeft]
  cases i with
  | zero => simp [Nat.testBit_zero]
  | succ j =>
    rw [Nat.testBit_succ, Nat.testBit_succ]
    have h1 : (62 : Nat) / 2 = 31 := by decide
    have h2 : 2 * (f &&& 31) / 2 = f &&& 31 := by omega
    rw [h1, h2, Nat.testBit_and]
    simp

/-- C26. DOS timestamp decoding. For every date and time value `DOSToTimeT` hands to `mktime`
the broken-down time with tm_year = ((date>>9)&0x7f)+80, tm_mon = ((date>>5)&0x0f)-1,
tm_mday = date&0x1f, tm_hour = (time>>11)&0x1f, tm_min = (time>>5)&0x3f and
tm_sec = (time<<1)&0x3e, the other fields being 0; tm_sec is even and equal to
2*(time mod 32), and the other fields are the quotients and remainders
date/512 mod 128, date/32 mod 16, date mod 32, time/2048 mod 32 and time/32 mod 64. -/
theorem DOSToTimeT_decoding (env : MountEnv) (dosDate dosFile : Nat) :
    DOSToTimeT env dosDate dosFile = env.mktime (DOSToTm dosDate dosFile) ∧
    ((DOSToTm dosDate dosFile).tm_year = (((dosDate >>> 9) &&& 0x7f : Nat) : Int) + 80 ∧
      (DOSToTm dosDate dosFile).tm_mon = (((dosDate >>> 5) &&& 0x0f : Nat) : Int) - 1 ∧
      (DOSToTm dosDate dosFile).tm_mday = ((dosDate &&& 0x1f : Nat) : Int) ∧
      (DOSToTm dosDate dosFile).tm_hour = (((dosFile >>> 11) &&& 0x1f : Nat) : Int) ∧
      (DOSToTm dosDate dosFile).tm_min = (((dosFile >>> 5) &&& 0x3f : Nat) : Int) ∧
      (DOSToTm dosDate dosFile).tm_sec = (((dosFile <<< 1) &&& 0x3e : Nat) : Int)) ∧
    ((DOSToTm dosDate dosFile).tm_sec = 2 * ((dosFile % 32 : Nat) : Int) ∧
      (DOSToTm dosDate dosFile).tm_sec % 2 = 0 ∧
      0 ≤ (DOSToTm dosDate dosFile).tm_sec ∧ (DOSToTm dosDate dosFile).tm_sec ≤ 62) ∧
    ((DOSToTm dosDate dosFile).tm_year = ((dosDate / 512 % 128 : Nat) : Int) + 80 ∧
      (DOSToTm dosDate dosFile).tm_mon = ((dosDate / 32 % 16 : Nat) : Int) - 1 ∧
      (DOSToTm dosDate dosFile).tm_mday = ((dosDate % 32 : Nat) : Int) ∧
      (DOSToTm dosDate dosFile).tm_hour = ((dosFile / 2048 % 32 : Nat) : Int) ∧
      (DOSToTm dosDate dosFile).tm_min = ((dosFile / 32 % 64 : Nat) : Int)) ∧
    ((DOSToTm dosDate dosFile).tm_wday = 0 ∧ (DOSToTm dosDate dosFile).tm_yday = 0 ∧
      (DOSToTm dosDate dosFile).tm_isdst = 0) := by
  have hsec : ((dosFile <<< 1) &&& 62 : Nat) = 2 * (dosFile % 32) := shiftLeft_one_and_62 dosFile
  have hyear : ((dosDate >>> 9) &&& 127 : Nat) = dosDate / 512 % 128 := by
    rw [Nat.shiftRight_eq_div_pow]
    exact and_mask_eq_mod _ 7
  have hmon : ((dosDate >>> 5) &&& 15 : Nat) = dosDate / 32 % 16 := by
    rw [Nat.shiftRight_eq_div_pow]
    exact and_mask_eq_mod _ 4
  have hday : (dosDate &&& 31 : Nat) = dosDate % 32 := and_mask_eq_mod _ 5
  have hhour : ((dosFile >>> 11) &&& 31 : Nat) = dosFile / 2048 % 32 := by
    rw [Nat.shiftRight_eq_div_pow]
    exact and_mask_eq_mod _ 5
  have hmin : ((dosFile >>> 5) &&& 63 : Nat) = dosFile / 32 % 64 := by
    rw [Nat.shiftRight_eq_div_pow]
    exact and_mask_eq_mod _ 6
  refine ⟨rfl, ⟨?_, rfl, rfl, rfl, rfl, rfl⟩, ⟨?_, ?_, ?_, ?_⟩, ⟨?_, ?_, ?_, ?_, ?_⟩,
    ⟨rfl, rfl, rfl⟩⟩
  · simp only [DOSToTm]
    omega
  · simp only [DOSToTm, hsec]
    push_cast
    rfl
  · simp only [DOSToTm, hsec]
    omega
  · simp only [DOSToTm, hsec]
    omega
  · simp only [DOSToTm, hsec]
    omega
  · simp only [DOSToTm, hyear]
    omega
  · simp only [DOSToTm, hmon]
  · simp only [DOSToTm, hday]
  · simp only [DOSToTm, hhour]
  · simp only [DOSToTm, hmin]

/-! ## Extraction -/

theorem fileAt_setFile_of_lt (a : ArchiveJUnzip) (p : Nat) (f : ArchiveFileJUnzip)
    (h : p < a.fileHeap.length) : (a.setFile p f).fileAt p = f := by
  rw [fileAt_setFile_self, if_pos h]

theorem fileAt_setFile_ne (a : ArchiveJUnzip) (p q : Nat) (f : ArchiveFileJUnzip)
    (h : q ≠ p) : (a.setFile p f).fileAt q = a.fileAt q := by
  unfold ArchiveJUnzip.setFile ArchiveJUnzip.fileAt
  simp [List.getElem?_set, Ne.symm h]

/-- The outcomes of `ArchiveJUnzip::Extract` on a valid entry: nothing is done unless the
state is `NotExtracted`; from `NotExtracted` the state ends as `Extracted` when the entry
is inflated and the cache file is opened, whatever `fwrite` does, and as `NotExtracted`
when the entry is not inflated or the cache file is not opened (`is_unsafe_` is then set). -/
theorem Extract_outcomes (a : ArchiveJUnzip) (env : MountEnv) (file : Nat)
    (hfile : file < a.fileHeap.length) :
    ((a.fileAt file).exstracted_ ≠ ExtractStates.NotExtracted → a.Extract env file = a) ∧
    ((a.fileAt file).exstracted_ = ExtractStates.NotExtracted →
      (env.jzReadData_ok (a.fileAt file).offset_ = true →
        env.fopen_wb_ok (a.CacheFilePathOf (a.fileAt file)) = true →
        ((a.Extract env file).fileAt file).exstracted_ = ExtractStates.Extracted ∧
        (a.Extract env file).is_unsafe_ = a.is_unsafe_) ∧
      (env.jzReadData_ok (a.fileAt file).offset_ = true →
        env.fopen_wb_ok (a.CacheFilePathOf (a.fileAt file)) = false →
        ((a.Extract env file).fileAt file).exstracted_ = ExtractStates.NotExtracted ∧
        (a.Extract env file).is_unsafe_ = true) ∧
      (env.jzReadData_ok (a.fileAt file).offset_ = false →
        ((a.Extract env file).fileAt file).exstracted_ = ExtractStates.NotExtracted ∧
        (a.Extract env file).is_unsafe_ = a.is_unsafe_) ∧
      ((a.Extract env file).fileAt file).exstracted_ ≠ ExtractStates.Extracting) := by
  have h1 : (a.setFile file { a.fileAt file with exstracted_ := ExtractStates.Extracting }).fileAt
      file = { a.fileAt file with exstracted_ := ExtractStates.Extracting } :=
    fileAt_setFile_of_lt a file _ hfile
  have hlen : file < (a.setFile file
      { a.fileAt file with exstracted_ := ExtractStates.Extracting }).fileHeap.length := by
    simpa [ArchiveJUnzip.setFile] using hfile
  have hlen2 : file < ({ a.setFile file
      { a.fileAt file with exstracted_ := ExtractStates.Extracting } with
        is_unsafe_ := true } : ArchiveJUnzip).fileHeap.length := hlen
  constructor
  · intro h
    simp [ArchiveJUnzip.Extract, h]
  · intro h
    have hne : ¬ ((a.fileAt file).exstracted_ ≠ ExtractStates.NotExtracted) := by simp [h]
    have hcases : ∀ (r w : Bool), env.jzReadData_ok (a.fileAt file).offset_ = r →
        env.fopen_wb_ok (a.CacheFilePathOf (a.fileAt file)) = w →
        ((a.Extract env file).fileAt file).exstracted_ =
          (if r = true ∧ w = true then ExtractStates.Extracted
            else ExtractStates.NotExtracted) ∧
        (a.Extract env file).is_unsafe_ =
          (if r = true ∧ w = false then true else a.is_unsafe_) := by
      intro r w hr hw
      unfold ArchiveJUnzip.Extract
      rw [if_neg hne]
      simp only [h1]
      have hpath : (a.setFile file
          { a.fileAt file with exstracted_ := ExtractStates.Extracting }).CacheFilePathOf
          { a.fileAt file with exstracted_ := ExtractStates.Extracting } =
          a.CacheFilePathOf (a.fileAt file) := rfl
      rw [hpath, hr, hw]
      have hu : ∀ (b : ArchiveJUnzip) (p : Nat) (f : ArchiveFileJUnzip),
          (b.setFile p f).is_unsafe_ = b.is_unsafe_ := fun _ _ _ => rfl
      cases r <;> cases w <;>
        simp [fileAt_setFile_of_lt _ _ _ hlen, fileAt_setFile_of_lt _ _ _ hlen2, hu]
    refine ⟨?_, ?_, ?_, ?_⟩
    · intro hr hw
      simpa using hcases true true hr hw
    · intro hr hw
      simpa using hcases true false hr hw
    · intro hr
      have := hcases false (env.fopen_wb_ok (a.CacheFilePathOf (a.fileAt file))) hr rfl
      simpa using this
    · have := (hcases _ _ rfl rfl).1
      rw [this]
      split_ifs <;> decide

/-- C25. `ArchiveJUnzip::Extract` does not look at what `fwrite` returns: an entry in state
`NotExtracted` that is inflated and whose cache file is opened ends in state `Extracted`
also when the payload cannot be written. On the sample mount whose entries are
`NotExtracted`, with a full disk: `Extract` of the entry of "/mnt/app.js" (file node 2) ends
in `Extracted`; a mount made on the full disk has every entry `Extracted` and `is_unsafe_`
false, and open of "/mnt/app.js" goes on to the real open of the cache file and returns its
descriptor. -/
theorem Extract_ignores_write_failure :
    ((sampleUnsafeArchive.fileAt 2).exstracted_ = ExtractStates.NotExtracted ∧
      diskFullEnv.jzReadData_ok (sampleUnsafeArchive.fileAt 2).offset_ = true ∧
      diskFullEnv.fopen_wb_ok
        (sampleUnsafeArchive.CacheFilePathOf (sampleUnsafeArchive.fileAt 2)) = true ∧
      diskFullEnv.fwrite_ok
        (sampleUnsafeArchive.CacheFilePathOf (sampleUnsafeArchive.fileAt 2)) = false ∧
      ((sampleUnsafeArchive.Extract diskFullEnv 2).fileAt 2).exstracted_ =
        ExtractStates.Extracted) ∧
    (diskFullArchive.fileHeap.map (fun f => f.exstracted_) =
        [ExtractStates.Extracted, ExtractStates.Extracted, ExtractStates.Extracted,
          ExtractStates.Extracted] ∧
      diskFullArchive.is_unsafe_ = false ∧
      diskFullArchive.Find (diskFullArchive.FilePathToParts "/mnt/app.js".toList) =
        some (ItemPtr.file 2) ∧
      (diskFullArchive.fs_open 0 sampleFs {} {} 0 "/mnt/app.js".toList).1 = 7 ∧
      (diskFullArchive.fs_open 0 sampleFs {} {} 0 "/mnt/app.js".toList).2.2.2.realCalls =
        [RealCall.fs_open "/tmp/archive_cache/0f/3.cache".toList 0 0x0777]) := by
  decide

/-! ## The descriptor table: what an insertion or a removal leaves alone -/

theorem KeyOrder.ne_lt {K : Type} [KeyOrder K] (k k' : K) (h : k' ≠ k) :
    KeyOrder.lt k k' = true ∨ KeyOrder.lt k' k = true := by
  by_contra hc
  simp only [not_or, Bool.not_eq_true] at hc
  exact h (KeyOrder.total k' k hc.2 hc.1)

theorem findList_insertList_ne {K V : Type} [KeyOrder K] (k k' : K) (v : V) (h : k' ≠ k) :
    ∀ l : List (K × V), findList k' (insertList k v l) = findList k' l
  | [] => by
    rcases KeyOrder.ne_lt k k' h with h1 | h1
    · have h2 : KeyOrder.lt k' k = false := by
        by_contra hc
        have := KeyOrder.trans k k' k h1 (by simpa using hc)
        rw [KeyOrder.irrefl] at this
        cases this
      simp [insertList, findList, h1, h2]
    · simp [insertList, findList, h1]
  | (k2, v2) :: t => by
    have ih := findList_insertList_ne k k' v h t
    simp only [insertList]
    split_ifs with c1 c2
    · rcases KeyOrder.ne_lt k k' h with h1 | h1
      · have h2 : KeyOrder.lt k' k = false := by
          by_contra hc
          have := KeyOrder.trans k k' k h1 (by simpa using hc)
          rw [KeyOrder.irrefl] at this
          cases this
        simp only [findList, h1, h2]
        simp
      · simp only [findList, h1]
        simp
    · simp only [findList, ih]
    · rfl

theorem findList_eraseList_ne {K V : Type} [KeyOrder K] (k k' : K) (h : k' ≠ k) :
    ∀ l : List (K × V), findList k' (eraseList k l) = findList k' l
  | [] => rfl
  | (k2, v2) :: t => by
    have ih := findList_eraseList_ne k k' h t
    simp only [eraseList]
    split_ifs with c1 c2
    · simp only [findList, ih]
    · simp only [findList, ih]
    · have hk : k2 = k := by
        apply KeyOrder.total
        · simpa using c2
        · simpa using c1
      rw [hk]
      rcases KeyOrder.ne_lt k k' h with h1 | h1
      · have h2 : KeyOrder.lt k' k = false := by
          by_contra hc
          have := KeyOrder.trans k k' k h1 (by simpa using hc)
          rw [KeyOrder.irrefl] at this
          cases this
        simp [findList, h1, h2]
      · simp [findList, h1]

theorem findList_none_of_lt {K V : Type} [KeyOrder K] (k : K) :
    ∀ l : List (K × V), (∀ p ∈ l, KeyOrder.lt k p.1 = true) → findList k l = none
  | [], _ => rfl
  | (k2, v2) :: t, h => by
    have h1 : KeyOrder.lt k k2 = true := h (k2, v2) (List.mem_cons_self _ _)
    simp only [findList, h1, if_true]
    exact findList_none_of_lt k t (fun p hp => h p (List.mem_cons_of_mem _ hp))

/-- `std::map::insert` of a key that is there leaves the map as it is. -/
theorem insertList_of_find_some {K V : Type} [KeyOrder K] (k : K) (v x : V) :
    ∀ l : List (K × V), SortedKeys l → findList k l = some x → insertList k v l = l
  | [], _, h => by simp [findList] at h
  | (k2, v2) :: t, hs, h => by
    have hs2 := List.pairwise_cons.mp hs
    simp only [findList] at h
    simp only [insertList]
    split_ifs at h ⊢ with c1 c2
    · have hnone := findList_none_of_lt (V := V) k t
        (fun p hp => KeyOrder.trans k k2 p.1 c1 (hs2.1 p hp))
      rw [hnone] at h
      cases h
    · rw [insertList_of_find_some k v x t hs2.2 h]
    · rfl

theorem StdMap.insert_of_find_some {K V : Type} [KeyOrder K] (m : StdMap K V) (k : K) (v x : V)
    (h : m.find k = some x) : m.insert k v = m := by
  cases m with
  | mk entries sorted =>
    simp only [StdMap.insert]
    congr 1
    exact insertList_of_find_some k v x entries sorted h

theorem StdMap.find_insert_ne {K V : Type} [KeyOrder K] (m : StdMap K V) (k k' : K) (v : V)
    (h : k' ≠ k) : (m.insert k v).find k' = m.find k' :=
  findList_insertList_ne k k' v h m.entries

theorem StdMap.find_erase_ne {K V : Type} [KeyOrder K] (m : StdMap K V) (k k' : K)
    (h : k' ≠ k) : (m.erase k).find k' = m.find k' :=
  findList_eraseList_ne k k' h m.entries

theorem Mappings_Get_true (kf : Mappings) (k : Int) (gotten old : RealSource) :
    kf.Get k gotten = (true, old) ↔ kf.known_.find k = some old := by
  unfold Mappings.Get
  cases h : kf.known_.find k with
  | none => simp
  | some found => simp

theorem Mappings_Get_congr (kf kf2 : Mappings) (k : Int) (gotten : RealSource)
    (h : kf2.known_.find k = kf.known_.find k) : kf2.Get k gotten = kf.Get k gotten := by
  unfold Mappings.Get
  rw [h]

/-- C29. `Mappings::Insert` never overwrites. Inserting a virtual descriptor `k` that is in
the table leaves what `Get( k )` yields as it was; `Insert` and `Remove` of `k` leave what
`Get` yields for every other descriptor as it was. Consequently, when the counter has come
round to a value that is still in the table, the completion of an open
( `Manager::fs_open_on` ) hands that value to the caller as the new virtual descriptor while
the table keeps resolving it to the older pair. -/
theorem Mappings_Insert_never_overwrites (kf : Mappings) (k real_fileId : Int)
    (owning_archive : Option Nat) (gotten : RealSource) :
    (∀ old, kf.Get k gotten = (true, old) →
      (kf.Insert k real_fileId owning_archive).1 = k ∧
      (kf.Insert k real_fileId owning_archive).2.Get k gotten = (true, old)) ∧
    (∀ k', k' ≠ k →
      (kf.Insert k real_fileId owning_archive).2.Get k' gotten = kf.Get k' gotten) ∧
    (∀ k', k' ≠ k → (kf.Remove k).Get k' gotten = kf.Get k' gotten) ∧
    (∀ (m : Manager) (req : uv_fs_t) (old : RealSource),
      m.knownFiles_.Get m.knownFiles_.counter_ gotten = (true, old) →
      0 ≤ (Manager.Unsheath req).1.result →
      (Manager.fs_open_on m req).2.2.result = m.knownFiles_.counter_ ∧
      (Manager.fs_open_on m req).1.knownFiles_.Get m.knownFiles_.counter_ gotten =
        (true, old)) := by
  refine ⟨?_, ?_, ?_, ?_⟩
  · intro old h
    rw [Mappings_Get_true] at h
    refine ⟨rfl, ?_⟩
    rw [Mappings_Get_true]
    simp only [Mappings.Insert]
    rw [StdMap.insert_of_find_some _ _ _ _ h]
    exact h
  · intro k' hk
    apply Mappings_Get_congr
    simp only [Mappings.Insert]
    exact StdMap.find_insert_ne _ _ _ _ hk
  · intro k' hk
    apply Mappings_Get_congr
    unfold Mappings.Remove
    cases hf : kf.known_.find k with
    | none => rfl
    | some found => exact StdMap.find_erase_ne _ _ _ hk
  · intro m req old h hres
    rw [Mappings_Get_true] at h
    have hge : (Manager.Unsheath req).1.result ≥ 0 := hres
    simp only [Manager.fs_open_on, hge, if_true]
    refine ⟨rfl, ?_⟩
    rw [Mappings_Get_true]
    simp only [Mappings.Insert, Mappings.NextFakeId]
    rw [StdMap.insert_of_find_some _ _ _ _ h]
    exact h

/-- C29, at the sample dispatcher with the virtual descriptor 10 open on the real descriptor
7 and the counter back at 10: the completion of an open whose real descriptor is 9 hands 10
to the caller, and the table still resolves 10 to the real descriptor 7. -/
theorem Mappings_Insert_never_overwrites_witness :
    wrappedManager.knownFiles_.counter_ = 10 ∧
    wrappedManager.knownFiles_.Get 10 (0, none) = (true, (7, some 0)) ∧
    (Manager.fs_open_on wrappedManager
      { result := 9, data := Data.sheath 0 (Data.user 0) (some (Callback.user 1)) none }).2.2.result
        = 10 ∧
    (Manager.fs_open_on wrappedManager
      { result := 9, data := Data.sheath 0 (Data.user 0) (some (Callback.user 1))
          none }).1.knownFiles_.Get 10 (0, none) = (true, (7, some 0)) :=
  ⟨by decide, by decide,
   ((Mappings_Insert_never_overwrites {} 0 0 none (0, none)).2.2.2 wrappedManager
      { result := 9, data := Data.sheath 0 (Data.user 0) (some (Callback.user 1)) none }
      (7, some 0) (by decide) (by decide)).1,
   ((Mappings_Insert_never_overwrites {} 0 0 none (0, none)).2.2.2 wrappedManager
      { result := 9, data := Data.sheath 0 (Data.user 0) (some (Callback.user 1)) none }
      (7, some 0) (by decide) (by decide)).2⟩

/-! ## Real paths -/

/-- C30. `Manager::fs_realpath` on a path owned by a mount succeeds with the identity. For
every such path: without a callback the call returns 0, the result of the request is 0 and
its `ptr` is a copy of the path, and the loop is left alone; with a callback the call returns
0 without any real-filesystem call, and the deferred completion calls the callback once on
the request with result 0, `ptr` a copy of the path and the user data restored. The outcome
is the same for every dispatcher that routes the path to a mount at the same place, whatever
the index of the mount holds. -/
theorem fs_realpath_identity (m : Manager) (uv : RealFs) (loop : Loop) (req : uv_fs_t)
    (path : Str) (f target : Nat) (hfind : m.Find path = some target) :
    ((m.fs_realpath uv loop req path none).1 = 0 ∧
      (m.fs_realpath uv loop req path none).2.1.result = 0 ∧
      (m.fs_realpath uv loop req path none).2.1.ptr = Ptr.str path ∧
      (m.fs_realpath uv loop req path none).2.2 = loop) ∧
    ((m.fs_realpath uv loop req path (some (Callback.user f))).1 = 0 ∧
      (m.fs_realpath uv loop req path (some (Callback.user f))).2.2.realCalls =
        loop.realCalls ∧
      (m.fs_realpath uv loop req path (some (Callback.user f))).2.2.inflight = loop.inflight ∧
      ∃ r : uv_fs_t,
        (OnProcessScheduleRequest (World.fs_realpath { manager := m } uv req path
          (some (Callback.user f)))).delivered = [(f, r)] ∧
        r.result = 0 ∧ r.ptr = Ptr.str path ∧ r.data = req.data) ∧
    (∀ (m2 : Manager) (cb : Option Callback), m2.Find path = some target →
      m2.fs_realpath uv loop req path cb = m.fs_realpath uv loop req path cb) := by
  refine ⟨?_, ?_, ?_⟩
  · simp [Manager.fs_realpath, hfind, toInt32]
  · refine ⟨?_, ?_, ?_, ?_⟩
    · simp [Manager.fs_realpath, hfind]
    · simp [Manager.fs_realpath, hfind, Schedule]
    · simp [Manager.fs_realpath, hfind, Schedule]
    · refine ⟨{ (m.fs_realpath uv {} req path (some (Callback.user f))).2.1 with
        data := req.data }, ?_, ?_⟩
      · simp [World.fs_realpath, Manager.fs_realpath, hfind, Schedule, OnProcessScheduleRequest,
          ReqObj.base, invoke, callDepth, Manager.Unsheath, Manager.Sheath,
          Manager.fs_capture_path, Manager.fs_req_init]
      · simp [Manager.fs_realpath, hfind, Manager.Sheath]
  · intro m2 cb h2
    simp only [Manager.fs_realpath, hfind, h2]

/-- C30, at the sample dispatcher: "/mnt/no/such/entry" is owned by the sample mount and
resolves to no entry of its index; realpath returns 0 with the path as the real path. -/
theorem fs_realpath_identity_witness :
    sampleManager.Find "/mnt/no/such/entry".toList = some 0 ∧
    sampleArchive.Find (sampleArchive.FilePathToParts "/mnt/no/such/entry".toList) = none ∧
    (sampleManager.fs_realpath sampleFs {} {} "/mnt/no/such/entry".toList none).1 = 0 ∧
    (sampleManager.fs_realpath sampleFs {} {} "/mnt/no/such/entry".toList none).2.1.ptr =
      Ptr.str "/mnt/no/such/entry".toList :=
  ⟨by decide, by decide,
   (fs_realpath_identity sampleManager sampleFs {} {} "/mnt/no/such/entry".toList 1 0
      (by decide)).1.1,
   (fs_realpath_identity sampleManager sampleFs {} {} "/mnt/no/such/entry".toList 1 0
      (by decide)).1.2.2.1⟩

/-! ## Splitting a path below a mount point -/

theorem exists_first_separator (isSep : Char → Bool) :
    ∀ l : Str, (∀ c ∈ l, isSep c = false) ∨
      ∃ pre sep post, l = pre ++ sep :: post ∧ (∀ c ∈ pre, isSep c = false) ∧ isSep sep = true
  | [] => Or.inl (by simp)
  | c :: t => by
    by_cases hc : isSep c = true
    · exact Or.inr ⟨[], c, t, rfl, by simp, hc⟩
    · rcases exists_first_separator isSep t with h | ⟨pre, sep, post, h1, h2, h3⟩
      · left
        intro d hd
        rcases List.mem_cons.mp hd with hd | hd
        · rw [hd]
          simpa using hc
        · exact h d hd
      · right
        refine ⟨c :: pre, sep, post, by simp [h1], ?_, h3⟩
        intro d hd
        rcases List.mem_cons.mp hd with hd | hd
        · rw [hd]
          simpa using hc
        · exact h2 d hd

theorem segmentsOf_nil (isSep : Char → Bool) : segmentsOf isSep [] = [] := by
  simp [segmentsOf]

theorem segmentsOf_no_separator (isSep : Char → Bool) (rest : Str)
    (h : ∀ c ∈ rest, isSep c = false) :
    segmentsOf isSep rest = if rest = [] then [] else [rest] := by
  unfold segmentsOf
  rw [List.splitOnP_eq_single isSep rest (by simpa using h)]
  by_cases hr : rest = []
  · simp [hr]
  · simp [hr]

theorem segmentsOf_first (isSep : Char → Bool) (pre post : Str) (sep : Char)
    (h : ∀ c ∈ pre, isSep c = false) (hsep : isSep sep = true) :
    segmentsOf isSep (pre ++ sep :: post) =
      (if pre = [] then [] else [pre]) ++ segmentsOf isSep post := by
  unfold segmentsOf
  rw [List.splitOnP_first isSep pre (by simpa using h) sep hsep post]
  by_cases hr : pre = []
  · simp [hr]
  · simp [hr]

theorem segmentsOf_append (isSep : Char → Bool) (sep : Char) (hsep : isSep sep = true) :
    ∀ (n : Nat) (a : Str), a.length ≤ n → ∀ b : Str,
      segmentsOf isSep (a ++ sep :: b) = segmentsOf isSep a ++ segmentsOf isSep b
  | 0, a, h, b => by
    have ha : a = [] := List.length_eq_zero.mp (by omega)
    rw [ha, segmentsOf_nil]
    exact segmentsOf_first isSep [] b sep (by simp) hsep
  | n + 1, a, h, b => by
    rcases exists_first_separator isSep a with hn | ⟨pre, s2, post, h1, h2, h3⟩
    · rw [segmentsOf_first isSep a b sep hn hsep, segmentsOf_no_separator isSep a hn]
    · have hlen : post.length ≤ n := by
        rw [h1] at h
        simp at h
        omega
      have hassoc : a ++ sep :: b = pre ++ s2 :: (post ++ sep :: b) := by
        rw [h1]
        simp
      rw [hassoc, segmentsOf_first isSep pre _ s2 h2 h3,
        segmentsOf_append isSep sep hsep n post hlen b, h1,
        segmentsOf_first isSep pre post s2 h2 h3, List.append_assoc]

theorem segmentsOf_congr (isSep isSep2 : Char → Bool) :
    ∀ (n : Nat) (text : Str), text.length ≤ n → (∀ c ∈ text, isSep c = isSep2 c) →
      segmentsOf isSep text = segmentsOf isSep2 text
  | 0, text, h, _ => by
    have ht : text = [] := List.length_eq_zero.mp (by omega)
    rw [ht, segmentsOf_nil, segmentsOf_nil]
  | n + 1, text, h, heq => by
    rcases exists_first_separator isSep text with hn | ⟨pre, sep, post, h1, h2, h3⟩
    · rw [segmentsOf_no_separator isSep text hn,
        segmentsOf_no_separator isSep2 text (fun c hc => (heq c hc) ▸ hn c hc)]
    · have hpre : ∀ c ∈ pre, isSep2 c = false := fun c hc =>
        (heq c (by rw [h1]; simp [hc])) ▸ h2 c hc
      have hsep : isSep2 sep = true := (heq sep (by rw [h1]; simp)) ▸ h3
      have hlen : post.length ≤ n := by
        rw [h1] at h
        simp at h
        omega
      rw [h1, segmentsOf_first isSep pre post sep h2 h3,
        segmentsOf_first isSep2 pre post sep hpre hsep,
        segmentsOf_congr isSep isSep2 n post hlen
          (fun c hc => heq c (by rw [h1]; simp [hc]))]

theorem specSegments_eq_segmentsOf (text : Str) :
    specSegments text = segmentsOf (fun c => c == '/') text := rfl

theorem FindNextDirSeperator_none :
    ∀ (rest : Str) (pos : Nat), FindNextDirSeperator rest pos = none →
      ∀ c ∈ rest, isDirSeperator c = false
  | [], _, _ => by simp
  | c :: t, pos, h => by
    simp only [FindNextDirSeperator] at h
    split_ifs at h with h1 h2
    intro d hd
    rcases List.mem_cons.mp hd with hd | hd
    · rw [hd]
      simp [isDirSeperator, h1, h2]
    · exact FindNextDirSeperator_none t (pos + 1) h d hd

theorem FindNextDirSeperator_some :
    ∀ (rest : Str) (pos e : Nat), FindNextDirSeperator rest pos = some e →
      ∃ (pre : Str) (sep : Char) (post : Str), rest = pre ++ sep :: post ∧
        (∀ c ∈ pre, isDirSeperator c = false) ∧ isDirSeperator sep = true ∧
        e = pos + pre.length
  | [], _, _, h => by simp [FindNextDirSeperator] at h
  | c :: t, pos, e, h => by
    simp only [FindNextDirSeperator] at h
    split_ifs at h with h1 h2
    · simp only [Option.some.injEq] at h
      exact ⟨[], c, t, rfl, by simp, by simp [isDirSeperator, h1], by simp [h]⟩
    · simp only [Option.some.injEq] at h
      exact ⟨[], c, t, rfl, by simp, by simp [isDirSeperator, h2], by simp [h]⟩
    · obtain ⟨pre, sep, post, k1, k2, k3, k4⟩ := FindNextDirSeperator_some t (pos + 1) e h
      refine ⟨c :: pre, sep, post, by simp [k1], ?_, k3, by simp; omega⟩
      intro d hd
      rcases List.mem_cons.mp hd with hd | hd
      · rw [hd]
        simp [isDirSeperator, h1, h2]
      · exact k2 d hd

/-- The loop of `Archive::FilePathToParts` followed by the `push_back` of the remainder: with
enough fuel, what is appended to `ret` are the pieces between separators of the part of the
path from `start` on. -/
theorem FilePathToPartsLoop_segments (relativePath : Str) :
    ∀ (fuel start : Nat) (ret : List Str), relativePath.length < start + fuel →
      (if (substrFrom relativePath
            (FilePathToPartsLoop relativePath fuel start ret).2).length ≠ 0 then
          (FilePathToPartsLoop relativePath fuel start ret).1 ++
            [substrFrom relativePath (FilePathToPartsLoop relativePath fuel start ret).2]
        else (FilePathToPartsLoop relativePath fuel start ret).1) =
        ret ++ segmentsOf isDirSeperator (relativePath.drop start)
  | 0, start, ret, h => by
    have hdrop : relativePath.drop start = [] := List.drop_eq_nil_of_le (by omega)
    simp [FilePathToPartsLoop, substrFrom, hdrop, segmentsOf]
  | fuel + 1, start, ret, h => by
    cases hf : FindNextDirSeperator (relativePath.drop start) start with
    | none =>
      have hn := FindNextDirSeperator_none _ _ hf
      simp only [FilePathToPartsLoop, hf, substrFrom]
      rw [segmentsOf_no_separator _ _ hn]
      by_cases hr : relativePath.drop start = []
      · simp [hr]
      · have hl : (relativePath.drop start).length ≠ 0 :=
          fun h0 => hr (List.length_eq_zero.mp h0)
        rw [if_pos hl, if_neg hr]
    | some e =>
      obtain ⟨pre, sep, post, h1, h2, h3, h4⟩ := FindNextDirSeperator_some _ _ _ hf
      have hb := FindNextDirSeperator_bounds _ _ _ hf
      rw [List.length_drop] at hb
      simp only [FilePathToPartsLoop, hf]
      rw [FilePathToPartsLoop_segments relativePath fuel (e + 1) _ (by omega)]
      have hsub : substr relativePath start (e - start) = pre := by
        unfold substr
        rw [h1, h4]
        simp
      have hpost : relativePath.drop (e + 1) = post := by
        have hdd : relativePath.drop (e + 1) =
            (relativePath.drop start).drop (pre.length + 1) := by
          rw [List.drop_drop]
          congr 1
          omega
        rw [hdd, h1]
        simp
      rw [hsub, hpost, h1, segmentsOf_first isDirSeperator pre post sep h2 h3]
      by_cases hp : pre = []
      · have he : e = start := by simp [h4, hp]
        simp [hp, he]
      · have he : e ≠ start := by
          have := List.length_pos.mpr hp
          omega
        have hl : pre.length ≠ 0 := fun h0 => hp (List.length_eq_zero.mp h0)
        simp [hp, he, hl]

/-- `Archive::FilePathToParts` returns the non-empty pieces, between '/' and backslash, of
the path without its first `mount_point_.length()` characters. -/
theorem FilePathToParts_eq_segmentsOf (a : ArchiveJUnzip) (filepath : Str) :
    a.FilePathToParts filepath =
      segmentsOf isDirSeperator (filepath.drop a.mount_point_.length) := by
  unfold ArchiveJUnzip.FilePathToParts
  generalize filepath.drop a.mount_point_.length = rel
  by_cases ht : rel.length ≠ 0
  · have h := FilePathToPartsLoop_segments rel (rel.length + 1) 0 [] (by omega)
    dsimp only
    rw [if_pos ht]
    simpa using h
  · have ht2 : rel = [] := List.length_eq_zero.mp (by omega)
    simp [ht2, segmentsOf_nil]

/-- For a path whose part below the mount point holds no backslash, `Archive::FilePathToParts`
returns what `Archive::SplitPath` returns for that part. -/
theorem FilePathToParts_eq_SplitPath (a : ArchiveJUnzip) (filepath : Str) (b : Bool)
    (h : ∀ c ∈ filepath.drop a.mount_point_.length, c ≠ '\\') :
    a.FilePathToParts filepath = (SplitPath (filepath.drop a.mount_point_.length) b).1 := by
  rw [FilePathToParts_eq_segmentsOf, SplitPath_eq_specSegments, specSegments_eq_segmentsOf]
  apply segmentsOf_congr _ _ _ _ (Nat.le_refl _)
  intro c hc
  have hne := h c hc
  simp [isDirSeperator, hne]

/-- C21. `Archive::FilePathToParts` cuts the path at a backslash as well as at '/', in every
build, while `Archive::SplitPath` cuts at '/' only outside Windows. For the mount point
"/mnt" and the path "/mnt/a\\b", `FilePathToParts` returns the segments "a" and "b", and
`SplitPath` returns the one segment "a\\b" for the remainder "/a\\b". An archive entry named
"a\\b" is indexed under that one segment, so stat of "/mnt/a\\b" fails with `UV_ENOENT`. -/
theorem FilePathToParts_backslash :
    ("/mnt".toList <+: "/mnt/a\\b".toList ∧
      sampleArchive.mount_point_ = "/mnt".toList ∧
      sampleArchive.FilePathToParts "/mnt/a\\b".toList = ["a".toList, "b".toList] ∧
      (SplitPath ("/mnt/a\\b".toList.drop "/mnt".toList.length) false).1 = ["a\\b".toList]) ∧
    (backslashArchive.Find ["a\\b".toList] = some (ItemPtr.file 0) ∧
      backslashArchive.FilePathToParts "/mnt/a\\b".toList = ["a".toList, "b".toList] ∧
      backslashArchive.Find (backslashArchive.FilePathToParts "/mnt/a\\b".toList) = none ∧
      (backslashArchive.fs_stat {} {} "/mnt/a\\b".toList).1 = UV_ENOENT) := by
  decide

/-- C27. Trailing separators are ignored by archive path resolution. For every mount and
every path `p` that starts with its mount point, `FilePathToParts` of `p` followed by "/"
equals `FilePathToParts` of `p`; so stat, scandir and open of the longer path return the
same value and leave the same request, archive and loop as for `p` (open of "file/"
succeeds exactly when open of "file" does), and the cache path is the same. -/
theorem trailing_separator_ignored (a : ArchiveJUnzip) (p : Str)
    (hp : a.mount_point_ <+: p) :
    a.FilePathToParts (p ++ ['/']) = a.FilePathToParts p ∧
    (∀ (loop : Loop) (req : uv_fs_t),
      a.fs_stat loop req (p ++ ['/']) = a.fs_stat loop req p) ∧
    (∀ (loop : Loop) (request : uv_fs_t) (flags : Int),
      a.fs_scandir loop request (p ++ ['/']) flags = a.fs_scandir loop request p flags) ∧
    (∀ (this : Nat) (uv : RealFs) (loop : Loop) (request : uv_fs_t) (flags : Int),
      a.fs_open this uv loop request flags (p ++ ['/']) =
        a.fs_open this uv loop request flags p) ∧
    a.CacheFilePath (p ++ ['/']) = a.CacheFilePath p := by
  have hlen : a.mount_point_.length ≤ p.length := hp.length_le
  have h : a.FilePathToParts (p ++ ['/']) = a.FilePathToParts p := by
    rw [FilePathToParts_eq_segmentsOf, FilePathToParts_eq_segmentsOf,
      List.drop_append_of_le_length hlen,
      segmentsOf_append isDirSeperator '/' (by decide) _ _ (Nat.le_refl _) [],
      segmentsOf_nil, List.append_nil]
  refine ⟨h, ?_, ?_, ?_, ?_⟩
  · intro loop req
    simp only [ArchiveJUnzip.fs_stat, h]
  · intro loop request flags
    simp only [ArchiveJUnzip.fs_scandir, h]
  · intro this uv loop request flags
    simp only [ArchiveJUnzip.fs_open, h]
  · simp only [ArchiveJUnzip.CacheFilePath, h]

/-- C27, at the sample mount: "/mnt/app.js" starts with the mount point "/mnt"; the parts of
"/mnt/app.js/" are those of "/mnt/app.js", and open of "/mnt/app.js/" returns the descriptor
7 of the real open, as open of "/mnt/app.js" does. -/
theorem trailing_separator_ignored_witness :
    sampleArchive.mount_point_ <+: "/mnt/app.js".toList ∧
    sampleArchive.FilePathToParts ("/mnt/app.js".toList ++ ['/']) = ["app.js".toList] ∧
    (sampleArchive.fs_open 0 sampleFs {} {} 0 ("/mnt/app.js".toList ++ ['/'])).1 = 7 ∧
    (sampleArchive.fs_open 0 sampleFs {} {} 0 ("/mnt/app.js".toList ++ ['/'])) =
      (sampleArchive.fs_open 0 sampleFs {} {} 0 "/mnt/app.js".toList) :=
  ⟨by decide, by decide, by decide,
   (trailing_separator_ignored sampleArchive "/mnt/app.js".toList (by decide)).2.2.2.1 0
      sampleFs {} {} 0⟩

/-- C28. Routing matches on the raw string prefix. For every mount of the dispatcher with a
non-empty mount point and every string `s`, `Manager::Find` of the mount point followed by
`s` returns a mount (never null), whose mount point is a prefix of that path and at least as
long as the given one, whether or not `s` starts with a separator; and the mount resolves the
path as the pieces of `s` between separators. -/
theorem Find_raw_string_match (m : Manager) (a : ArchiveJUnzip) (s : Str)
    (ha : a ∈ m.archives_) (hne : a.mount_point_ ≠ []) :
    m.Find (a.mount_point_ ++ s) ≠ none ∧
    (∃ i b, m.Find (a.mount_point_ ++ s) = some i ∧ m.archives_[i]? = some b ∧
      b.mount_point_ <+: a.mount_point_ ++ s ∧
      a.mount_point_.length ≤ b.mount_point_.length) ∧
    a.FilePathToParts (a.mount_point_ ++ s) = segmentsOf isDirSeperator s := by
  have hpre : a.mount_point_ <+: a.mount_point_ ++ s := List.prefix_append _ _
  obtain ⟨i, b, h1, h2, h3, h4⟩ := Find_spec m (a.mount_point_ ++ s) ⟨a, ha, hne, hpre⟩
  refine ⟨?_, ⟨i, b, h1, h2, h3, h4 a ha hpre⟩, ?_⟩
  · rw [h1]
    simp
  · rw [FilePathToParts_eq_segmentsOf, List.drop_left]

/-- C28, at the sample dispatcher with its one mount at "/mnt": the path "/mntfoo/x" is owned
by that mount and is resolved inside it as the segments "foo" and "x". -/
theorem Find_raw_string_match_witness :
    sampleArchive ∈ sampleManager.archives_ ∧
    sampleArchive.mount_point_ = "/mnt".toList ∧
    sampleManager.Find ("/mnt".toList ++ "foo/x".toList) = some 0 ∧
    sampleManager.Find (sampleArchive.mount_point_ ++ "foo/x".toList) ≠ none ∧
    sampleArchive.FilePathToParts "/mntfoo/x".toList = ["foo".toList, "x".toList] :=
  ⟨List.mem_singleton.mpr rfl, by decide, by decide,
   (Find_raw_string_match sampleManager sampleArchive "foo/x".toList
      (List.mem_singleton.mpr rfl) (by decide)).1,
   by decide⟩

/-! ## The index under `AddEntry` -/

theorem AddEntryLoop_known (env : MountEnv) (idx : Int) (hdr : JZFileHeader) (is_dir : Bool)
    (sz : Nat) (name : Str) (rest : List Str) (i : Nat) (a : ArchiveJUnzip) (node d : Nat)
    (h : (a.dirAt node).FindDir name = some d) :
    AddEntryLoop env idx hdr is_dir sz (name :: rest) i a node =
      AddEntryLoop env idx hdr is_dir sz rest (i + 1) a d := by
  simp only [AddEntryLoop, h]

theorem AddEntryLoop_file (env : MountEnv) (idx : Int) (hdr : JZFileHeader)
    (sz : Nat) (name : Str) (rest : List Str) (i : Nat) (a : ArchiveJUnzip) (node : Nat)
    (h : (a.dirAt node).FindDir name = none) (hi : i = sz - 1) :
    AddEntryLoop env idx hdr false sz (name :: rest) i a node =
      if a.extract_on_mount_ = true then
        (a.addFileNode node name
          (({ archiveId_ := idx } : ArchiveFileJUnzip).Set env hdr)).Extract env a.fileHeap.length
      else
        (a.addFileNode node name
          (({ archiveId_ := idx } : ArchiveFileJUnzip).Set env hdr)).Validate env
            a.fileHeap.length := by
  simp only [AddEntryLoop, h, hi, ArchiveJUnzip.addFileNode, ArchiveJUnzip.setDir]
  simp

theorem AddEntryLoop_dir (env : MountEnv) (idx : Int) (hdr : JZFileHeader) (is_dir : Bool)
    (sz : Nat) (name : Str) (rest : List Str) (i : Nat) (a : ArchiveJUnzip) (node : Nat)
    (h : (a.dirAt node).FindDir name = none) (hi : i ≠ sz - 1) :
    AddEntryLoop env idx hdr is_dir sz (name :: rest) i a node =
      AddEntryLoop env idx hdr is_dir sz rest (i + 1)
        ((a.addDirNode node name).setDir a.dirHeap.length
          (((a.addDirNode node name).dirAt a.dirHeap.length).Set env hdr)) a.dirHeap.length := by
  simp only [AddEntryLoop, h, ArchiveJUnzip.addDirNode]
  simp [hi]

theorem AddEntryLoop_marker (env : MountEnv) (idx : Int) (hdr : JZFileHeader)
    (sz : Nat) (name : Str) (rest : List Str) (i : Nat) (a : ArchiveJUnzip) (node : Nat)
    (h : (a.dirAt node).FindDir name = none) (hi : i = sz - 1) :
    AddEntryLoop env idx hdr true sz (name :: rest) i a node =
      AddEntryLoop env idx hdr true sz rest (i + 1) (a.addDirNode node name) node := by
  simp only [AddEntryLoop, h, ArchiveJUnzip.addDirNode]
  simp [hi]

theorem dirAt_setDir (a : ArchiveJUnzip) (p q : Nat) (d : ArchiveDirJUnzip) :
    (a.setDir p d).dirAt q = if q = p ∧ p < a.dirHeap.length then d else a.dirAt q := by
  unfold ArchiveJUnzip.setDir ArchiveJUnzip.dirAt
  by_cases hq : q = p
  · by_cases hp : p < a.dirHeap.length
    · simp [hq, hp, List.getElem?_set]
    · have h2 : a.dirHeap[p]? = none := List.getElem?_eq_none (by omega)
      simp [hq, hp, h2, List.getElem?_set]
  · simp [hq, List.getElem?_set, Ne.symm hq]

theorem dirAt_of_dirHeap (a b : ArchiveJUnzip) (h : b.dirHeap = a.dirHeap) (q : Nat) :
    b.dirAt q = a.dirAt q := by
  unfold ArchiveJUnzip.dirAt
  rw [h]

theorem FindDir_default (name : Str) : (default : ArchiveDirJUnzip).FindDir name = none := rfl

theorem dirAt_out_of_range (a : ArchiveJUnzip) (q : Nat) (h : a.dirHeap.length ≤ q) :
    a.dirAt q = default := by
  unfold ArchiveJUnzip.dirAt
  rw [List.getElem?_eq_none h]
  rfl

theorem Extract_dirHeap (a : ArchiveJUnzip) (env : MountEnv) (file : Nat) :
    (a.Extract env file).dirHeap = a.dirHeap := by
  simp only [ArchiveJUnzip.Extract, ArchiveJUnzip.setFile]
  split_ifs <;> rfl

theorem addFileNode_dirHeap_length (a : ArchiveJUnzip) (node : Nat) (name : Str)
    (f : ArchiveFileJUnzip) : (a.addFileNode node name f).dirHeap.length = a.dirHeap.length := by
  simp [ArchiveJUnzip.addFileNode, ArchiveJUnzip.setDir]

theorem addFileNode_FindDir (a : ArchiveJUnzip) (node : Nat) (name : Str)
    (f : ArchiveFileJUnzip) (q : Nat) (n : Str) :
    ((a.addFileNode node name f).dirAt q).FindDir n = (a.dirAt q).FindDir n := by
  unfold ArchiveJUnzip.addFileNode
  rw [dirAt_setDir]
  have h1 : ∀ r, ({ a with fileHeap := a.fileHeap ++ [f] } : ArchiveJUnzip).dirAt r = a.dirAt r :=
    fun r => rfl
  split_ifs with hc
  · rw [h1, hc.1]
    rfl
  · rw [h1]

theorem setDir_Set_FindDir (a : ArchiveJUnzip) (env : MountEnv) (hdr : JZFileHeader)
    (p q : Nat) (n : Str) :
    ((a.setDir p ((a.dirAt p).Set env hdr)).dirAt q).FindDir n = (a.dirAt q).FindDir n := by
  rw [dirAt_setDir]
  split_ifs with hc
  · rw [hc.1]
    rfl
  · rfl

theorem addDirNode_dirHeap_length (a : ArchiveJUnzip) (node : Nat) (name : Str) :
    (a.addDirNode node name).dirHeap.length = a.dirHeap.length + 1 := by
  simp [ArchiveJUnzip.addDirNode, ArchiveJUnzip.setDir]

theorem dirAt_push (a : ArchiveJUnzip) (x : ArchiveDirJUnzip) (q : Nat) :
    ({ a with dirHeap := a.dirHeap ++ [x] } : ArchiveJUnzip).dirAt q =
      if q < a.dirHeap.length then a.dirAt q
      else if q = a.dirHeap.length then x else default := by
  unfold ArchiveJUnzip.dirAt
  by_cases h1 : q < a.dirHeap.length
  · simp [h1, List.getElem?_append_left h1]
  · by_cases h2 : q = a.dirHeap.length
    · simp [h2]
    · have h3 : (a.dirHeap ++ [x])[q]? = none :=
        List.getElem?_eq_none (by simp; omega)
      simp [h1, h2, h3]

/-- The directory bindings after a new directory has been added under `name` to the
directory `node`: the new binding, and the old ones. -/
theorem addDirNode_FindDir (a : ArchiveJUnzip) (node : Nat) (name : Str) (q : Nat) (n : Str)
    (hnode : node < a.dirHeap.length) (hnone : (a.dirAt node).FindDir name = none) :
    ((a.addDirNode node name).dirAt q).FindDir n =
      if q = node ∧ n = name then some a.dirHeap.length else (a.dirAt q).FindDir n := by
  unfold ArchiveJUnzip.addDirNode
  rw [dirAt_setDir]
  have hlen : node < ({ a with dirHeap := a.dirHeap ++ [{}] } : ArchiveJUnzip).dirHeap.length := by
    simp
    omega
  by_cases hq : q = node
  · rw [if_pos ⟨hq, hlen⟩, dirAt_push, if_pos hnode, hq]
    by_cases hn : n = name
    · rw [if_pos ⟨rfl, hn⟩, hn]
      exact StdMap.find_insert_self _ _ _ hnone
    · have hne : ¬ (node = node ∧ n = name) := fun hc => hn hc.2
      rw [if_neg hne]
      exact StdMap.find_insert_ne _ _ _ _ hn
  · have hne1 : ¬ (q = node ∧
        node < ({ a with dirHeap := a.dirHeap ++ [{}] } : ArchiveJUnzip).dirHeap.length) :=
      fun hc => hq hc.1
    have hne2 : ¬ (q = node ∧ n = name) := fun hc => hq hc.1
    rw [if_neg hne1, if_neg hne2, dirAt_push]
    by_cases h1 : q < a.dirHeap.length
    · rw [if_pos h1]
    · rw [if_neg h1, dirAt_out_of_range a q (by omega)]
      split_ifs <;> rfl

theorem DirsExtend_refl (a : ArchiveJUnzip) : DirsExtend a a :=
  ⟨Nat.le_refl _, fun _ _ _ h => h⟩

theorem DirsExtend_trans (a b c : ArchiveJUnzip) (h1 : DirsExtend a b) (h2 : DirsExtend b c) :
    DirsExtend a c :=
  ⟨Nat.le_trans h1.1 h2.1, fun node name d h => h2.2 node name d (h1.2 node name d h)⟩

theorem DirsExtend_of_FindDir (a b : ArchiveJUnzip)
    (hlen : a.dirHeap.length ≤ b.dirHeap.length)
    (h : ∀ q n, (b.dirAt q).FindDir n = (a.dirAt q).FindDir n) : DirsExtend a b :=
  ⟨hlen, fun node name _ hd => (h node name).trans hd⟩

theorem IndexWF_of_FindDir (a b : ArchiveJUnzip) (hwf : IndexWF a)
    (hlen : a.dirHeap.length ≤ b.dirHeap.length)
    (h : ∀ q n, (b.dirAt q).FindDir n = (a.dirAt q).FindDir n) : IndexWF b :=
  ⟨Nat.lt_of_lt_of_le hwf.1 hlen, fun node name d hd =>
    Nat.lt_of_lt_of_le (hwf.2 node name d ((h node name).symm.trans hd)) hlen⟩

theorem addDirNode_WF (a : ArchiveJUnzip) (node : Nat) (name : Str) (hwf : IndexWF a)
    (hnode : node < a.dirHeap.length) (hnone : (a.dirAt node).FindDir name = none) :
    IndexWF (a.addDirNode node name) ∧ DirsExtend a (a.addDirNode node name) ∧
    ((a.addDirNode node name).dirAt node).FindDir name = some a.dirHeap.length := by
  have hl := addDirNode_dirHeap_length a node name
  refine ⟨⟨by omega, ?_⟩, ⟨by omega, ?_⟩, ?_⟩
  · intro q n d hd
    rw [addDirNode_FindDir a node name q n hnode hnone] at hd
    split_ifs at hd with hc
    · simp only [Option.some.injEq] at hd
      omega
    · have := hwf.2 q n d hd
      omega
  · intro q n d hd
    rw [addDirNode_FindDir a node name q n hnode hnone]
    split_ifs with hc
    · rw [hc.1, hc.2, hnone] at hd
      cases hd
    · exact hd
  · rw [addDirNode_FindDir a node name node name hnode hnone, if_pos ⟨rfl, rfl⟩]

theorem walk_mono (a b : ArchiveJUnzip) (h : DirsExtend a b) :
    ∀ (parts : List Str) (node d : Nat), a.walk node parts = some d → b.walk node parts = some d
  | [], _, _, hw => hw
  | s :: rest, node, d, hw => by
    simp only [ArchiveJUnzip.walk] at hw ⊢
    cases hf : (a.dirAt node).FindDir s with
    | none => simp [hf] at hw
    | some d1 =>
      rw [hf] at hw
      rw [h.2 node s d1 hf]
      exact walk_mono a b h rest d1 d hw

theorem FindLoop_of_walk (a : ArchiveJUnzip) :
    ∀ (parts : List Str) (node d : Nat) (ret : Option ItemPtr),
      a.walk node parts = some d → (parts = [] → ret = some (ItemPtr.dir d)) →
      a.FindLoop parts (some node) ret = some (ItemPtr.dir d)
  | [], _, _, _, _, hret => by
    simp only [ArchiveJUnzip.FindLoop]
    exact hret rfl
  | s :: rest, node, d, ret, hw, _ => by
    simp only [ArchiveJUnzip.walk] at hw
    cases hf : (a.dirAt node).FindDir s with
    | none => simp [hf] at hw
    | some d1 =>
      rw [hf] at hw
      simp only [ArchiveJUnzip.FindLoop, hf]
      refine FindLoop_of_walk a rest d1 d _ hw ?_
      intro hrest
      rw [hrest] at hw
      simp only [ArchiveJUnzip.walk, Option.some.injEq] at hw
      rw [hw]

/-- A chain of directories from the root is what `Archive::Find` resolves to a Directory. -/
theorem Find_of_walk (a : ArchiveJUnzip) (parts : List Str) (d : Nat)
    (h : a.walk 0 parts = some d) : a.Find parts = some (ItemPtr.dir d) := by
  unfold ArchiveJUnzip.Find
  by_cases hp : parts.length = 0
  · have hnil : parts = [] := List.length_eq_zero.mp hp
    rw [hnil] at h
    simp only [ArchiveJUnzip.walk, Option.some.injEq] at h
    rw [if_pos hp, ← h]
    rfl
  · rw [if_neg hp]
    exact FindLoop_of_walk a parts 0 d none h
      (fun hnil => absurd (by rw [hnil]; rfl) hp)

/-- The step of `ArchiveJUnzip::AddEntry` that adds a file leaves every directory binding as
it was. -/
theorem addFile_step_FindDir (a : ArchiveJUnzip) (env : MountEnv) (node : Nat) (name : Str)
    (f : ArchiveFileJUnzip) (file : Nat) :
    (∀ q n, (((a.addFileNode node name f).Extract env file).dirAt q).FindDir n =
      (a.dirAt q).FindDir n) ∧
    (∀ q n, (((a.addFileNode node name f).Validate env file).dirAt q).FindDir n =
      (a.dirAt q).FindDir n) ∧
    ((a.addFileNode node name f).Extract env file).dirHeap.length = a.dirHeap.length ∧
    ((a.addFileNode node name f).Validate env file).dirHeap.length = a.dirHeap.length := by
  refine ⟨?_, ?_, ?_, ?_⟩
  · intro q n
    rw [dirAt_of_dirHeap _ _ (Extract_dirHeap _ env file) q]
    exact addFileNode_FindDir a node name f q n
  · intro q n
    rw [dirAt_of_dirHeap _ _ (Validate_dirHeap _ env file) q]
    exact addFileNode_FindDir a node name f q n
  · rw [Extract_dirHeap]
    exact addFileNode_dirHeap_length a node name f
  · rw [Validate_dirHeap]
    exact addFileNode_dirHeap_length a node name f

/-- The loop of `ArchiveJUnzip::AddEntry` from position `i` in a well-formed index: the index
stays well formed, no directory binding is lost, and afterwards every proper prefix of the
remaining parts leads from `node` through directories. -/
theorem AddEntryLoop_prefixes (env : MountEnv) (idx : Int) (hdr : JZFileHeader)
    (is_dir : Bool) (sz : Nat) :
    ∀ (parts : List Str) (i : Nat) (a : ArchiveJUnzip) (node : Nat),
      IndexWF a → node < a.dirHeap.length → sz = i + parts.length →
      IndexWF (AddEntryLoop env idx hdr is_dir sz parts i a node) ∧
      DirsExtend a (AddEntryLoop env idx hdr is_dir sz parts i a node) ∧
      ∀ k, k < parts.length →
        ∃ d, (AddEntryLoop env idx hdr is_dir sz parts i a node).walk node (parts.take k) =
          some d
  | [], i, a, node, hwf, _, _ => by
    simp only [AddEntryLoop]
    exact ⟨hwf, DirsExtend_refl a, fun k hk => absurd hk (by simp)⟩
  | name :: rest, i, a, node, hwf, hnode, hsz => by
    have hwalk : ∀ (b : ArchiveJUnzip) (d : Nat), (b.dirAt node).FindDir name = some d →
        (∀ k, k < rest.length → ∃ d2, b.walk d (rest.take k) = some d2) →
        ∀ k, k < (name :: rest).length → ∃ d2, b.walk node ((name :: rest).take k) = some d2 := by
      intro b d hb hrest k hk
      cases k with
      | zero => exact ⟨node, rfl⟩
      | succ k2 =>
        simp only [List.take_succ_cons, ArchiveJUnzip.walk, hb]
        exact hrest k2 (by simpa using hk)
    cases hfd : (a.dirAt node).FindDir name with
    | some known =>
      rw [AddEntryLoop_known env idx hdr is_dir sz name rest i a node known hfd]
      have ih := AddEntryLoop_prefixes env idx hdr is_dir sz rest (i + 1) a known hwf
        (hwf.2 node name known hfd) (by simp at hsz; omega)
      exact ⟨ih.1, ih.2.1, hwalk _ known (ih.2.1.2 node name known hfd) ih.2.2⟩
    | none =>
      by_cases hlast : i = sz - 1
      · have hrest : rest = [] := by
          simp only [List.length_cons] at hsz
          exact List.length_eq_zero.mp (by omega)
        have hk0 : ∀ (b : ArchiveJUnzip) (k : Nat), k < (name :: rest).length →
            ∃ d2, b.walk node ((name :: rest).take k) = some d2 := by
          intro b k hk
          rw [hrest] at hk
          have hk2 : k = 0 := by simpa using hk
          rw [hk2]
          exact ⟨node, rfl⟩
        cases is_dir with
        | false =>
          rw [AddEntryLoop_file env idx hdr sz name rest i a node hfd hlast]
          have hs := addFile_step_FindDir a env node name
            (({ archiveId_ := idx } : ArchiveFileJUnzip).Set env hdr) a.fileHeap.length
          split_ifs
          · exact ⟨IndexWF_of_FindDir a _ hwf (Nat.le_of_eq hs.2.2.1.symm) hs.1,
              DirsExtend_of_FindDir a _ (Nat.le_of_eq hs.2.2.1.symm) hs.1, hk0 _⟩
          · exact ⟨IndexWF_of_FindDir a _ hwf (Nat.le_of_eq hs.2.2.2.symm) hs.2.1,
              DirsExtend_of_FindDir a _ (Nat.le_of_eq hs.2.2.2.symm) hs.2.1, hk0 _⟩
        | true =>
          rw [AddEntryLoop_marker env idx hdr sz name rest i a node hfd hlast, hrest]
          simp only [AddEntryLoop]
          have hd := addDirNode_WF a node name hwf hnode hfd
          refine ⟨hd.1, hd.2.1, ?_⟩
          intro k hk
          have := hk0 (a.addDirNode node name) k (by rw [hrest]; exact hk)
          rw [hrest] at this
          exact this
      · rw [AddEntryLoop_dir env idx hdr is_dir sz name rest i a node hfd hlast]
        have hd := addDirNode_WF a node name hwf hnode hfd
        have hl := addDirNode_dirHeap_length a node name
        have hset : ∀ q n, (((a.addDirNode node name).setDir a.dirHeap.length
            (((a.addDirNode node name).dirAt a.dirHeap.length).Set env hdr)).dirAt q).FindDir n =
            ((a.addDirNode node name).dirAt q).FindDir n :=
          fun q n => setDir_Set_FindDir (a.addDirNode node name) env hdr a.dirHeap.length q n
        have hlen3 : ((a.addDirNode node name).setDir a.dirHeap.length
            (((a.addDirNode node name).dirAt a.dirHeap.length).Set env hdr)).dirHeap.length =
            a.dirHeap.length + 1 := by
          simp [ArchiveJUnzip.setDir, hl]
        have hwf3 := IndexWF_of_FindDir (a.addDirNode node name) _ hd.1
          (by rw [hlen3, hl]) hset
        have hext3 := DirsExtend_of_FindDir (a.addDirNode node name) _
          (by rw [hlen3, hl]) hset
        have ih := AddEntryLoop_prefixes env idx hdr is_dir sz rest (i + 1) _ a.dirHeap.length
          hwf3 (by rw [hlen3]; omega) (by simp at hsz; omega)
        have hfind3 := hext3.2 node name a.dirHeap.length hd.2.2
        exact ⟨ih.1, DirsExtend_trans _ _ _ hd.2.1 (DirsExtend_trans _ _ _ hext3 ih.2.1),
          hwalk _ a.dirHeap.length (ih.2.1.2 node name _ hfind3) ih.2.2⟩

/-- An index that holds the root only, as in a newly constructed archive, is well formed. -/
theorem IndexWF_of_empty (a : ArchiveJUnzip) (h : a.dirHeap = [{}]) : IndexWF a := by
  refine ⟨by rw [h]; decide, ?_⟩
  intro node name d hd
  have hdir : a.dirAt node = default := by
    unfold ArchiveJUnzip.dirAt
    rw [h]
    cases node with
    | zero => rfl
    | succ n => rfl
  rw [hdir, FindDir_default] at hd
  cases hd

theorem AddEntry_prefixes (env : MountEnv) (idx : Int) (hdr : JZFileHeader) (filename : Str)
    (a : ArchiveJUnzip) (hwf : IndexWF a) :
    IndexWF (a.AddEntry env idx hdr filename).2 ∧
    DirsExtend a (a.AddEntry env idx hdr filename).2 ∧
    ∀ k, k < (SplitPath filename false).1.length →
      ∃ d, (a.AddEntry env idx hdr filename).2.walk 0 ((SplitPath filename false).1.take k) =
        some d := by
  have h := AddEntryLoop_prefixes env idx hdr (SplitPath filename false).2
    (SplitPath filename false).1.length (SplitPath filename false).1 0 a 0 hwf hwf.1
    (by omega)
  exact h

theorem readCentralDirectory_prefixes (env : MountEnv) :
    ∀ (entries : List (Int × JZFileHeader × Str)) (a : ArchiveJUnzip), IndexWF a →
      IndexWF (readCentralDirectory env entries a) ∧
      DirsExtend a (readCentralDirectory env entries a) ∧
      ∀ e ∈ entries, ∀ k, k < (SplitPath e.2.2 false).1.length →
        ∃ d, (readCentralDirectory env entries a).walk 0
          ((SplitPath e.2.2 false).1.take k) = some d
  | [], a, hwf => by
    simp only [readCentralDirectory]
    exact ⟨hwf, DirsExtend_refl a, fun e he => absurd he (by simp)⟩
  | (index, header, filepath) :: rest, a, hwf => by
    rw [(readCentralDirectory_cons env index header filepath rest a).2]
    have h1 := AddEntry_prefixes env index header filepath a hwf
    have ih := readCentralDirectory_prefixes env rest _ h1.1
    refine ⟨ih.1, DirsExtend_trans _ _ _ h1.2.1 ih.2.1, ?_⟩
    intro e he k hk
    rcases List.mem_cons.mp he with he | he
    · rw [he] at hk ⊢
      obtain ⟨d, hd⟩ := h1.2.2 k hk
      exact ⟨d, walk_mono _ _ ih.2.1 _ 0 d hd⟩
    · exact ih.2.2 e he k hk

/-- C22. Index prefix invariant. After the records of a central directory have been processed
by `ArchiveJUnzip::AddEntry`, in any number and order, from a well-formed index (such as the
index of a newly constructed archive, which holds the root only): for every processed name
with segments s1..sn and every k < n, `Archive::Find` of s1..sk from the root yields a
Directory node. -/
theorem index_prefix_invariant (env : MountEnv) (entries : List (Int × JZFileHeader × Str))
    (a : ArchiveJUnzip) (hwf : IndexWF a) :
    ∀ e ∈ entries, ∀ k, k < (SplitPath e.2.2 false).1.length →
      ∃ d, (readCentralDirectory env entries a).Find ((SplitPath e.2.2 false).1.take k) =
        some (ItemPtr.dir d) := by
  intro e he k hk
  obtain ⟨d, hd⟩ := (readCentralDirectory_prefixes env entries a hwf).2.2 e he k hk
  exact ⟨d, Find_of_walk _ _ d hd⟩

/-- C22, at the sample archive: the record "bin/www" has the segments "bin" and "www", and
its prefix "bin" resolves to a Directory node (node 2) although the archive has no record
for "bin" itself. -/
theorem index_prefix_invariant_witness :
    (SplitPath "bin/www".toList false).1 = ["bin".toList, "www".toList] ∧
    sampleArchive.Find ["bin".toList] = some (ItemPtr.dir 2) ∧
    ∃ d, (readCentralDirectory sampleEnv sampleEntries
        { mount_point_ := "/mnt".toList
          temp_path_ := "/tmp/archive_cache/0f".toList
          extract_on_mount_ := true
          mounted := true }).Find
      ((SplitPath "bin/www".toList false).1.take 1) = some (ItemPtr.dir d) :=
  ⟨by decide, by decide,
   index_prefix_invariant sampleEnv sampleEntries _ (IndexWF_of_empty _ rfl)
     (4, { lastModFileDate := 20004, lastModFileTime := 30004, uncompressedSize := 9,
           offset := 640 }, "bin/www".toList)
     (by simp [sampleEntries]) 1 (by decide)⟩

/-- C23. A directory marker does not stamp its directory. `ArchiveJUnzip::AddEntry` calls
`ArchiveDirJUnzip::Set` only for a new directory that is not the last segment of the name.
For the marker "a/b/" on an index that holds the root only, the Directory node of "a/b"
exists and its last-modified time is 0, not the conversion of the timestamp of the marker,
which is stored in the node of "a" instead. For the marker "bin/" on the sample archive,
where the directory exists already, the directory keeps the time it had (that of the record
"bin/www", which created it). -/
theorem AddEntry_marker_timestamp :
    (DOSToTimeT sampleEnv markerHeader.lastModFileDate markerHeader.lastModFileTime ≠ 0 ∧
      (SplitPath "a/b/".toList false) = (["a".toList, "b".toList], true) ∧
      (emptyMount.AddEntry sampleEnv 0 markerHeader "a/b/".toList).2.Find
        ["a".toList, "b".toList] = some (ItemPtr.dir 2) ∧
      ((emptyMount.AddEntry sampleEnv 0 markerHeader "a/b/".toList).2.dirAt 2).lastModified_ =
        0 ∧
      (emptyMount.AddEntry sampleEnv 0 markerHeader "a/b/".toList).2.Find ["a".toList] =
        some (ItemPtr.dir 1) ∧
      ((emptyMount.AddEntry sampleEnv 0 markerHeader "a/b/".toList).2.dirAt 1).lastModified_ =
        DOSToTimeT sampleEnv markerHeader.lastModFileDate markerHeader.lastModFileTime) ∧
    (sampleArchive.Find ["bin".toList] = some (ItemPtr.dir 2) ∧
      (sampleArchive.dirAt 2).lastModified_ = DOSToTimeT sampleEnv 20004 30004 ∧
      (sampleArchive.AddEntry sampleEnv 5 markerHeader "bin/".toList).2.Find ["bin".toList] =
        some (ItemPtr.dir 2) ∧
      ((sampleArchive.AddEntry sampleEnv 5 markerHeader "bin/".toList).2.dirAt 2).lastModified_ =
        DOSToTimeT sampleEnv 20004 30004 ∧
      DOSToTimeT sampleEnv 20004 30004 ≠
        DOSToTimeT sampleEnv markerHeader.lastModFileDate markerHeader.lastModFileTime) ∧
    (sampleArchive.Find ["public".toList] = some (ItemPtr.dir 1) ∧
      (sampleArchive.dirAt 1).lastModified_ = 0 ∧
      DOSToTimeT sampleEnv 20000 30000 ≠ 0) := by
  decide

/-! ## Duplicate records -/

theorem fileAt_unsafe_flag (a : ArchiveJUnzip) (q : Nat) :
    ({ a with is_unsafe_ := true } : ArchiveJUnzip).fileAt q = a.fileAt q := rfl

theorem Extract_fileAt_ne (a : ArchiveJUnzip) (env : MountEnv) (file q : Nat) (h : q ≠ file) :
    (a.Extract env file).fileAt q = a.fileAt q := by
  simp only [ArchiveJUnzip.Extract]
  split_ifs
  · rfl
  · rw [fileAt_setFile_ne _ _ _ _ h, fileAt_unsafe_flag, fileAt_setFile_ne _ _ _ _ h]
  · rw [fileAt_setFile_ne _ _ _ _ h, fileAt_setFile_ne _ _ _ _ h]
  · rw [fileAt_setFile_ne _ _ _ _ h, fileAt_setFile_ne _ _ _ _ h]

theorem Validate_fileAt_ne (a : ArchiveJUnzip) (env : MountEnv) (file q : Nat) (h : q ≠ file) :
    (a.Validate env file).fileAt q = a.fileAt q := by
  simp only [ArchiveJUnzip.Validate]
  split_ifs
  · rfl
  · rw [fileAt_unsafe_flag, fileAt_setFile_ne _ _ _ _ h, fileAt_setFile_ne _ _ _ _ h]
  · rw [fileAt_setFile_ne _ _ _ _ h, fileAt_setFile_ne _ _ _ _ h]

theorem set_getD_self {α : Type} (d : α) : ∀ (l : List α) (n : Nat), l.set n (l[n]?.getD d) = l
  | [], _ => rfl
  | x :: t, 0 => by simp
  | x :: t, n + 1 => by
    simp only [List.set_cons_succ, List.getElem?_cons_succ]
    rw [set_getD_self d t n]

/-- Adding a file under a name that the directory holds as a file already changes no
directory: `std::map::insert` keeps the old binding. -/
theorem addFileNode_duplicate (a : ArchiveJUnzip) (node : Nat) (name : Str)
    (f : ArchiveFileJUnzip) (p : Nat) (h : (a.dirAt node).FindFile name = some p) :
    (a.addFileNode node name f).dirHeap = a.dirHeap ∧
    ∀ q, q < a.fileHeap.length → (a.addFileNode node name f).fileAt q = a.fileAt q := by
  have hdir : (({ a with fileHeap := a.fileHeap ++ [f] } : ArchiveJUnzip).dirAt node).AddFile
      name a.fileHeap.length = a.dirAt node := by
    have h1 : ({ a with fileHeap := a.fileHeap ++ [f] } : ArchiveJUnzip).dirAt node =
        a.dirAt node := rfl
    rw [h1]
    unfold ArchiveDirJUnzip.AddFile
    rw [StdMap.insert_of_find_some _ _ _ _ h]
  constructor
  · unfold ArchiveJUnzip.addFileNode
    rw [hdir]
    simp only [ArchiveJUnzip.setDir, ArchiveJUnzip.dirAt]
    exact set_getD_self default a.dirHeap node
  · intro q hq
    unfold ArchiveJUnzip.addFileNode
    simp [ArchiveJUnzip.setDir, ArchiveJUnzip.fileAt, List.getElem?_append_left hq]

theorem AddEntryLoop_duplicate (env : MountEnv) (idx : Int) (hdr : JZFileHeader) (sz : Nat) :
    ∀ (parts : List Str) (i : Nat) (a : ArchiveJUnzip) (node : Nat) (ret : Option ItemPtr)
      (p : Nat), sz = i + parts.length → parts ≠ [] →
      a.FindLoop parts (some node) ret = some (ItemPtr.file p) →
      (AddEntryLoop env idx hdr false sz parts i a node).dirHeap = a.dirHeap ∧
      ∀ q, q < a.fileHeap.length →
        (AddEntryLoop env idx hdr false sz parts i a node).fileAt q = a.fileAt q
  | [], _, _, _, _, _, _, hne, _ => absurd rfl hne
  | name :: rest, i, a, node, ret, p, hsz, _, hfind => by
    cases hfd : (a.dirAt node).FindDir name with
    | some d =>
      rw [AddEntryLoop_known env idx hdr false sz name rest i a node d hfd]
      simp only [ArchiveJUnzip.FindLoop, hfd] at hfind
      have hrest : rest ≠ [] := by
        intro hr
        rw [hr] at hfind
        simp [ArchiveJUnzip.FindLoop] at hfind
      exact AddEntryLoop_duplicate env idx hdr sz rest (i + 1) a d _ p
        (by simp at hsz; omega) hrest hfind
    | none =>
      simp only [ArchiveJUnzip.FindLoop, hfd] at hfind
      have hrest : rest = [] := by
        cases rest with
        | nil => rfl
        | cons r rs => simp [ArchiveJUnzip.FindLoop] at hfind
      rw [hrest] at hfind hsz
      simp only [ArchiveJUnzip.FindLoop, Option.map_eq_some'] at hfind
      obtain ⟨p2, hp2, hp3⟩ := hfind
      have hlast : i = sz - 1 := by
        simp at hsz
        omega
      rw [AddEntryLoop_file env idx hdr sz name rest i a node hfd hlast]
      have hdup := addFileNode_duplicate a node name
        (({ archiveId_ := idx } : ArchiveFileJUnzip).Set env hdr) p2 hp2
      split_ifs
      · refine ⟨by rw [Extract_dirHeap]; exact hdup.1, ?_⟩
        intro q hq
        rw [Extract_fileAt_ne _ env _ q (by omega)]
        exact hdup.2 q hq
      · refine ⟨by rw [Validate_dirHeap]; exact hdup.1, ?_⟩
        intro q hq
        rw [Validate_fileAt_ne _ env _ q (by omega)]
        exact hdup.2 q hq

/-- C24. Duplicate entries. When `ArchiveJUnzip::AddEntry` processes a file entry (a name
that does not end with a separator) whose segments already resolve to a File node, the
index is unchanged: every directory is as before, `Archive::Find` returns for every path
what it returned before, and every File node that existed keeps its size, offset,
timestamp, entry id and state; `AddEntry` returns 1. -/
theorem AddEntry_duplicate_file (a : ArchiveJUnzip) (env : MountEnv) (idx : Int)
    (hdr : JZFileHeader) (filename : Str) (p : Nat)
    (hfile : (SplitPath filename false).2 = false)
    (hfind : a.Find (SplitPath filename false).1 = some (ItemPtr.file p)) :
    (a.AddEntry env idx hdr filename).1 = 1 ∧
    (a.AddEntry env idx hdr filename).2.dirHeap = a.dirHeap ∧
    (∀ path_parts : List Str,
      (a.AddEntry env idx hdr filename).2.Find path_parts = a.Find path_parts) ∧
    (∀ q, q < a.fileHeap.length →
      (a.AddEntry env idx hdr filename).2.fileAt q = a.fileAt q) ∧
    (∀ (path_parts : List Str) (q : Nat), a.Find path_parts = some (ItemPtr.file q) →
      q < a.fileHeap.length →
      (a.AddEntry env idx hdr filename).2.Find path_parts = some (ItemPtr.file q) ∧
      ((a.AddEntry env idx hdr filename).2.fileAt q).size_ = (a.fileAt q).size_ ∧
      ((a.AddEntry env idx hdr filename).2.fileAt q).offset_ = (a.fileAt q).offset_ ∧
      ((a.AddEntry env idx hdr filename).2.fileAt q).lastModified_ =
        (a.fileAt q).lastModified_ ∧
      ((a.AddEntry env idx hdr filename).2.fileAt q).archiveId_ = (a.fileAt q).archiveId_) := by
  have hne : (SplitPath filename false).1 ≠ [] := by
    intro hnil
    rw [hnil] at hfind
    simp [ArchiveJUnzip.Find] at hfind
  have hlen : ¬ (SplitPath filename false).1.length = 0 := fun h0 =>
    hne (List.length_eq_zero.mp h0)
  have hloop : a.FindLoop (SplitPath filename false).1 (some 0) none =
      some (ItemPtr.file p) := by
    unfold ArchiveJUnzip.Find at hfind
    rw [if_neg hlen] at hfind
    exact hfind
  have hadd : (a.AddEntry env idx hdr filename).2 =
      AddEntryLoop env idx hdr false (SplitPath filename false).1.length
        (SplitPath filename false).1 0 a 0 := by
    simp only [ArchiveJUnzip.AddEntry, hfile, ArchiveJUnzip.Root]
  have hdup := AddEntryLoop_duplicate env idx hdr (SplitPath filename false).1.length
    (SplitPath filename false).1 0 a 0 none p (by omega) hne hloop
  rw [← hadd] at hdup
  have hFind : ∀ path_parts : List Str,
      (a.AddEntry env idx hdr filename).2.Find path_parts = a.Find path_parts :=
    fun path_parts => Find_congr a _ hdup.1 path_parts
  refine ⟨rfl, hdup.1, hFind, hdup.2, ?_⟩
  intro path_parts q hq hlt
  rw [hFind, hdup.2 q hlt]
  exact ⟨hq, rfl, rfl, rfl, rfl⟩

/-- C24, at the sample archive: a second record "app.js", with index 9 and size 999, leaves
"app.js" resolving to the File node 2 with the size 77 and the entry id 3 of the first. -/
theorem AddEntry_duplicate_file_witness :
    (SplitPath "app.js".toList false).2 = false ∧
    sampleArchive.Find (SplitPath "app.js".toList false).1 = some (ItemPtr.file 2) ∧
    (sampleArchive.fileAt 2).size_ = 77 ∧ (sampleArchive.fileAt 2).archiveId_ = 3 ∧
    (sampleArchive.AddEntry sampleEnv 9 { uncompressedSize := 999 } "app.js".toList).2.Find
      ["app.js".toList] = some (ItemPtr.file 2) ∧
    ((sampleArchive.AddEntry sampleEnv 9 { uncompressedSize := 999 } "app.js".toList).2.fileAt
      2).size_ = 77 :=
  ⟨by decide, by decide, by decide, by decide,
   ((AddEntry_duplicate_file sampleArchive sampleEnv 9 { uncompressedSize := 999 }
      "app.js".toList 2 (by decide) (by decide)).2.2.2.2 ["app.js".toList] 2 (by decide)
      (by decide)).1,
   ((AddEntry_duplicate_file sampleArchive sampleEnv 9 { uncompressedSize := 999 }
      "app.js".toList 2 (by decide) (by decide)).2.2.2.2 ["app.js".toList] 2 (by decide)
      (by decide)).2.1.trans (by decide)⟩

end archive
